import Mathlib

/-!
# darksky: the forecast client (`forecast.go`)

A shallow embedding of the Go package `darksky` and the properties of its one
operation, `GetForecast`.

Conventions of the embedding.

* A Go `string` is a Lean `String`.  Go strings are byte strings; the embedding
  covers the well-formed UTF-8 ones, and where the Go code works on bytes
  (`strconv.Atoi`) the model works on the UTF-8 bytes of the string.
* Go `int` is the 64-bit one (`intSize = 64`); values are `Int`.
* A `float64` is its bit pattern (`Float64`); a slice is a `Slice`: its
  elements and what its backing array holds beyond its length.
* The effects of a call are recorded in a trace of `Event`s, in program order.
* `http.Get` and the JSON decoder are collaborators of the package.  The
  transport is a parameter of `getResponse` and `GetForecast`; the decoder is a
  parameter of `fromJSON` (`Decoder`), and `jsonDecode` further down is the model
  of `encoding/json` used where a claim is about the decoding itself.
* The encoder of `encoding/json` is modelled for the round trip
  (`encodeForecast`); how it writes a `float64` is a parameter (`FloatFmt`).
-/

namespace Darksky

/-! ## Constants -/

/-- The endpoint every request starts with. -/
def BASEURL : String := "https://api.darksky.net/forecast"

/-- Units is a string type: any string is a value of it. -/
abbrev Units := String

/-- Lang is a string type: any string is a value of it. -/
abbrev Lang := String

def CA : Units := "ca"
def SI : Units := "si"
def US : Units := "us"
def UK : Units := "uk"
def AUTO : Units := "auto"

def Arabic : Lang := "ar"
def Azerbaijani : Lang := "az"
def Belarusian : Lang := "be"
def Bosnian : Lang := "bs"
def Catalan : Lang := "ca"
def Czech : Lang := "cs"
def German : Lang := "de"
def Greek : Lang := "el"
def English : Lang := "en"
def Spanish : Lang := "es"
def Estonian : Lang := "et"
def French : Lang := "fr"
def Croatian : Lang := "hr"
def Hungarian : Lang := "hu"
def Indonesian : Lang := "id"
def Italian : Lang := "it"
def Icelandic : Lang := "is"
def Cornish : Lang := "kw"
def Indonesia : Lang := "nb"
def Dutch : Lang := "nl"
def Polish : Lang := "pl"
def Portuguese : Lang := "pt"
def Russian : Lang := "ru"
def Slovak : Lang := "sk"
def Slovenian : Lang := "sl"
def Serbian : Lang := "sr"
def Swedish : Lang := "sv"
def Tetum : Lang := "te"
def Turkish : Lang := "tr"
def Ukrainian : Lang := "uk"
def IgpayAtinlay : Lang := "x-pig-latin"
def SimplifiedChinese : Lang := "zh"
def TraditionalChinese : Lang := "zh-tw"

/-! ## Errors -/

/-- The error values that occur: the transport's, the ones of the decoder
(`io.EOF`, `io.ErrUnexpectedEOF`, a `*json.SyntaxError`, whose message and
offset are left out, a `*json.UnmarshalTypeError` with its `Value` and the
name of its `Type`, a `*json.UnsupportedValueError`) and the
`*strconv.NumError`s. -/
inductive GoError
  | transport (msg : String)
  | eof
  | unexpectedEOF
  | jsonSyntax
  | unmarshalType (value : String) (goType : String)
  | unsupportedValue
  | numSyntax (fn : String) (num : String)
  | numRange (fn : String) (num : String)
  deriving DecidableEq, Repr

/-! ## The data model -/

/-- A `float64`, by its IEEE-754 binary64 bit pattern (`math.Float64bits`).
The zero value is the pattern 0. -/
structure Float64 where
  bits : Nat
  deriving DecidableEq, Repr

/-- A Go slice `[]T`: whether it is nil, its elements, and the elements that
its backing array still holds beyond its length.  The last are no part of the
value (neither `len`, nor indexing, nor an encoder sees them), but a decoder
that lengthens the slice decodes into them.  The zero value is the nil
slice. -/
structure Slice (α : Type) where
  isNil : Bool := true
  items : List α := []
  spare : List α := []
  deriving DecidableEq, Repr

/-- The slice literal `[]T{...}` of the elements `xs`. -/
def Slice.ofList {α : Type} (xs : List α) : Slice α :=
  ⟨false, xs, []⟩

/-- Flags are the optional fields that can come back from the API, such as weather stations. -/
structure Flags where
  DarkSkyUnavailable : String := ""
  DarkSkyStations : Slice String := {}
  DataPointStations : Slice String := {}
  ISDStations : Slice String := {}
  LAMPStations : Slice String := {}
  MADISStations : Slice String := {}
  METARStations : Slice String := {}
  METNOLicense : String := ""
  Sources : Slice String := {}
  Units : String := ""
  deriving DecidableEq, Repr

/-- DataPoint is the catch-all record of the fields a forecast can have. -/
structure DataPoint where
  Time : Int := 0
  Summary : String := ""
  Icon : String := ""
  SunriseTime : Int := 0
  SunsetTime : Int := 0
  MoonPhase : Float64 := ⟨0⟩
  PrecipIntensity : Float64 := ⟨0⟩
  PrecipIntensityMax : Float64 := ⟨0⟩
  PrecipIntensityMaxTime : Int := 0
  PrecipProbability : Float64 := ⟨0⟩
  PrecipAccumulation : Float64 := ⟨0⟩
  PrecipType : String := ""
  Temperature : Float64 := ⟨0⟩
  TemperatureMin : Float64 := ⟨0⟩
  TemperatureMinTime : Int := 0
  TemperatureMax : Float64 := ⟨0⟩
  TemperatureMaxTime : Int := 0
  ApparentTemperature : Float64 := ⟨0⟩
  ApparentTemperatureMin : Float64 := ⟨0⟩
  ApparentTemperatureMinTime : Int := 0
  ApparentTemperatureMax : Float64 := ⟨0⟩
  ApparentTemperatureMaxTime : Int := 0
  NearestStormBearing : Float64 := ⟨0⟩
  NearestStormDistance : Float64 := ⟨0⟩
  DewPoint : Float64 := ⟨0⟩
  Humidity : Float64 := ⟨0⟩
  WindSpeed : Float64 := ⟨0⟩
  WindGust : Float64 := ⟨0⟩
  WindGustTime : Int := 0
  WindBearing : Int := 0
  Visibility : Float64 := ⟨0⟩
  CloudCover : Float64 := ⟨0⟩
  Pressure : Float64 := ⟨0⟩
  Ozone : Float64 := ⟨0⟩
  UvIndex : Float64 := ⟨0⟩
  UvIndexTime : Int := 0
  deriving DecidableEq, Repr

/-- DataBlock holds the summary of a forecast and its data points, in order. -/
structure DataBlock where
  Summary : String := ""
  Icon : String := ""
  Data : Slice DataPoint := {}
  deriving DecidableEq, Repr

/-- Alert is a weather alert for the area (`Time` is the `int64` field). -/
structure Alert where
  Title : String := ""
  Regions : Slice String := {}
  Severity : String := ""
  Description : String := ""
  Time : Int := 0
  Expires : Float64 := ⟨0⟩
  URI : String := ""
  deriving DecidableEq, Repr

/-- Forecast is a full response of the API. -/
structure Forecast where
  Latitude : Float64 := ⟨0⟩
  Longitude : Float64 := ⟨0⟩
  Timezone : String := ""
  Offset : Float64 := ⟨0⟩
  Currently : DataPoint := {}
  Minutely : DataBlock := {}
  Hourly : DataBlock := {}
  Daily : DataBlock := {}
  Alerts : Slice Alert := {}
  Flags : Flags := {}
  APICalls : Int := 0
  Code : Int := 0
  ResponseTime : Int := 0
  deriving DecidableEq, Repr

/-! ## HTTP: headers, responses, the transport -/

/-- The token bytes of a header name (`validHeaderFieldByte` of `net/textproto`):
letters, digits and the marks ! # $ % & ' * + - . ^ _ \x60 | ~. -/
def validHeaderFieldByte (c : Char) : Bool :=
  let n := c.toNat
  (48 ≤ n && n ≤ 57) || (65 ≤ n && n ≤ 90) || (97 ≤ n && n ≤ 122) ||
    [33, 35, 36, 37, 38, 39, 42, 43, 45, 46, 94, 95, 96, 124, 126].contains n

/-- The loop of `canonicalMIMEHeaderKey`: upper case for the first letter and
for each letter after a dash, lower case for the others. -/
def canonicalLoop : Bool → List Char → List Char
  | _, [] => []
  | upper, c :: cs =>
    let c1 :=
      if upper && (97 ≤ c.toNat && c.toNat ≤ 122) then Char.ofNat (c.toNat - 32)
      else if !upper && (65 ≤ c.toNat && c.toNat ≤ 90) then Char.ofNat (c.toNat + 32)
      else c
    c1 :: canonicalLoop (c1 == '-') cs

/-- `textproto.CanonicalMIMEHeaderKey`: a key with a byte that is not a token
byte (a space, a non-ASCII byte) is returned unchanged, any other key in
canonical form. -/
def CanonicalMIMEHeaderKey (s : String) : String :=
  if s.data.all validHeaderFieldByte then String.mk (canonicalLoop true s.data) else s

/-- `http.Header`, a map from canonical keys to the values received. -/
abbrev Header := List (String × List String)

/-- `Header.Get`: the first value under the canonical form of the key, or the
empty string when there is none. -/
def Header.Get (h : Header) (key : String) : String :=
  match h.lookup (CanonicalMIMEHeaderKey key) with
  | some (v :: _) => v
  | _ => ""

/-- The body of a response: the bytes its reader yields. -/
structure Body where
  content : String
  deriving DecidableEq, Repr

/-- The part of `http.Response` the package can observe. -/
structure Response where
  Status : String
  StatusCode : Int
  Header : Header
  Body : Body
  deriving DecidableEq, Repr

/-- What `http.Get` hands back: a response and no error, or an error (with a
response only when a redirect was refused). -/
inductive GetResult
  | ok (res : Response)
  | failed (res : Option Response) (err : GoError)
  deriving DecidableEq, Repr

/-- The transport: `http.Get` as a function of the URL. -/
abbrev Transport := String → GetResult

/-- The observable steps of a call, in program order. -/
inductive Event
  | httpGet (url : String)
  | decode (body : Body)
  | headerGet (key : String)
  | close (body : Body)
  deriving DecidableEq, Repr

/-! ## strconv.Atoi -/

/-- The UTF-8 bytes of a character. -/
def utf8Bytes (c : Char) : List Nat :=
  let n := c.toNat
  if n < 128 then [n]
  else if n < 2048 then [192 + n / 64, 128 + n % 64]
  else if n < 65536 then [224 + n / 4096, 128 + n / 64 % 64, 128 + n % 64]
  else [240 + n / 262144, 128 + n / 4096 % 64, 128 + n / 64 % 64, 128 + n % 64]

/-- The bytes of a Go string. -/
def goBytes (s : String) : List Nat :=
  s.data.flatMap utf8Bytes

/-- The size of `int` in bits. -/
def intSize : Nat := 64

/-- `maxUint64`. -/
def maxUint64 : Nat := 2 ^ 64 - 1

/-- The loop of `strconv.ParseUint` at base 10 and bit size 64, over the bytes
left and the value so far; `s0` is the text reported in the error.  At base 10
every byte that is not a digit (letters and the underscore too) is a syntax
error.  An overflow ends the loop at once with `maxVal` and a range error. -/
def parseUintLoop (s0 : String) : List Nat → Nat → Nat × Option GoError
  | [], n => (n, none)
  | c :: cs, n =>
    if 48 ≤ c ∧ c ≤ 57 then
      let d := c - 48
      if n ≥ maxUint64 / 10 + 1 then
        (maxUint64, some (GoError.numRange "ParseUint" s0))
      else
        let n10 := n * 10 % 2 ^ 64
        let n1 := (n10 + d) % 2 ^ 64
        if n1 < n10 ∨ n1 > maxUint64 then
          (maxUint64, some (GoError.numRange "ParseUint" s0))
        else parseUintLoop s0 cs n1
    else (0, some (GoError.numSyntax "ParseUint" s0))

/-- `strconv.ParseUint(s, 10, 0)`, on the bytes of `s`. -/
def ParseUint (s0 : String) (s : List Nat) : Nat × Option GoError :=
  if s = [] then (0, some (GoError.numSyntax "ParseUint" s0))
  else parseUintLoop s0 s 0

/-- The conversion `int64(un)` of a `uint64`. -/
def toInt64 (un : Nat) : Int :=
  if un % 2 ^ 64 < 2 ^ 63 then (un % 2 ^ 64 : Nat) else (un % 2 ^ 64 : Nat) - 2 ^ 64

/-- Negation of an `int64`, which wraps at the least value. -/
def negInt64 (n : Int) : Int :=
  if n = -(2 ^ 63) then n else -n

/-- `strconv.ParseInt(s, 10, 0)`, on the bytes of `s`; `s0` is `s` as text.
A range error comes with the nearest bound of `int64`. -/
def ParseInt (s0 : String) (s : List Nat) : Int × Option GoError :=
  match s with
  | [] => (0, some (GoError.numSyntax "ParseInt" s0))
  | c :: cs =>
    let neg := c == 45
    let digits := if c == 43 ∨ c == 45 then cs else s
    match ParseUint s0 digits with
    | (_, some (GoError.numSyntax _ _)) => (0, some (GoError.numSyntax "ParseInt" s0))
    | (un, _) =>
      let cutoff := 2 ^ (intSize - 1)
      if !neg ∧ un ≥ cutoff then ((cutoff : Nat) - 1, some (GoError.numRange "ParseInt" s0))
      else if neg ∧ un > cutoff then (-(cutoff : Nat), some (GoError.numRange "ParseInt" s0))
      else
        let n := toInt64 un
        (if neg then negInt64 n else n, none)

/-- The loop of the fast path of `Atoi`: `ch -= '0'` on a byte, a syntax
error when the result exceeds 9. -/
def atoiLoop : List Nat → Int → Option Int
  | [], n => some n
  | ch :: cs, n =>
    let d := (ch + 256 - 48) % 256
    if d > 9 then none else atoiLoop cs (n * 10 + d)

/-- The name of the function in an error of `ParseInt` is set to `Atoi`. -/
def renameAtoi : Option GoError → Option GoError
  | some (GoError.numSyntax _ num) => some (GoError.numSyntax "Atoi" num)
  | some (GoError.numRange _ num) => some (GoError.numRange "Atoi" num)
  | e => e

/-- `strconv.Atoi`.  Strings of 1 to 18 bytes take the fast path, which cannot
overflow; the others go through `ParseInt`. -/
def Atoi (s : String) : Int × Option GoError :=
  let b := goBytes s
  let sLen := b.length
  if 0 < sLen ∧ sLen < 19 then
    let digits := if b.head? = some 45 ∨ b.head? = some 43 then b.tail else b
    if digits.length < 1 then (0, some (GoError.numSyntax "Atoi" s))
    else
      match atoiLoop digits 0 with
      | none => (0, some (GoError.numSyntax "Atoi" s))
      | some n => (if b.head? = some 45 then -n else n, none)
  else
    let r := ParseInt s b
    (r.1, renameAtoi r.2)

/-! ## fromJSON -/

/-- The decoder `json.NewDecoder(reader).Decode(&f)`: from the reader and the
record it is given, the record as it leaves it and the error, if any.  A failed
decode may have written part of the record. -/
abbrev Decoder := Body → Forecast → Forecast × Option GoError

/-- Function `fromJSON`: decode into a fresh, zero `Forecast`; on an error
nothing of the record is returned. -/
def fromJSON (dec : Decoder) (reader : Body) : Option Forecast × Option GoError :=
  let f : Forecast := {}
  match dec reader f with
  | (_, some err) => (none, some err)
  | (f, none) => (some f, none)

/-! ## getResponse and GetForecast -/

/-- The URL `getResponse` builds: the two branches of the source. -/
def requestURL (key lat long time : String) (units : Units) (lang : Lang) : String :=
  let coord := lat ++ "," ++ long
  if time = "now" then
    BASEURL ++ "/" ++ key ++ "/" ++ coord ++ "?units=" ++ units ++ "&lang=" ++ lang
  else
    BASEURL ++ "/" ++ key ++ "/" ++ coord ++ "," ++ time ++ "?units=" ++ units ++ "&lang=" ++ lang

/-- Function `getResponse`: one GET of the URL; the result of the transport is
handed on as it is, together with the trace of the call. -/
def getResponse (get : Transport) (key lat long time : String) (units : Units) (lang : Lang) :
    GetResult × List Event :=
  let url := requestURL key lat long time units lang
  match get url with
  | GetResult.failed res err => (GetResult.failed res err, [Event.httpGet url])
  | GetResult.ok res => (GetResult.ok res, [Event.httpGet url])

/-- What a call of `GetForecast` yields: the two results, the trace, and
whether the call ended in a panic. -/
structure Outcome where
  forecast : Option Forecast
  err : Option GoError
  trace : List Event
  panicked : Bool
  deriving DecidableEq, Repr

/-- Function `GetForecast`.  The deferred `res.Body.Close()` runs when the
function returns, on either path after the response was obtained.  The third
branch is the nil dereference `f.ResponseTime` on a nil record without an
error, which `fromJSON` never returns. -/
def GetForecast (get : Transport) (dec : Decoder) (key lat long time : String)
    (units : Units) (lang : Lang) : Outcome :=
  match getResponse get key lat long time units lang with
  | (GetResult.failed _ err, tr) => ⟨none, some err, tr, false⟩
  | (GetResult.ok res, tr) =>
    match fromJSON dec res.Body with
    | (_, some err) =>
      ⟨none, some err, tr ++ [Event.decode res.Body, Event.close res.Body], false⟩
    | (none, none) =>
      ⟨none, none, tr ++ [Event.decode res.Body, Event.close res.Body], true⟩
    | (some f, none) =>
      let calls := (Atoi (res.Header.Get "X-Forecast-API-Calls")).1
      let f := { f with ResponseTime := (Atoi (res.Header.Get "X-Response-Time")).1 }
      let f := { f with APICalls := calls }
      ⟨some f, none, tr ++ [Event.decode res.Body, Event.headerGet "X-Forecast-API-Calls",
        Event.headerGet "X-Response-Time", Event.close res.Body], false⟩

/-! ## The path segment of the URL -/

/-- The text `getResponse` puts between `key ++ "/"` and `"?units="`: `coord` on
the branch of `time == "now"`, `coord + "," + time` on the other. -/
def coordSegment (lat long time : String) : String :=
  if time = "now" then lat ++ "," ++ long else lat ++ "," ++ long ++ "," ++ time

/-- The parts of a string between its commas (`strings.Split(s, ",")`). -/
def splitComma (s : String) : List String :=
  (s.data.splitOn ',').map String.mk

/-- The number of commas in a string. -/
def commas (s : String) : Nat :=
  s.data.count ','

/-! ## Decimal numerals -/

/-- Whether a character is one of the digits 0 to 9. -/
def isDecDigit (c : Char) : Bool :=
  48 ≤ c.toNat && c.toNat ≤ 57

/-- The value of a row of digits read after the value `acc`. -/
def digitsFold (acc : Nat) (ds : List Char) : Nat :=
  ds.foldl (fun a c => a * 10 + (c.toNat - 48)) acc

/-- The number a non-empty row of decimal digits denotes; `none` for the empty
row and for a row with another character. -/
def digitsValue (ds : List Char) : Option Nat :=
  if ds ≠ [] ∧ ds.all isDecDigit then some (digitsFold 0 ds) else none

/-- The integer a string holds when it is a decimal numeral: an optional sign
`+` or `-` and one or more digits.  `none` for every other string. -/
def decimalValue (s : String) : Option Int :=
  match s.data with
  | '-' :: ds => (digitsValue ds).map (fun n => -(n : Int))
  | '+' :: ds => (digitsValue ds).map (fun n => (n : Int))
  | ds => (digitsValue ds).map (fun n => (n : Int))

/-- Whether an event is the closing of a body. -/
def Event.isClose : Event → Bool
  | Event.close _ => true
  | _ => false

/-! ## encoding/json: the scanner

The bytes of the body are scanned one at a time, as the step functions of
`scanner.go` do; the value they delimit is kept as a tree. -/

/-- A JSON value: a number by its literal text, a string by its decoded
text, the members of an object in the order of the document. -/
inductive Json
  | null
  | bool (b : Bool)
  | num (lit : String)
  | str (s : String)
  | arr (items : List Json)
  | obj (members : List (String × Json))

/-- An open container: an object with its members so far and the key being
read, or an array with its items so far. -/
inductive Frame
  | obj (members : List (String × Json)) (key : String)
  | arr (items : List Json)

/-- The states inside a number (`stateNeg`, `state0`, `state1`, `stateDot`,
`stateDot0`, `stateE`, `stateESign`, `stateE0`). -/
inductive NumState
  | neg | zero | int | dot | frac | e | eSign | exp
  deriving DecidableEq, Repr

/-- The states of the scanner. -/
inductive Lex
  | beginValue
  | beginValueOrEmpty
  | beginStringOrEmpty
  | beginString
  | inString (isKey : Bool) (raw : List Char)
  | inStringEsc (isKey : Bool) (raw : List Char)
  | inStringEscU (isKey : Bool) (raw : List Char) (left : Nat)
  | endKey
  | number (st : NumState) (text : List Char)
  | literal (rest : List Char) (v : Json)
  | endValue
  | endTop (v : Json)

/-- The result of a step: go on, the top-level value is complete, or a syntax
error. -/
inductive Step
  | next (lex : Lex) (stack : List Frame)
  | done (v : Json)
  | bad

/-- Function `isSpace`. -/
def isSpace (c : Char) : Bool :=
  c == ' ' || c == '\t' || c == '\r' || c == '\n'

/-- The nesting depth the scanner allows. -/
def maxNestingDepth : Nat := 10000

/-- Whether a character is a hexadecimal digit. -/
def isHexDigit (c : Char) : Bool :=
  (48 ≤ c.toNat && c.toNat ≤ 57) || (97 ≤ c.toNat && c.toNat ≤ 102) ||
    (65 ≤ c.toNat && c.toNat ≤ 70)

/-- The value of a hexadecimal digit. -/
def hexValue (c : Char) : Nat :=
  if c.toNat ≤ 57 then c.toNat - 48
  else if c.toNat ≤ 70 then c.toNat - 55
  else c.toNat - 87

/-- The character of a one-letter escape. -/
def escapeChar (c : Char) : Char :=
  if c == 'b' then Char.ofNat 8
  else if c == 'f' then Char.ofNat 12
  else if c == 'n' then '\n'
  else if c == 'r' then '\r'
  else if c == 't' then '\t'
  else c

/-- The number four hexadecimal digits denote (`getu4`). -/
def hex4 (hs : List Char) : Nat :=
  hs.foldl (fun a h => a * 16 + hexValue h) 0

/-- Whether the text starts with a `u` escape. -/
def startsEscU (cs : List Char) : Bool :=
  cs.take 2 == ['\\', 'u']

/-- Function `unquote` on the text between the quotes, which the scanner has
checked: escapes are replaced by their characters, a pair of surrogate
escapes by the character it encodes, a lone surrogate by U+FFFD.  Each step
yields one character, so the length of the text is fuel enough. -/
def unquoteChars : Nat → List Char → List Char
  | 0, _ => []
  | _ + 1, [] => []
  | n + 1, c :: rest =>
    if c == '\\' then
      if rest.head? = some 'u' then
        let rr := hex4 ((rest.drop 1).take 4)
        let rest1 := rest.drop 5
        if 55296 ≤ rr ∧ rr < 57344 then
          let rr1 := hex4 ((rest1.drop 2).take 4)
          if startsEscU rest1 ∧ rr < 56320 ∧ 56320 ≤ rr1 ∧ rr1 < 57344 then
            Char.ofNat ((rr - 55296) * 1024 + (rr1 - 56320) + 65536) ::
              unquoteChars n (rest1.drop 6)
          else Char.ofNat 65533 :: unquoteChars n rest1
        else Char.ofNat rr :: unquoteChars n rest1
      else
        match rest with
        | e :: rest1 => escapeChar e :: unquoteChars n rest1
        | [] => []
    else c :: unquoteChars n rest

/-- The decoded text of a string literal, from the text between its quotes. -/
def unquote (raw : List Char) : String :=
  String.mk (unquoteChars raw.length raw)

/-- A value is complete inside the open containers: it becomes a member or an
item of the innermost one; at the top level the scanner waits for the byte
after it. -/
def endOfValue (v : Json) : List Frame → Step
  | [] => Step.next (Lex.endTop v) []
  | Frame.obj ms k :: st => Step.next Lex.endValue (Frame.obj (ms ++ [(k, v)]) k :: st)
  | Frame.arr items :: st => Step.next Lex.endValue (Frame.arr (items ++ [v]) :: st)

/-- A container is closed: at the top level the value is complete at once. -/
def closeContainer (v : Json) : List Frame → Step
  | [] => Step.done v
  | st => endOfValue v st

/-- Function `stateEndValue` inside a container, after a member or an item. -/
def stepEndValue (stack : List Frame) (c : Char) : Step :=
  if isSpace c then Step.next Lex.endValue stack
  else
    match stack with
    | Frame.obj ms _ :: st =>
      if c == ',' then Step.next Lex.beginString stack
      else if c == '}' then closeContainer (Json.obj ms) st
      else Step.bad
    | Frame.arr items :: st =>
      if c == ',' then Step.next Lex.beginValue stack
      else if c == ']' then closeContainer (Json.arr items) st
      else Step.bad
    | [] => Step.bad

/-- A number ends at the byte `c`, which is then read as the byte after a
value: at the top level any byte ends the value (`stateEndTop` returns
`scanEnd`, and `readValue` reads no further). -/
def endOfNumber (text : List Char) (stack : List Frame) (c : Char) : Step :=
  let v := Json.num (String.mk text.reverse)
  match stack with
  | [] => Step.done v
  | Frame.obj ms k :: st => stepEndValue (Frame.obj (ms ++ [(k, v)]) k :: st) c
  | Frame.arr items :: st => stepEndValue (Frame.arr (items ++ [v]) :: st) c

/-- Function `stateBeginString`. -/
def stepBeginString (stack : List Frame) (c : Char) : Step :=
  if isSpace c then Step.next Lex.beginString stack
  else if c == '"' then Step.next (Lex.inString true []) stack
  else Step.bad

/-- Function `stateBeginValue`. -/
def stepBeginValue (stack : List Frame) (c : Char) : Step :=
  if isSpace c then Step.next Lex.beginValue stack
  else if c == '{' then
    if stack.length + 1 ≤ maxNestingDepth then
      Step.next Lex.beginStringOrEmpty (Frame.obj [] "" :: stack)
    else Step.bad
  else if c == '[' then
    if stack.length + 1 ≤ maxNestingDepth then
      Step.next Lex.beginValueOrEmpty (Frame.arr [] :: stack)
    else Step.bad
  else if c == '"' then Step.next (Lex.inString false []) stack
  else if c == '-' then Step.next (Lex.number NumState.neg [c]) stack
  else if c == '0' then Step.next (Lex.number NumState.zero [c]) stack
  else if c == 't' then Step.next (Lex.literal ['r', 'u', 'e'] (Json.bool true)) stack
  else if c == 'f' then Step.next (Lex.literal ['a', 'l', 's', 'e'] (Json.bool false)) stack
  else if c == 'n' then Step.next (Lex.literal ['u', 'l', 'l'] Json.null) stack
  else if 49 ≤ c.toNat ∧ c.toNat ≤ 57 then Step.next (Lex.number NumState.int [c]) stack
  else Step.bad

/-- The step functions inside a number. -/
def stepNumber (st : NumState) (text : List Char) (stack : List Frame) (c : Char) : Step :=
  let digit := isDecDigit c
  match st with
  | NumState.neg =>
    if c == '0' then Step.next (Lex.number NumState.zero (c :: text)) stack
    else if 49 ≤ c.toNat ∧ c.toNat ≤ 57 then Step.next (Lex.number NumState.int (c :: text)) stack
    else Step.bad
  | NumState.int =>
    if digit then Step.next (Lex.number NumState.int (c :: text)) stack
    else if c == '.' then Step.next (Lex.number NumState.dot (c :: text)) stack
    else if c == 'e' ∨ c == 'E' then Step.next (Lex.number NumState.e (c :: text)) stack
    else endOfNumber text stack c
  | NumState.zero =>
    if c == '.' then Step.next (Lex.number NumState.dot (c :: text)) stack
    else if c == 'e' ∨ c == 'E' then Step.next (Lex.number NumState.e (c :: text)) stack
    else endOfNumber text stack c
  | NumState.dot =>
    if digit then Step.next (Lex.number NumState.frac (c :: text)) stack else Step.bad
  | NumState.frac =>
    if digit then Step.next (Lex.number NumState.frac (c :: text)) stack
    else if c == 'e' ∨ c == 'E' then Step.next (Lex.number NumState.e (c :: text)) stack
    else endOfNumber text stack c
  | NumState.e =>
    if c == '+' ∨ c == '-' then Step.next (Lex.number NumState.eSign (c :: text)) stack
    else if digit then Step.next (Lex.number NumState.exp (c :: text)) stack
    else Step.bad
  | NumState.eSign =>
    if digit then Step.next (Lex.number NumState.exp (c :: text)) stack else Step.bad
  | NumState.exp =>
    if digit then Step.next (Lex.number NumState.exp (c :: text)) stack
    else endOfNumber text stack c

/-- One step of the scanner on the byte `c`.  After a string or a literal at
the top level (`Lex.endTop`) the next byte, whatever it is, ends the value:
`stateEndTop` returns `scanEnd`, on which `readValue` stops; what follows the
value is left in the buffer of the decoder. -/
def step (lex : Lex) (stack : List Frame) (c : Char) : Step :=
  match lex with
  | Lex.beginValue => stepBeginValue stack c
  | Lex.beginValueOrEmpty =>
    if isSpace c then Step.next Lex.beginValueOrEmpty stack
    else if c == ']' then stepEndValue stack c
    else stepBeginValue stack c
  | Lex.beginStringOrEmpty =>
    if isSpace c then Step.next Lex.beginStringOrEmpty stack
    else if c == '}' then stepEndValue stack c
    else stepBeginString stack c
  | Lex.beginString => stepBeginString stack c
  | Lex.inString isKey raw =>
    if c == '"' then
      if isKey then
        match stack with
        | Frame.obj ms _ :: st => Step.next Lex.endKey (Frame.obj ms (unquote raw.reverse) :: st)
        | _ => Step.bad
      else endOfValue (Json.str (unquote raw.reverse)) stack
    else if c == '\\' then Step.next (Lex.inStringEsc isKey (c :: raw)) stack
    else if c.toNat < 32 then Step.bad
    else Step.next (Lex.inString isKey (c :: raw)) stack
  | Lex.inStringEsc isKey raw =>
    if c == 'b' ∨ c == 'f' ∨ c == 'n' ∨ c == 'r' ∨ c == 't' ∨ c == '\\' ∨ c == '/' ∨ c == '"' then
      Step.next (Lex.inString isKey (c :: raw)) stack
    else if c == 'u' then Step.next (Lex.inStringEscU isKey (c :: raw) 4) stack
    else Step.bad
  | Lex.inStringEscU isKey raw left =>
    if isHexDigit c then
      if left ≤ 1 then Step.next (Lex.inString isKey (c :: raw)) stack
      else Step.next (Lex.inStringEscU isKey (c :: raw) (left - 1)) stack
    else Step.bad
  | Lex.endKey =>
    if isSpace c then Step.next Lex.endKey stack
    else if c == ':' then Step.next Lex.beginValue stack
    else Step.bad
  | Lex.number st text => stepNumber st text stack c
  | Lex.literal rest v =>
    match rest with
    | [] => Step.bad
    | [r] => if c == r then endOfValue v stack else Step.bad
    | r :: rs => if c == r then Step.next (Lex.literal rs v) stack else Step.bad
  | Lex.endValue => stepEndValue stack c
  | Lex.endTop v => Step.done v

/-- What the scanner makes of the input: the first value, or the error of
`Decode`. -/
inductive Scanned
  | value (v : Json)
  | failed (err : GoError)

/-- The end of the input (`readValue` at `io.EOF`): a value that is complete
is taken, input of spaces only is `io.EOF`, anything else is
`io.ErrUnexpectedEOF`. -/
def atEOF (lex : Lex) (stack : List Frame) : Scanned :=
  match lex, stack with
  | Lex.endTop v, _ => Scanned.value v
  | Lex.number NumState.zero text, [] => Scanned.value (Json.num (String.mk text.reverse))
  | Lex.number NumState.int text, [] => Scanned.value (Json.num (String.mk text.reverse))
  | Lex.number NumState.frac text, [] => Scanned.value (Json.num (String.mk text.reverse))
  | Lex.number NumState.exp text, [] => Scanned.value (Json.num (String.mk text.reverse))
  | Lex.beginValue, [] => Scanned.failed GoError.eof
  | _, _ => Scanned.failed GoError.unexpectedEOF

/-- The loop of `readValue` over the bytes of the input. -/
def scanLoop : Lex → List Frame → List Char → Scanned
  | lex, stack, [] => atEOF lex stack
  | lex, stack, c :: cs =>
    match step lex stack c with
    | Step.next lex1 stack1 => scanLoop lex1 stack1 cs
    | Step.done v => Scanned.value v
    | Step.bad => Scanned.failed GoError.jsonSyntax

/-- The first JSON value of a text. -/
def scanValue (text : String) : Scanned :=
  scanLoop Lex.beginValue [] text.data

/-! ## encoding/json: numbers -/

/-- The parts of the number literals of JSON: the sign, the digits of the
integer and the fraction read as one number, and the power of ten that number
is to be multiplied by. -/
def parseNumberLit (lit : String) : Option (Bool × Nat × Int) :=
  let neg := lit.data.head? = some '-'
  let cs := if neg then lit.data.tail else lit.data
  let ip := (cs.span isDecDigit).1
  let cs1 := (cs.span isDecDigit).2
  let fp := if cs1.head? = some '.' then (cs1.tail.span isDecDigit).1 else []
  let cs2 := if cs1.head? = some '.' then (cs1.tail.span isDecDigit).2 else cs1
  if ip = [] then none
  else
    match cs2 with
    | [] => some (neg, digitsFold 0 (ip ++ fp), -(fp.length : Int))
    | e :: r =>
      let eneg := r.head? = some '-'
      let ds := if r.head? = some '-' ∨ r.head? = some '+' then r.tail else r
      if (e == 'e' ∨ e == 'E') ∧ ds ≠ [] ∧ ds.all isDecDigit then
        let ex : Int := digitsFold 0 ds
        some (neg, digitsFold 0 (ip ++ fp), (if eneg then -ex else ex) - (fp.length : Int))
      else none

/-- The loop of `floorLog2`, with the number of steps left. -/
def log2Loop : Nat → Nat → Nat
  | 0, _ => 0
  | fuel + 1, n => if n < 2 then 0 else log2Loop fuel (n / 2) + 1

/-- The position of the highest bit of a positive number (`bits.Len64(n) - 1`
for a number of 64 bits). -/
def floorLog2 (n : Nat) : Nat :=
  log2Loop n n

/-- The `float64` nearest to `num / den` (`den` positive), ties to the even
mantissa, by its bits; `none` when the value is too large for a finite
`float64`.  The exponent of the last place is `q`; a mantissa that rounds up
to the next power of two carries into the exponent bits. -/
def roundFloat64 (neg : Bool) (num den : Nat) : Option Float64 :=
  let sign := if neg then 2 ^ 63 else 0
  if num = 0 then some ⟨sign⟩
  else
    let k0 : Int := (floorLog2 num : Int) - (floorLog2 den : Int)
    let ge : Bool :=
      if k0 ≥ 0 then decide (den * 2 ^ k0.toNat ≤ num) else decide (den ≤ num * 2 ^ (-k0).toNat)
    let k : Int := if ge then k0 else k0 - 1
    let q : Int := max (k - 52) (-1074)
    let n1 := if q ≥ 0 then num else num * 2 ^ (-q).toNat
    let d1 := if q ≥ 0 then den * 2 ^ q.toNat else den
    let m0 := n1 / d1
    let r := n1 % d1
    let m := if 2 * r > d1 ∨ (2 * r = d1 ∧ m0 % 2 = 1) then m0 + 1 else m0
    let bits := (q + 1074).toNat * 2 ^ 52 + m
    if bits ≥ 2047 * 2 ^ 52 then none else some ⟨sign + bits⟩

/-- `strconv.ParseFloat(lit, 64)` on a number literal of JSON: the nearest
`float64`, or `none` for the range error. -/
def ParseFloat (lit : String) : Option Float64 :=
  match parseNumberLit lit with
  | none => none
  | some (neg, m, e) =>
    if e ≥ 0 then roundFloat64 neg (m * 10 ^ e.toNat) 1
    else roundFloat64 neg m (10 ^ (-e).toNat)

/-! ## encoding/json: values into fields -/

/-- Function `foldRune` as far as names of ASCII letters are concerned: a
letter folds to its upper case, and so do the two other characters that fold
to a letter, U+017F (long s) and U+212A (the Kelvin sign). -/
def foldRune (c : Char) : Char :=
  if 97 ≤ c.toNat ∧ c.toNat ≤ 122 then Char.ofNat (c.toNat - 32)
  else if c.toNat = 383 then 'S'
  else if c.toNat = 8490 then 'K'
  else c

/-- Function `foldName`. -/
def foldName (s : String) : String :=
  String.mk (s.data.map foldRune)

/-- A field of a record as the decoder sees it: its JSON name, and how the
value of a member is stored in it. -/
structure Field (σ : Type) where
  name : String
  store : Json → σ → σ × Option GoError

/-- The field a key of an object names: the field of that very name or, when
there is none, the first field whose name is equal to the key under case
folding. -/
def findField {σ : Type} (fields : List (Field σ)) (key : String) : Option (Field σ) :=
  match fields.find? (fun fd => fd.name == key) with
  | some fd => some fd
  | none => fields.find? (fun fd => foldName fd.name == foldName key)

/-- Function `saveError`: the first error is the one kept. -/
def saveError (saved e : Option GoError) : Option GoError :=
  match saved with
  | none => e
  | some x => some x

/-- The `Value` of an `UnmarshalTypeError` for a JSON value. -/
def valueKind : Json → String
  | Json.null => "null"
  | Json.bool _ => "bool"
  | Json.num _ => "number"
  | Json.str _ => "string"
  | Json.arr _ => "array"
  | Json.obj _ => "object"

/-- A JSON value into a `string`: a string is stored, `null` changes nothing,
any other value is a type error and changes nothing. -/
def decodeString (v : Json) (cur : String) : String × Option GoError :=
  match v with
  | Json.null => (cur, none)
  | Json.str s => (s, none)
  | _ => (cur, some (GoError.unmarshalType (valueKind v) "string"))

/-- A JSON value into an `int` or `int64`: the literal goes through
`strconv.ParseInt(s, 10, 64)`. -/
def decodeInt (goType : String) (v : Json) (cur : Int) : Int × Option GoError :=
  match v with
  | Json.null => (cur, none)
  | Json.num lit =>
    match ParseInt lit (goBytes lit) with
    | (n, none) => (n, none)
    | (_, some _) => (cur, some (GoError.unmarshalType ("number " ++ lit) goType))
  | _ => (cur, some (GoError.unmarshalType (valueKind v) goType))

/-- A JSON value into a `float64`. -/
def decodeFloat (v : Json) (cur : Float64) : Float64 × Option GoError :=
  match v with
  | Json.null => (cur, none)
  | Json.num lit =>
    match ParseFloat lit with
    | some x => (x, none)
    | none => (cur, some (GoError.unmarshalType ("number " ++ lit) "float64"))
  | _ => (cur, some (GoError.unmarshalType (valueKind v) "float64"))

/-- The items of a JSON array into the backing array `mem` of a slice: item
`i` is decoded into element `i` of the backing array when it has one, and into
a zero element otherwise. -/
def decodeItems {α : Type} (dec : Json → α → α × Option GoError) (zero : α) :
    List Json → List α → List α × Option GoError
  | [], _ => ([], none)
  | v :: vs, mem =>
    let r := dec v (mem.headD zero)
    let rest := decodeItems dec zero vs mem.tail
    (r.1 :: rest.1, saveError r.2 rest.2)

/-- A JSON value into a slice (function `array` of the decoder, and `null`).
`null` gives the nil slice, the empty array a new empty slice.  Of any other
array, item `i` is decoded into element `i` of the backing array: an element
of the slice, an element that an earlier, longer value of the slice has left
beyond its length, or, past these, a zero element; the slice gets the length
of the array and keeps the rest of the backing array beyond it.  Any other
value is a type error. -/
def decodeSlice {α : Type} (dec : Json → α → α × Option GoError) (zero : α) (goType : String)
    (v : Json) (cur : Slice α) : Slice α × Option GoError :=
  match v with
  | Json.null => ({}, none)
  | Json.arr items =>
    if items.isEmpty then (⟨false, [], []⟩, none)
    else
      let mem := cur.items ++ cur.spare
      let r := decodeItems dec zero items mem
      (⟨false, r.1, mem.drop items.length⟩, r.2)
  | _ => (cur, some (GoError.unmarshalType (valueKind v) goType))

/-- One member of a JSON object decoded into a record: the field the key
names takes the value, a key that names no field is skipped. -/
def setField {σ : Type} (fields : List (Field σ)) (s : σ) (key : String) (v : Json) :
    σ × Option GoError :=
  match findField fields key with
  | some fd => fd.store v s
  | none => (s, none)

/-- The members of a JSON object into a record, in the order of the
document. -/
def decodeMembers {σ : Type} (fields : List (Field σ)) :
    List (String × Json) → σ → σ × Option GoError
  | [], s => (s, none)
  | kv :: ms, s =>
    let r := setField fields s kv.1 kv.2
    let rest := decodeMembers fields ms r.1
    (rest.1, saveError r.2 rest.2)

/-- A JSON value into a record: an object member by member, `null` changes
nothing, any other value is a type error. -/
def decodeStruct {σ : Type} (fields : List (Field σ)) (goType : String)
    (v : Json) (cur : σ) : σ × Option GoError :=
  match v with
  | Json.null => (cur, none)
  | Json.obj ms => decodeMembers fields ms cur
  | _ => (cur, some (GoError.unmarshalType (valueKind v) goType))

/-- A JSON value into a `[]string`. -/
def decodeStrings (v : Json) (cur : Slice String) : Slice String × Option GoError :=
  decodeSlice decodeString "" "[]string" v cur

/-! ## encoding/json: the encoder -/

/-- The formatting of a finite `float64` as a number literal
(`strconv.AppendFloat(b, f, fmt, -1, 64)` with the format the encoder picks). -/
abbrev FloatFmt := Float64 → String

/-- Whether a `float64` is finite: the exponent bits are not all ones. -/
def Float64.isFinite (x : Float64) : Bool :=
  x.bits / 2 ^ 52 % 2048 != 2047

/-- A hexadecimal digit, in lower case. -/
def hexDigit (n : Nat) : Char :=
  if n < 10 then Char.ofNat (48 + n) else Char.ofNat (87 + n)

/-- The text of a character inside a string literal, with the HTML-safe
escaping that `Marshal` uses: a backslash before the quote and the backslash,
the short escapes of backspace, form feed, line feed, carriage return and tab,
a `u` escape with four hexadecimal digits for the other control characters,
for `<`, `>` and `&` and for the line separators U+2028 and U+2029; every
other character as it is.  (Before Go 1.22 backspace and form feed had the `u`
escape too; the decoder reads both forms as the same character.) -/
def quoteChar (c : Char) : List Char :=
  if c == '"' then ['\\', '"']
  else if c == '\\' then ['\\', '\\']
  else if c.toNat = 8 then ['\\', 'b']
  else if c.toNat = 12 then ['\\', 'f']
  else if c == '\n' then ['\\', 'n']
  else if c == '\r' then ['\\', 'r']
  else if c == '\t' then ['\\', 't']
  else if c.toNat < 32 ∨ c == '<' ∨ c == '>' ∨ c == '&' then
    ['\\', 'u', '0', '0', hexDigit (c.toNat / 16), hexDigit (c.toNat % 16)]
  else if c.toNat = 8232 then ['\\', 'u', '2', '0', '2', '8']
  else if c.toNat = 8233 then ['\\', 'u', '2', '0', '2', '9']
  else [c]

/-- A string as a string literal. -/
def quote (s : String) : List Char :=
  '"' :: (s.data.flatMap quoteChar ++ ['"'])

/-- The decimal digits of a number, the most significant first, put before
`acc`. -/
def formatUintLoop : Nat → Nat → List Char → List Char
  | 0, _, acc => acc
  | fuel + 1, n, acc =>
    if n < 10 then Char.ofNat (48 + n) :: acc
    else formatUintLoop fuel (n / 10) (Char.ofNat (48 + n % 10) :: acc)

/-- A natural number in decimal. -/
def formatUint (n : Nat) : List Char :=
  formatUintLoop (n + 1) n []

/-- `strconv.AppendInt(b, n, 10)`. -/
def formatInt (n : Int) : List Char :=
  if n < 0 then '-' :: formatUint n.natAbs else formatUint n.toNat

/-- The pieces of a container with commas between them. -/
def joinComma : List (List Char) → List Char
  | [] => []
  | [x] => x
  | x :: y :: xs => x ++ ',' :: joinComma (y :: xs)

/-- A `string` encoded. -/
def encodeString (_ : FloatFmt) (s : String) : Except GoError (List Char) :=
  Except.ok (quote s)

/-- An `int` or `int64` encoded. -/
def encodeInt (_ : FloatFmt) (n : Int) : Except GoError (List Char) :=
  Except.ok (formatInt n)

/-- A `float64` encoded: NaN and the infinities are an
`UnsupportedValueError`. -/
def encodeFloat (fmt : FloatFmt) (x : Float64) : Except GoError (List Char) :=
  if x.isFinite then Except.ok (fmt x).data
  else Except.error GoError.unsupportedValue

/-- The elements of a slice encoded, up to the first error. -/
def encodeItems {α : Type} (enc : FloatFmt → α → Except GoError (List Char)) (fmt : FloatFmt) :
    List α → Except GoError (List (List Char))
  | [] => Except.ok []
  | x :: xs =>
    match enc fmt x with
    | Except.error e => Except.error e
    | Except.ok t =>
      match encodeItems enc fmt xs with
      | Except.error e => Except.error e
      | Except.ok ts => Except.ok (t :: ts)

/-- A slice encoded: `null` for the nil slice, an array of its elements
otherwise. -/
def encodeSlice {α : Type} (enc : FloatFmt → α → Except GoError (List Char)) (fmt : FloatFmt)
    (xs : Slice α) : Except GoError (List Char) :=
  if xs.isNil && xs.items.isEmpty then Except.ok ['n', 'u', 'l', 'l']
  else
    match encodeItems enc fmt xs.items with
    | Except.error e => Except.error e
    | Except.ok ts => Except.ok ('[' :: (joinComma ts ++ [']']))

/-- A `[]string` encoded. -/
def encodeStrings (fmt : FloatFmt) (xs : Slice String) : Except GoError (List Char) :=
  encodeSlice encodeString fmt xs

/-- Function `isEmptyValue` on a `string`. -/
def emptyString (s : String) : Bool := s.data.isEmpty

/-- Function `isEmptyValue` on an `int` or `int64`. -/
def emptyInt (n : Int) : Bool := n == 0

/-- Function `isEmptyValue` on a `float64`: the value equals zero, which holds
of the zero of either sign. -/
def emptyFloat (x : Float64) : Bool := x.bits == 0 || x.bits == 2 ^ 63

/-- Function `isEmptyValue` on a slice: its length is 0. -/
def emptySlice {α : Type} (xs : Slice α) : Bool := xs.items.isEmpty

/-- Function `isEmptyValue` on a record: never empty. -/
def neverEmpty {α : Type} (_ : α) : Bool := false

/-- A field of a record in both directions: its JSON name, its type, how it
is read and written, how a JSON value is decoded into it, how its value is
encoded, and when `omitempty` leaves it out. -/
structure Codec (σ : Type) : Type 1 where
  name : String
  α : Type
  get : σ → α
  put : σ → α → σ
  dec : Json → α → α × Option GoError
  enc : FloatFmt → α → Except GoError (List Char)
  empty : α → Bool

/-- The field as the decoder sees it: the value of a member is decoded into
the value the field has. -/
def Codec.field {σ : Type} (c : Codec σ) : Field σ :=
  ⟨c.name, fun v s => (c.put s (c.dec v (c.get s)).1, (c.dec v (c.get s)).2)⟩

/-- The member the encoder writes for a field, `none` when `omitempty` leaves
it out. -/
def Codec.member {σ : Type} (c : Codec σ) (fmt : FloatFmt) (s : σ) :
    Except GoError (Option (List Char)) :=
  if c.empty (c.get s) then Except.ok none
  else
    match c.enc fmt (c.get s) with
    | Except.error e => Except.error e
    | Except.ok t => Except.ok (some (quote c.name ++ ':' :: t))

/-- The members of a record, in the order of its fields, up to the first
error. -/
def encodeMembers {σ : Type} (fmt : FloatFmt) (s : σ) :
    List (Codec σ) → Except GoError (List (List Char))
  | [] => Except.ok []
  | c :: cs =>
    match c.member fmt s with
    | Except.error e => Except.error e
    | Except.ok m =>
      match encodeMembers fmt s cs with
      | Except.error e => Except.error e
      | Except.ok ms => Except.ok (m.toList ++ ms)

/-- A record encoded as a JSON object. -/
def encodeStruct {σ : Type} (cs : List (Codec σ)) (fmt : FloatFmt) (s : σ) :
    Except GoError (List Char) :=
  match encodeMembers fmt s cs with
  | Except.error e => Except.error e
  | Except.ok ms => Except.ok ('{' :: (joinComma ms ++ ['}']))

/-! ## encoding/json: the records

The JSON names and the `omitempty` options are the ones of the struct tags of
the source; every field of the source has the option, which has no effect on
a field that is itself a record. -/

/-- The fields of `Flags`, in the order of the source. -/
def flagsCodecs : List (Codec Flags) :=
  [⟨"darksky-unavailable", String,
      fun s => s.DarkSkyUnavailable, fun s x => { s with DarkSkyUnavailable := x },
      decodeString, encodeString, emptyString⟩,
   ⟨"darksky-stations", (Slice String),
      fun s => s.DarkSkyStations, fun s x => { s with DarkSkyStations := x },
      decodeStrings, encodeStrings, emptySlice⟩,
   ⟨"datapoint-stations", (Slice String),
      fun s => s.DataPointStations, fun s x => { s with DataPointStations := x },
      decodeStrings, encodeStrings, emptySlice⟩,
   ⟨"isds-stations", (Slice String),
      fun s => s.ISDStations, fun s x => { s with ISDStations := x },
      decodeStrings, encodeStrings, emptySlice⟩,
   ⟨"lamp-stations", (Slice String),
      fun s => s.LAMPStations, fun s x => { s with LAMPStations := x },
      decodeStrings, encodeStrings, emptySlice⟩,
   ⟨"madis-stations", (Slice String),
      fun s => s.MADISStations, fun s x => { s with MADISStations := x },
      decodeStrings, encodeStrings, emptySlice⟩,
   ⟨"metars-stations", (Slice String),
      fun s => s.METARStations, fun s x => { s with METARStations := x },
      decodeStrings, encodeStrings, emptySlice⟩,
   ⟨"metnol-license", String,
      fun s => s.METNOLicense, fun s x => { s with METNOLicense := x },
      decodeString, encodeString, emptyString⟩,
   ⟨"sources", (Slice String),
      fun s => s.Sources, fun s x => { s with Sources := x },
      decodeStrings, encodeStrings, emptySlice⟩,
   ⟨"units", String,
      fun s => s.Units, fun s x => { s with Units := x },
      decodeString, encodeString, emptyString⟩]

/-- The fields of `Flags` as the decoder looks them up. -/
def flagsFields : List (Field Flags) :=
  flagsCodecs.map Codec.field

/-- A JSON value decoded into a `Flags`. -/
def decodeFlags (v : Json) (cur : Flags) : Flags × Option GoError :=
  decodeStruct flagsFields "darksky.Flags" v cur

/-- A `Flags` encoded as a JSON object. -/
def encodeFlags (fmt : FloatFmt) (s : Flags) : Except GoError (List Char) :=
  encodeStruct flagsCodecs fmt s

/-- The fields of `DataPoint`, in the order of the source. -/
def dataPointCodecs : List (Codec DataPoint) :=
  [⟨"time", Int,
      fun s => s.Time, fun s x => { s with Time := x },
      (decodeInt "int"), encodeInt, emptyInt⟩,
   ⟨"summary", String,
      fun s => s.Summary, fun s x => { s with Summary := x },
      decodeString, encodeString, emptyString⟩,
   ⟨"icon", String,
      fun s => s.Icon, fun s x => { s with Icon := x },
      decodeString, encodeString, emptyString⟩,
   ⟨"sunriseTime", Int,
      fun s => s.SunriseTime, fun s x => { s with SunriseTime := x },
      (decodeInt "int"), encodeInt, emptyInt⟩,
   ⟨"sunsetTime", Int,
      fun s => s.SunsetTime, fun s x => { s with SunsetTime := x },
      (decodeInt "int"), encodeInt, emptyInt⟩,
   ⟨"moonPhase", Float64,
      fun s => s.MoonPhase, fun s x => { s with MoonPhase := x },
      decodeFloat, encodeFloat, emptyFloat⟩,
   ⟨"precipIntensity", Float64,
      fun s => s.PrecipIntensity, fun s x => { s with PrecipIntensity := x },
      decodeFloat, encodeFloat, emptyFloat⟩,
   ⟨"precipIntensityMax", Float64,
      fun s => s.PrecipIntensityMax, fun s x => { s with PrecipIntensityMax := x },
      decodeFloat, encodeFloat, emptyFloat⟩,
   ⟨"precipIntensityMaxTime", Int,
      fun s => s.PrecipIntensityMaxTime, fun s x => { s with PrecipIntensityMaxTime := x },
      (decodeInt "int"), encodeInt, emptyInt⟩,
   ⟨"precipProbability", Float64,
      fun s => s.PrecipProbability, fun s x => { s with PrecipProbability := x },
      decodeFloat, encodeFloat, emptyFloat⟩,
   ⟨"precipAccumulation", Float64,
      fun s => s.PrecipAccumulation, fun s x => { s with PrecipAccumulation := x },
      decodeFloat, encodeFloat, emptyFloat⟩,
   ⟨"precipType", String,
      fun s => s.PrecipType, fun s x => { s with PrecipType := x },
      decodeString, encodeString, emptyString⟩,
   ⟨"temperature", Float64,
      fun s => s.Temperature, fun s x => { s with Temperature := x },
      decodeFloat, encodeFloat, emptyFloat⟩,
   ⟨"temperatureMin", Float64,
      fun s => s.TemperatureMin, fun s x => { s with TemperatureMin := x },
      decodeFloat, encodeFloat, emptyFloat⟩,
   ⟨"temperatureMinTime", Int,
      fun s => s.TemperatureMinTime, fun s x => { s with TemperatureMinTime := x },
      (decodeInt "int"), encodeInt, emptyInt⟩,
   ⟨"temperatureMax", Float64,
      fun s => s.TemperatureMax, fun s x => { s with TemperatureMax := x },
      decodeFloat, encodeFloat, emptyFloat⟩,
   ⟨"temperatureMaxTime", Int,
      fun s => s.TemperatureMaxTime, fun s x => { s with TemperatureMaxTime := x },
      (decodeInt "int"), encodeInt, emptyInt⟩,
   ⟨"apparentTemperature", Float64,
      fun s => s.ApparentTemperature, fun s x => { s with ApparentTemperature := x },
      decodeFloat, encodeFloat, emptyFloat⟩,
   ⟨"apparentTemperatureMin", Float64,
      fun s => s.ApparentTemperatureMin, fun s x => { s with ApparentTemperatureMin := x },
      decodeFloat, encodeFloat, emptyFloat⟩,
   ⟨"apparentTemperatureMinTime", Int,
      fun s => s.ApparentTemperatureMinTime, fun s x => { s with ApparentTemperatureMinTime := x },
      (decodeInt "int"), encodeInt, emptyInt⟩,
   ⟨"apparentTemperatureMax", Float64,
      fun s => s.ApparentTemperatureMax, fun s x => { s with ApparentTemperatureMax := x },
      decodeFloat, encodeFloat, emptyFloat⟩,
   ⟨"apparentTemperatureMaxTime", Int,
      fun s => s.ApparentTemperatureMaxTime, fun s x => { s with ApparentTemperatureMaxTime := x },
      (decodeInt "int"), encodeInt, emptyInt⟩,
   ⟨"nearestStormBearing", Float64,
      fun s => s.NearestStormBearing, fun s x => { s with NearestStormBearing := x },
      decodeFloat, encodeFloat, emptyFloat⟩,
   ⟨"nearestStormDistance", Float64,
      fun s => s.NearestStormDistance, fun s x => { s with NearestStormDistance := x },
      decodeFloat, encodeFloat, emptyFloat⟩,
   ⟨"dewPoint", Float64,
      fun s => s.DewPoint, fun s x => { s with DewPoint := x },
      decodeFloat, encodeFloat, emptyFloat⟩,
   ⟨"humidity", Float64,
      fun s => s.Humidity, fun s x => { s with Humidity := x },
      decodeFloat, encodeFloat, emptyFloat⟩,
   ⟨"windSpeed", Float64,
      fun s => s.WindSpeed, fun s x => { s with WindSpeed := x },
      decodeFloat, encodeFloat, emptyFloat⟩,
   ⟨"windGust", Float64,
      fun s => s.WindGust, fun s x => { s with WindGust := x },
      decodeFloat, encodeFloat, emptyFloat⟩,
   ⟨"windGustTime", Int,
      fun s => s.WindGustTime, fun s x => { s with WindGustTime := x },
      (decodeInt "int"), encodeInt, emptyInt⟩,
   ⟨"windBearing", Int,
      fun s => s.WindBearing, fun s x => { s with WindBearing := x },
      (decodeInt "int"), encodeInt, emptyInt⟩,
   ⟨"visibility", Float64,
      fun s => s.Visibility, fun s x => { s with Visibility := x },
      decodeFloat, encodeFloat, emptyFloat⟩,
   ⟨"cloudCover", Float64,
      fun s => s.CloudCover, fun s x => { s with CloudCover := x },
      decodeFloat, encodeFloat, emptyFloat⟩,
   ⟨"pressure", Float64,
      fun s => s.Pressure, fun s x => { s with Pressure := x },
      decodeFloat, encodeFloat, emptyFloat⟩,
   ⟨"ozone", Float64,
      fun s => s.Ozone, fun s x => { s with Ozone := x },
      decodeFloat, encodeFloat, emptyFloat⟩,
   ⟨"uvIndex", Float64,
      fun s => s.UvIndex, fun s x => { s with UvIndex := x },
      decodeFloat, encodeFloat, emptyFloat⟩,
   ⟨"uvIndexTime", Int,
      fun s => s.UvIndexTime, fun s x => { s with UvIndexTime := x },
      (decodeInt "int"), encodeInt, emptyInt⟩]

/-- The fields of `DataPoint` as the decoder looks them up. -/
def dataPointFields : List (Field DataPoint) :=
  dataPointCodecs.map Codec.field

/-- A JSON value decoded into a `DataPoint`. -/
def decodeDataPoint (v : Json) (cur : DataPoint) : DataPoint × Option GoError :=
  decodeStruct dataPointFields "darksky.DataPoint" v cur

/-- A `DataPoint` encoded as a JSON object. -/
def encodeDataPoint (fmt : FloatFmt) (s : DataPoint) : Except GoError (List Char) :=
  encodeStruct dataPointCodecs fmt s

/-- The fields of `DataBlock`, in the order of the source. -/
def dataBlockCodecs : List (Codec DataBlock) :=
  [⟨"summary", String,
      fun s => s.Summary, fun s x => { s with Summary := x },
      decodeString, encodeString, emptyString⟩,
   ⟨"icon", String,
      fun s => s.Icon, fun s x => { s with Icon := x },
      decodeString, encodeString, emptyString⟩,
   ⟨"data", (Slice DataPoint),
      fun s => s.Data, fun s x => { s with Data := x },
      (decodeSlice decodeDataPoint {} "[]darksky.DataPoint"), (encodeSlice encodeDataPoint), emptySlice⟩]

/-- The fields of `DataBlock` as the decoder looks them up. -/
def dataBlockFields : List (Field DataBlock) :=
  dataBlockCodecs.map Codec.field

/-- A JSON value decoded into a `DataBlock`. -/
def decodeDataBlock (v : Json) (cur : DataBlock) : DataBlock × Option GoError :=
  decodeStruct dataBlockFields "darksky.DataBlock" v cur

/-- A `DataBlock` encoded as a JSON object. -/
def encodeDataBlock (fmt : FloatFmt) (s : DataBlock) : Except GoError (List Char) :=
  encodeStruct dataBlockCodecs fmt s

/-- The fields of `Alert`, in the order of the source. -/
def alertCodecs : List (Codec Alert) :=
  [⟨"title", String,
      fun s => s.Title, fun s x => { s with Title := x },
      decodeString, encodeString, emptyString⟩,
   ⟨"regions", (Slice String),
      fun s => s.Regions, fun s x => { s with Regions := x },
      decodeStrings, encodeStrings, emptySlice⟩,
   ⟨"severity", String,
      fun s => s.Severity, fun s x => { s with Severity := x },
      decodeString, encodeString, emptyString⟩,
   ⟨"description", String,
      fun s => s.Description, fun s x => { s with Description := x },
      decodeString, encodeString, emptyString⟩,
   ⟨"time", Int,
      fun s => s.Time, fun s x => { s with Time := x },
      (decodeInt "int64"), encodeInt, emptyInt⟩,
   ⟨"expires", Float64,
      fun s => s.Expires, fun s x => { s with Expires := x },
      decodeFloat, encodeFloat, emptyFloat⟩,
   ⟨"uri", String,
      fun s => s.URI, fun s x => { s with URI := x },
      decodeString, encodeString, emptyString⟩]

/-- The fields of `Alert` as the decoder looks them up. -/
def alertFields : List (Field Alert) :=
  alertCodecs.map Codec.field

/-- A JSON value decoded into a `Alert`. -/
def decodeAlert (v : Json) (cur : Alert) : Alert × Option GoError :=
  decodeStruct alertFields "darksky.Alert" v cur

/-- A `Alert` encoded as a JSON object. -/
def encodeAlert (fmt : FloatFmt) (s : Alert) : Except GoError (List Char) :=
  encodeStruct alertCodecs fmt s

/-- The fields of `Forecast`, in the order of the source. -/
def forecastCodecs : List (Codec Forecast) :=
  [⟨"latitude", Float64,
      fun s => s.Latitude, fun s x => { s with Latitude := x },
      decodeFloat, encodeFloat, emptyFloat⟩,
   ⟨"longitude", Float64,
      fun s => s.Longitude, fun s x => { s with Longitude := x },
      decodeFloat, encodeFloat, emptyFloat⟩,
   ⟨"timezone", String,
      fun s => s.Timezone, fun s x => { s with Timezone := x },
      decodeString, encodeString, emptyString⟩,
   ⟨"offset", Float64,
      fun s => s.Offset, fun s x => { s with Offset := x },
      decodeFloat, encodeFloat, emptyFloat⟩,
   ⟨"currently", DataPoint,
      fun s => s.Currently, fun s x => { s with Currently := x },
      decodeDataPoint, encodeDataPoint, neverEmpty⟩,
   ⟨"minutely", DataBlock,
      fun s => s.Minutely, fun s x => { s with Minutely := x },
      decodeDataBlock, encodeDataBlock, neverEmpty⟩,
   ⟨"hourly", DataBlock,
      fun s => s.Hourly, fun s x => { s with Hourly := x },
      decodeDataBlock, encodeDataBlock, neverEmpty⟩,
   ⟨"daily", DataBlock,
      fun s => s.Daily, fun s x => { s with Daily := x },
      decodeDataBlock, encodeDataBlock, neverEmpty⟩,
   ⟨"alerts", (Slice Alert),
      fun s => s.Alerts, fun s x => { s with Alerts := x },
      (decodeSlice decodeAlert {} "[]darksky.Alert"), (encodeSlice encodeAlert), emptySlice⟩,
   ⟨"flags", Flags,
      fun s => s.Flags, fun s x => { s with Flags := x },
      decodeFlags, encodeFlags, neverEmpty⟩,
   ⟨"apiCalls", Int,
      fun s => s.APICalls, fun s x => { s with APICalls := x },
      (decodeInt "int"), encodeInt, emptyInt⟩,
   ⟨"code", Int,
      fun s => s.Code, fun s x => { s with Code := x },
      (decodeInt "int"), encodeInt, emptyInt⟩,
   ⟨"responseTime", Int,
      fun s => s.ResponseTime, fun s x => { s with ResponseTime := x },
      (decodeInt "int"), encodeInt, emptyInt⟩]

/-- The fields of `Forecast` as the decoder looks them up. -/
def forecastFields : List (Field Forecast) :=
  forecastCodecs.map Codec.field

/-- A JSON value decoded into a `Forecast`. -/
def decodeForecast (v : Json) (cur : Forecast) : Forecast × Option GoError :=
  decodeStruct forecastFields "darksky.Forecast" v cur

/-- A `Forecast` encoded as a JSON object. -/
def encodeForecast (fmt : FloatFmt) (s : Forecast) : Except GoError (List Char) :=
  encodeStruct forecastCodecs fmt s

/-! ## encoding/json: Decode -/

/-- The decoder of `encoding/json`: `json.NewDecoder(reader).Decode(&f)` on
the text of the body.  A text that does not scan leaves the record as it
was. -/
def jsonDecode : Decoder := fun reader f =>
  match scanValue reader.content with
  | Scanned.failed err => (f, some err)
  | Scanned.value v => decodeForecast v f

/-- Whether no member of an object names the field `name`. -/
def absent (name : String) (members : List (String × Json)) : Bool :=
  members.all (fun kv => foldName kv.1 != foldName name)

/-- Whether a JSON value has no member for the field `name`: an object none
of whose keys names it; a value that is not an object has no member. -/
def lacks (name : String) : Json → Bool
  | Json.obj ms => absent name ms
  | _ => true

/-- The values an object holds for the field `name`: those of the members
whose key is the name, exactly or under case folding, in the order of the
document.  The decoder stores each of them into the field, one after the
other; what is not an object holds none. -/
def membersFor (name : String) : Json → List Json
  | Json.obj ms => (ms.filter (fun kv => foldName kv.1 == foldName name)).map Prod.snd
  | _ => []

/-- The items of a JSON array; what is not an array has none. -/
def elems : Json → List Json
  | Json.arr items => items
  | _ => []

/-- The three blocks of a `Forecast`, by their JSON names. -/
def blocks : List (String × (Forecast → DataBlock)) :=
  [("minutely", Forecast.Minutely), ("hourly", Forecast.Hourly), ("daily", Forecast.Daily)]

/-! ## The scanner on the text of the encoder -/

/-- The scanner going on after a step. -/
def resume (st : Step) (rest : List Char) : Scanned :=
  match st with
  | Step.next lex stack => scanLoop lex stack rest
  | Step.done v => Scanned.value v
  | Step.bad => Scanned.failed GoError.jsonSyntax

/-- The open containers once the value `v` has joined the innermost one. -/
def attach (v : Json) : List Frame → List Frame
  | [] => []
  | Frame.obj ms k :: st => Frame.obj (ms ++ [(k, v)]) k :: st
  | Frame.arr items :: st => Frame.arr (items ++ [v]) :: st

/-- What follows a value inside a container: a comma or the closing of the
container. -/
def Terminated (rest : List Char) : Prop :=
  ∃ c cs, rest = c :: cs ∧ (c = ',' ∨ c = '}' ∨ c = ']')

/-- The text `txt` is scanned as the value `v`, which opens at most `d` levels
of containers: inside any open container, and followed by a comma or a closing,
the scanner reads `txt` and has `v` as the next member or item. -/
def Renders (d : Nat) (txt : List Char) (v : Json) : Prop :=
  (∃ c cs, txt = c :: cs ∧ isSpace c = false ∧ c ≠ ']' ∧ c ≠ '}') ∧
  ∀ stack rest, stack ≠ [] → stack.length + d ≤ maxNestingDepth → Terminated rest →
    scanLoop Lex.beginValue stack (txt ++ rest) = scanLoop Lex.endValue (attach v stack) rest

/-- The state of the scanner after the first character of a number. -/
def numStart (c : Char) : Option NumState :=
  if c == '-' then some NumState.neg
  else if c == '0' then some NumState.zero
  else if 49 ≤ c.toNat ∧ c.toNat ≤ 57 then some NumState.int
  else none

/-- The state of the scanner after one more character of a number, `none`
when the character does not go on with the number. -/
def numNext (st : NumState) (c : Char) : Option NumState :=
  match st with
  | NumState.neg =>
    if c == '0' then some NumState.zero
    else if 49 ≤ c.toNat ∧ c.toNat ≤ 57 then some NumState.int
    else none
  | NumState.int =>
    if isDecDigit c then some NumState.int
    else if c == '.' then some NumState.dot
    else if c == 'e' ∨ c == 'E' then some NumState.e
    else none
  | NumState.zero =>
    if c == '.' then some NumState.dot
    else if c == 'e' ∨ c == 'E' then some NumState.e
    else none
  | NumState.dot => if isDecDigit c then some NumState.frac else none
  | NumState.frac =>
    if isDecDigit c then some NumState.frac
    else if c == 'e' ∨ c == 'E' then some NumState.e
    else none
  | NumState.e =>
    if c == '+' ∨ c == '-' then some NumState.eSign
    else if isDecDigit c then some NumState.exp
    else none
  | NumState.eSign => if isDecDigit c then some NumState.exp else none
  | NumState.exp => if isDecDigit c then some NumState.exp else none

/-- The states in which a number may end. -/
def numFinal : NumState → Bool
  | NumState.zero => true
  | NumState.int => true
  | NumState.frac => true
  | NumState.exp => true
  | _ => false

/-- Whether the characters go on from the state to the end of a number. -/
def numAccept : NumState → List Char → Bool
  | st, [] => numFinal st
  | st, c :: cs =>
    match numNext st c with
    | some st1 => numAccept st1 cs
    | none => false

/-- Whether a text is a number literal of JSON. -/
def numberLit (lit : List Char) : Bool :=
  match lit with
  | [] => false
  | c :: cs =>
    match numStart c with
    | some st => numAccept st cs
    | none => false

/-! ## Values that survive the round trip -/

/-- The value `x` is encoded as a text that is scanned as a value which
decodes, into the zero value `zero`, to the value `y` without an error. -/
def ValueOK {α : Type} (fmt : FloatFmt) (enc : FloatFmt → α → Except GoError (List Char))
    (dec : Json → α → α × Option GoError) (zero : α) (d : Nat) (x y : α) : Prop :=
  ∃ t v, enc fmt x = Except.ok t ∧ Renders d t v ∧ dec v zero = (y, none)

/-- The field `c` of the record `s` comes back as it is in `s1` when the text
of `s` is decoded into the record `z`: it is left out and `s1` has the value of
`z`, or it is written and decoded to the value `s1` has. -/
def CodecOK {σ : Type} (fmt : FloatFmt) (d : Nat) (s s1 z : σ) (c : Codec σ) : Prop :=
  (c.empty (c.get s) = true → c.get s1 = c.get z) ∧
  (c.empty (c.get s) = false → ValueOK fmt c.enc c.dec (c.get z) d (c.get s) (c.get s1))

/-- Two fields of a record are independent: their names differ, also under
case folding, and writing one does not change the other. -/
def Independent {σ : Type} (c1 c2 : Codec σ) : Prop :=
  foldName c1.name ≠ foldName c2.name ∧ (∀ t x, c2.get (c1.put t x) = c2.get t) ∧
    (∀ t x, c1.get (c2.put t x) = c1.get t)

/-- The fields of a table are lenses on the record, independent of one
another. -/
def Lawful {σ : Type} (cs : List (Codec σ)) : Prop :=
  (∀ c ∈ cs, ∀ t x, c.get (c.put t x) = x) ∧ cs.Pairwise Independent

/-- A `float64` that the encoder accepts and that comes back: it is finite, it
is not the negative zero (which `omitempty` leaves out, so that the zero of the
other sign would come back), and unless it is the zero its text is a number
literal that `ParseFloat` maps back to it. -/
def FloatOK (fmt : FloatFmt) (x : Float64) : Prop :=
  x.isFinite = true ∧ x.bits ≠ 2 ^ 63 ∧
    (x.bits ≠ 0 → numberLit (fmt x).data = true ∧ ParseFloat (fmt x) = some x)

instance FloatOK.decidable (fmt : FloatFmt) (x : Float64) : Decidable (FloatOK fmt x) :=
  inferInstanceAs (Decidable (x.isFinite = true ∧ x.bits ≠ 2 ^ 63 ∧
    (x.bits ≠ 0 → numberLit (fmt x).data = true ∧ ParseFloat (fmt x) = some x)))

/-- An integer within the range of `int64`. -/
def Int64OK (n : Int) : Prop :=
  -(2 ^ 63) ≤ n ∧ n < 2 ^ 63

instance Int64OK.decidable (n : Int) : Decidable (Int64OK n) :=
  inferInstanceAs (Decidable (-(2 ^ 63) ≤ n ∧ n < 2 ^ 63))

/-! ## The numbers of a record -/

/-- The `float64` values of a `DataPoint`, nested ones included. -/
def DataPoint.floats (d : DataPoint) : List Float64 :=
  [d.MoonPhase, d.PrecipIntensity, d.PrecipIntensityMax, d.PrecipProbability,
    d.PrecipAccumulation, d.Temperature, d.TemperatureMin, d.TemperatureMax,
    d.ApparentTemperature, d.ApparentTemperatureMin, d.ApparentTemperatureMax,
    d.NearestStormBearing, d.NearestStormDistance, d.DewPoint, d.Humidity, d.WindSpeed,
    d.WindGust, d.Visibility, d.CloudCover, d.Pressure, d.Ozone, d.UvIndex]

/-- The `int` and `int64` values of a `DataPoint`, nested ones included. -/
def DataPoint.ints (d : DataPoint) : List Int :=
  [d.Time, d.SunriseTime, d.SunsetTime, d.PrecipIntensityMaxTime, d.TemperatureMinTime,
    d.TemperatureMaxTime, d.ApparentTemperatureMinTime, d.ApparentTemperatureMaxTime,
    d.WindGustTime, d.WindBearing, d.UvIndexTime]

/-- The `float64` values of a `DataBlock`, nested ones included. -/
def DataBlock.floats (d : DataBlock) : List Float64 :=
  d.Data.items.flatMap DataPoint.floats

/-- The `int` and `int64` values of a `DataBlock`, nested ones included. -/
def DataBlock.ints (d : DataBlock) : List Int :=
  d.Data.items.flatMap DataPoint.ints

/-- The `float64` values of an `Alert`, nested ones included. -/
def Alert.floats (a : Alert) : List Float64 :=
  [a.Expires]

/-- The `int` and `int64` values of an `Alert`, nested ones included. -/
def Alert.ints (a : Alert) : List Int :=
  [a.Time]

/-- The `float64` values of a `Forecast`, nested ones included. -/
def Forecast.floats (f : Forecast) : List Float64 :=
  [f.Latitude, f.Longitude, f.Offset] ++ f.Currently.floats ++ f.Minutely.floats ++
    f.Hourly.floats ++ f.Daily.floats ++ f.Alerts.items.flatMap Alert.floats

/-- The `int` and `int64` values of a `Forecast`, nested ones included. -/
def Forecast.ints (f : Forecast) : List Int :=
  f.Currently.ints ++ f.Minutely.ints ++ f.Hourly.ints ++ f.Daily.ints ++
    f.Alerts.items.flatMap Alert.ints ++ [f.APICalls, f.Code, f.ResponseTime]

/-! ## A record as it comes back

What the decoder rebuilds from the text of the encoder is the record up to its
slices: their elements come back in their order, but not what a backing array
holds beyond the length, and an empty slice, which `omitempty` leaves out,
comes back as the nil slice. -/

/-- A slice as it comes back, `f` being what an element comes back as. -/
def Slice.trim {α : Type} (f : α → α) (s : Slice α) : Slice α :=
  ⟨s.items.isEmpty, s.items.map f, []⟩

/-- `Flags` as they come back. -/
def Flags.trim (f : Flags) : Flags :=
  { f with
    DarkSkyStations := f.DarkSkyStations.trim id,
    DataPointStations := f.DataPointStations.trim id, ISDStations := f.ISDStations.trim id,
    LAMPStations := f.LAMPStations.trim id, MADISStations := f.MADISStations.trim id,
    METARStations := f.METARStations.trim id, Sources := f.Sources.trim id }

/-- A `DataBlock` as it comes back. -/
def DataBlock.trim (d : DataBlock) : DataBlock :=
  { d with
    Data := d.Data.trim id }

/-- An `Alert` as it comes back. -/
def Alert.trim (a : Alert) : Alert :=
  { a with
    Regions := a.Regions.trim id }

/-- A `Forecast` as it comes back. -/
def Forecast.trim (f : Forecast) : Forecast :=
  { f with
    Minutely := f.Minutely.trim, Hourly := f.Hourly.trim, Daily := f.Daily.trim,
    Alerts := f.Alerts.trim Alert.trim, Flags := f.Flags.trim }

/-! ## Optional fields that are present -/

/-- Whether `omitempty` leaves out no field of the record `s`. -/
def present {σ : Type} (cs : List (Codec σ)) (s : σ) : Bool :=
  cs.all (fun c => !c.empty (c.get s))

/-- Whether every optional field of a `DataBlock` and of its data points is
present. -/
def DataBlock.allPresent (b : DataBlock) : Bool :=
  present dataBlockCodecs b && b.Data.items.all (present dataPointCodecs)

/-- Whether every optional field of a `Forecast` is present, the fields of the
records and sequences in it included. -/
def Forecast.allPresent (f : Forecast) : Bool :=
  present forecastCodecs f && present dataPointCodecs f.Currently && f.Minutely.allPresent &&
    f.Hourly.allPresent && f.Daily.allPresent && f.Alerts.items.all (present alertCodecs) &&
    present flagsCodecs f.Flags

/-! ## A forecast with every field present -/

/-- The `float64` 0.5. -/
def sampleHalf : Float64 := ⟨4602678819172646912⟩

/-- The `float64` 37.8267. -/
def sampleLat : Float64 := ⟨4630520452060269878⟩

/-- The `float64` -122.4233. -/
def sampleLong : Float64 := ⟨13861687227670731109⟩

/-- The `float64` that `math.NaN` returns. -/
def sampleNaN : Float64 := ⟨9221120237041090561⟩

/-- A formatter that knows the shortest texts of the three sample numbers. -/
def sampleFmt : FloatFmt := fun x =>
  if x = sampleHalf then "0.5"
  else if x = sampleLat then "37.8267"
  else if x = sampleLong then "-122.4233"
  else "0"

/-- A data point at the time `t` with every field present (`t` positive or
below -11). -/
def samplePoint (t : Int) : DataPoint :=
  { Time := t, Summary := "Clear", Icon := "clear-day", SunriseTime := t + 2, SunsetTime := t + 3,
    MoonPhase := sampleHalf, PrecipIntensity := sampleLat, PrecipIntensityMax := sampleLong,
    PrecipIntensityMaxTime := t + 4, PrecipProbability := sampleHalf,
    PrecipAccumulation := sampleLat, PrecipType := "rain", Temperature := sampleLong,
    TemperatureMin := sampleHalf, TemperatureMinTime := t + 5, TemperatureMax := sampleLat,
    TemperatureMaxTime := t + 6, ApparentTemperature := sampleLong,
    ApparentTemperatureMin := sampleHalf, ApparentTemperatureMinTime := t + 7,
    ApparentTemperatureMax := sampleLat, ApparentTemperatureMaxTime := t + 8,
    NearestStormBearing := sampleLong, NearestStormDistance := sampleHalf, DewPoint := sampleLat,
    Humidity := sampleLong, WindSpeed := sampleHalf, WindGust := sampleLat, WindGustTime := t + 9,
    WindBearing := -3, Visibility := sampleLong, CloudCover := sampleHalf, Pressure := sampleLat,
    Ozone := sampleLong, UvIndex := sampleHalf, UvIndexTime := t + 11 }

/-- Flags with every field present. -/
def sampleFlags : Flags :=
  { DarkSkyUnavailable := "no", DarkSkyStations := Slice.ofList ["dar1", "dar0"],
    DataPointStations := Slice.ofList ["dat1", "dat0"],
    ISDStations := Slice.ofList ["isd1", "isd0"], LAMPStations := Slice.ofList ["lam1", "lam0"],
    MADISStations := Slice.ofList ["mad1", "mad0"],
    METARStations := Slice.ofList ["met1", "met0"], METNOLicense := "CC-BY",
    Sources := Slice.ofList ["sou1", "sou0"], Units := "us" }

/-- An alert with every field present; the description has characters the
encoder escapes. -/
def sampleAlert (title : String) : Alert :=
  { Title := title, Regions := Slice.ofList ["Marin", "Alameda"], Severity := "advisory",
    Description := "Wind \"advisory\" <b>&\n\\ \u00e9\u2028\t\x01", Time := 1577836800,
    Expires := sampleLat, URI := "https://alerts.weather.gov/" }

/-- A forecast with every field present. -/
def sampleForecast : Forecast :=
  { Latitude := sampleLat, Longitude := sampleLong, Timezone := "America/Los_Angeles",
    Offset := sampleHalf, Currently := samplePoint 1577836800,
    Minutely :=
      { Summary := "Rain", Icon := "rain", Data := Slice.ofList [samplePoint 2, samplePoint 1] },
    Hourly := { Summary := "Fog", Icon := "fog", Data := Slice.ofList [samplePoint 3600] },
    Daily :=
      { Summary := "Sun", Icon := "clear-day", Data := Slice.ofList [samplePoint (-86400)] },
    Alerts := Slice.ofList [sampleAlert "Wind", sampleAlert "Flood"], Flags := sampleFlags,
    APICalls := 7, Code := 200, ResponseTime := 42 }

/-- The sample forecast with a latitude that is not a number. -/
def nanForecast : Forecast :=
  { sampleForecast with Latitude := sampleNaN }

/-! # Properties -/

/-! ## The URL -/

theorem requestURL_now (key lat long : String) (units : Units) (lang : Lang) :
    requestURL key lat long "now" units lang =
      BASEURL ++ "/" ++ key ++ "/" ++ lat ++ "," ++ long ++ "?units=" ++ units ++ "&lang=" ++ lang := by
  simp [requestURL, String.append_assoc]

theorem requestURL_time (key lat long time : String) (units : Units) (lang : Lang)
    (h : time ≠ "now") :
    requestURL key lat long time units lang =
      BASEURL ++ "/" ++ key ++ "/" ++ lat ++ "," ++ long ++ "," ++ time ++
        "?units=" ++ units ++ "&lang=" ++ lang := by
  simp [requestURL, h, String.append_assoc]

theorem getResponse_trace (get : Transport) (key lat long time : String) (units : Units)
    (lang : Lang) :
    (getResponse get key lat long time units lang).2 =
      [Event.httpGet (requestURL key lat long time units lang)] := by
  unfold getResponse
  dsimp only
  split <;> rfl

theorem getResponse_result (get : Transport) (key lat long time : String) (units : Units)
    (lang : Lang) :
    (getResponse get key lat long time units lang).1 =
      get (requestURL key lat long time units lang) := by
  unfold getResponse
  dsimp only
  split <;> simp [*]

/-- C1: for all strings key, lat, long, time, units and lang, the one URL
`getResponse` requests from the transport is
`BASEURL/key/lat,long?units=units&lang=lang` when `time` is exactly "now" and
`BASEURL/key/lat,long,time?units=units&lang=lang` for every other `time`. -/
theorem getResponse_requests_url (get : Transport) (key lat long time : String)
    (units : Units) (lang : Lang) :
    (time = "now" →
      (getResponse get key lat long time units lang).2 =
        [Event.httpGet (BASEURL ++ "/" ++ key ++ "/" ++ lat ++ "," ++ long ++
          "?units=" ++ units ++ "&lang=" ++ lang)]) ∧
    (time ≠ "now" →
      (getResponse get key lat long time units lang).2 =
        [Event.httpGet (BASEURL ++ "/" ++ key ++ "/" ++ lat ++ "," ++ long ++ "," ++ time ++
          "?units=" ++ units ++ "&lang=" ++ lang)]) := by
  constructor
  · intro h
    subst h
    rw [getResponse_trace, requestURL_now]
  · intro h
    rw [getResponse_trace, requestURL_time _ _ _ _ _ _ h]

/-- The scenarios of C1: the coordinates 37.8267, -122.4233 with units US and
language English, at "now", at the time 1577836800, at the empty time and at
"Now". -/
theorem getResponse_requests_url_witness :
    (getResponse (fun _ => GetResult.failed none (GoError.transport "down"))
        "key" "37.8267" "-122.4233" "now" US English).2 =
      [Event.httpGet "https://api.darksky.net/forecast/key/37.8267,-122.4233?units=us&lang=en"] ∧
    (getResponse (fun _ => GetResult.failed none (GoError.transport "down"))
        "key" "37.8267" "-122.4233" "1577836800" US English).2 =
      [Event.httpGet
        "https://api.darksky.net/forecast/key/37.8267,-122.4233,1577836800?units=us&lang=en"] ∧
    (getResponse (fun _ => GetResult.failed none (GoError.transport "down"))
        "key" "37.8267" "-122.4233" "" US English).2 =
      [Event.httpGet "https://api.darksky.net/forecast/key/37.8267,-122.4233,?units=us&lang=en"] ∧
    (getResponse (fun _ => GetResult.failed none (GoError.transport "down"))
        "key" "37.8267" "-122.4233" "Now" US English).2 =
      [Event.httpGet
        "https://api.darksky.net/forecast/key/37.8267,-122.4233,Now?units=us&lang=en"] :=
  ⟨((getResponse_requests_url _ "key" "37.8267" "-122.4233" "now" US English).1 rfl).trans
      (by decide),
   ((getResponse_requests_url _ "key" "37.8267" "-122.4233" "1577836800" US English).2
      (by decide)).trans (by decide),
   ((getResponse_requests_url _ "key" "37.8267" "-122.4233" "" US English).2
      (by decide)).trans (by decide),
   ((getResponse_requests_url _ "key" "37.8267" "-122.4233" "Now" US English).2
      (by decide)).trans (by decide)⟩

/-! ## The path segment -/

theorem requestURL_segment (key lat long time : String) (units : Units) (lang : Lang) :
    requestURL key lat long time units lang =
      BASEURL ++ "/" ++ key ++ "/" ++ coordSegment lat long time ++
        "?units=" ++ units ++ "&lang=" ++ lang := by
  unfold requestURL coordSegment
  split <;> simp [String.append_assoc]

theorem length_splitOnP {α : Type} (p : α → Bool) (xs : List α) :
    (xs.splitOnP p).length = xs.countP p + 1 := by
  induction xs with
  | nil => simp
  | cons x xs ih =>
    rw [List.splitOnP_cons, List.countP_cons]
    by_cases h : p x
    · simp [h, ih]
    · simp [h, ih]

theorem length_splitComma (s : String) : (splitComma s).length = commas s + 1 := by
  unfold splitComma commas
  rw [List.length_map, List.splitOn, length_splitOnP, List.count]

theorem commas_append (s t : String) : commas (s ++ t) = commas s + commas t := by
  simp [commas, String.data_append]

theorem splitComma_pair (lat long : String) (h1 : ',' ∉ lat.data) (h2 : ',' ∉ long.data) :
    splitComma (lat ++ "," ++ long) = [lat, long] := by
  have h := List.splitOn_intercalate [lat.data, long.data] ','
    (by
      intro l hl
      simp only [List.mem_cons, List.mem_singleton, List.not_mem_nil, or_false] at hl
      rcases hl with rfl | rfl
      · exact h1
      · exact h2)
    (by simp)
  have e : (lat ++ "," ++ long).data = [','].intercalate [lat.data, long.data] := by
    simp [String.data_append, List.intercalate]
  unfold splitComma
  rw [e, h]
  rfl

/-- C2, as the code has it: at `time == "now"` the path segment of the URL is
exactly `lat + "," + long`, with no time part; it splits on "," into
`2 + (commas of lat) + (commas of long)` parts, and the parts are exactly
`lat` and `long` if and only if neither contains a comma. -/
theorem coordSegment_now (key lat long time : String) (units : Units) (lang : Lang)
    (h : time = "now") :
    requestURL key lat long time units lang =
        BASEURL ++ "/" ++ key ++ "/" ++ coordSegment lat long time ++
          "?units=" ++ units ++ "&lang=" ++ lang ∧
      coordSegment lat long time = lat ++ "," ++ long ∧
      (splitComma (coordSegment lat long time)).length = 2 + commas lat + commas long ∧
      (splitComma (coordSegment lat long time) = [lat, long] ↔
        (',' ∉ lat.data ∧ ',' ∉ long.data)) := by
  subst h
  have hseg : coordSegment lat long "now" = lat ++ "," ++ long := by simp [coordSegment]
  have hlen : (splitComma (coordSegment lat long "now")).length =
      2 + commas lat + commas long := by
    rw [hseg, length_splitComma, commas_append, commas_append]
    have : commas "," = 1 := by decide
    omega
  refine ⟨requestURL_segment _ _ _ _ _ _, hseg, hlen, ?_, ?_⟩
  · intro e
    rw [e] at hlen
    simp only [List.length_cons, List.length_nil] at hlen
    have h1 : commas lat = 0 := by omega
    have h2 : commas long = 0 := by omega
    exact ⟨List.count_eq_zero.mp h1, List.count_eq_zero.mp h2⟩
  · rintro ⟨h1, h2⟩
    rw [hseg]
    exact splitComma_pair lat long h1 h2

/-- The scenario of C2: at "now" the segment of 37.8267, -122.4233 splits
into exactly these two parts. -/
theorem coordSegment_now_witness :
    coordSegment "37.8267" "-122.4233" "now" = "37.8267,-122.4233" ∧
      splitComma (coordSegment "37.8267" "-122.4233" "now") = ["37.8267", "-122.4233"] :=
  ⟨(coordSegment_now "key" "37.8267" "-122.4233" "now" US English rfl).2.1.trans (by decide),
   (coordSegment_now "key" "37.8267" "-122.4233" "now" US English rfl).2.2.2.mpr
     ⟨by decide, by decide⟩⟩

/-- C2 fails as stated: with lat = "1,2" and long = "3" at time "now" the
segment is "1,2,3", which has a third comma-separated part, and its parts are
not lat and long. -/
theorem coordSegment_now_counterexample :
    ¬ (∀ lat long : String,
        splitComma (coordSegment lat long "now") = [lat, long]) ∧
      requestURL "key" "1,2" "3" "now" US English =
        "https://api.darksky.net/forecast/key/1,2,3?units=us&lang=en" ∧
      splitComma (coordSegment "1,2" "3" "now") = ["1", "2", "3"] := by
  refine ⟨?_, by decide, by decide⟩
  intro h
  have := h "1,2" "3"
  revert this
  decide

/-! ## strconv.Atoi -/

theorem flatMap_utf8Bytes_ascii (cs : List Char) (h : ∀ c ∈ cs, c.toNat < 128) :
    cs.flatMap utf8Bytes = cs.map Char.toNat := by
  induction cs with
  | nil => rfl
  | cons c cs ih =>
    have hc : c.toNat < 128 := h c (List.mem_cons_self _ _)
    have ht : cs.flatMap utf8Bytes = cs.map Char.toNat :=
      ih (fun d hd => h d (List.mem_cons_of_mem _ hd))
    simp [List.flatMap_cons, utf8Bytes, hc, ht]

theorem le_digitsFold (ds : List Char) (acc : Nat) : acc ≤ digitsFold acc ds := by
  induction ds generalizing acc with
  | nil => simp [digitsFold]
  | cons c cs ih =>
    have h := ih (acc * 10 + (c.toNat - 48))
    simp only [digitsFold, List.foldl_cons] at h ⊢
    omega

theorem atoiLoop_digits (ds : List Char) (hd : ∀ c ∈ ds, isDecDigit c = true) (acc : Nat) :
    atoiLoop (ds.map Char.toNat) (acc : Int) = some ((digitsFold acc ds : Nat) : Int) := by
  induction ds generalizing acc with
  | nil => simp [atoiLoop, digitsFold]
  | cons c cs ih =>
    have hc := hd c (List.mem_cons_self _ _)
    simp only [isDecDigit, Bool.and_eq_true, decide_eq_true_eq] at hc
    have e : (c.toNat + 256 - 48) % 256 = c.toNat - 48 := by omega
    have h9 : ¬ (c.toNat - 48 > 9) := by omega
    have := ih (fun d hd1 => hd d (List.mem_cons_of_mem _ hd1)) (acc * 10 + (c.toNat - 48))
    simp only [List.map_cons, atoiLoop, e, digitsFold, List.foldl_cons] at this ⊢
    rw [if_neg h9]
    rw [← this]
    push_cast
    rfl

theorem parseUintLoop_digits (s0 : String) (ds : List Char)
    (hd : ∀ c ∈ ds, isDecDigit c = true) (n : Nat) (hb : digitsFold n ds < 2 ^ 64) :
    parseUintLoop s0 (ds.map Char.toNat) n = (digitsFold n ds, none) := by
  induction ds generalizing n with
  | nil => simp [parseUintLoop, digitsFold]
  | cons c cs ih =>
    have hc := hd c (List.mem_cons_self _ _)
    simp only [isDecDigit, Bool.and_eq_true, decide_eq_true_eq] at hc
    have hb1 : digitsFold (n * 10 + (c.toNat - 48)) cs < 2 ^ 64 := by
      simpa [digitsFold] using hb
    have hle := le_digitsFold cs (n * 10 + (c.toNat - 48))
    have hn : n * 10 + (c.toNat - 48) < 2 ^ 64 := lt_of_le_of_lt hle hb1
    have := ih (fun d hd1 => hd d (List.mem_cons_of_mem _ hd1)) _ hb1
    simp only [List.map_cons, parseUintLoop, maxUint64]
    rw [if_pos hc, if_neg (by omega)]
    have e1 : n * 10 % 2 ^ 64 = n * 10 := Nat.mod_eq_of_lt (by omega)
    have e2 : (n * 10 + (c.toNat - 48)) % 2 ^ 64 = n * 10 + (c.toNat - 48) :=
      Nat.mod_eq_of_lt hn
    simp only [e1, e2]
    rw [if_neg (by omega), this]
    simp [digitsFold]
theorem ParseUint_digits (s0 : String) (ds : List Char) (hne : ds ≠ [])
    (hd : ∀ c ∈ ds, isDecDigit c = true) (hb : digitsFold 0 ds < 2 ^ 64) :
    ParseUint s0 (ds.map Char.toNat) = (digitsFold 0 ds, none) := by
  unfold ParseUint
  rw [if_neg (by simpa using hne)]
  exact parseUintLoop_digits s0 ds hd 0 hb

theorem toInt64_small (v : Nat) (h : v < 2 ^ 63) : toInt64 v = (v : Int) := by
  unfold toInt64
  have e : v % 2 ^ 64 = v := Nat.mod_eq_of_lt (by omega)
  rw [e, if_pos h]

/-- The three shapes of a decimal numeral. -/
theorem decimalValue_cases (s : String) (n : Int) (h : decimalValue s = some n) :
    ∃ ds : List Char, ds ≠ [] ∧ (∀ c ∈ ds, isDecDigit c = true) ∧
      ((s.data = ds ∧ n = (digitsFold 0 ds : Nat)) ∨
       (s.data = '+' :: ds ∧ n = (digitsFold 0 ds : Nat)) ∨
       (s.data = '-' :: ds ∧ n = -((digitsFold 0 ds : Nat) : Int))) := by
  have key : ∀ (ds : List Char) (m : Nat), digitsValue ds = some m →
      ds ≠ [] ∧ (∀ c ∈ ds, isDecDigit c = true) ∧ m = digitsFold 0 ds := by
    intro ds m hm
    unfold digitsValue at hm
    split at hm
    · rename_i hh
      refine ⟨hh.1, ?_, ?_⟩
      · intro c hc
        exact (List.all_eq_true.mp hh.2) c hc
      · simpa using hm.symm
    · simp at hm
  unfold decimalValue at h
  split at h
  · rename_i ds heq
    cases hm : digitsValue ds with
    | none => rw [hm] at h; cases h
    | some m =>
      rw [hm] at h
      obtain ⟨h1, h2, rfl⟩ := key ds m hm
      exact ⟨ds, h1, h2, Or.inr (Or.inr ⟨heq, (Option.some.inj h).symm⟩)⟩
  · rename_i ds heq
    cases hm : digitsValue ds with
    | none => rw [hm] at h; cases h
    | some m =>
      rw [hm] at h
      obtain ⟨h1, h2, rfl⟩ := key ds m hm
      exact ⟨ds, h1, h2, Or.inr (Or.inl ⟨heq, (Option.some.inj h).symm⟩)⟩
  · cases hm : digitsValue s.data with
    | none => rw [hm] at h; cases h
    | some m =>
      rw [hm] at h
      obtain ⟨h1, h2, rfl⟩ := key s.data m hm
      exact ⟨s.data, h1, h2, Or.inl ⟨rfl, (Option.some.inj h).symm⟩⟩

theorem isDecDigit_ascii (c : Char) (h : isDecDigit c = true) : c.toNat < 128 := by
  simp only [isDecDigit, Bool.and_eq_true, decide_eq_true_eq] at h
  omega
theorem goBytes_of_data (s : String) (cs : List Char) (h : s.data = cs)
    (ha : ∀ c ∈ cs, c.toNat < 128) : goBytes s = cs.map Char.toNat := by
  unfold goBytes
  rw [h]
  exact flatMap_utf8Bytes_ascii cs ha

theorem ParseInt_of_ParseUint (s0 : String) (c : Nat) (cs : List Nat) (un : Nat)
    (h : ParseUint s0 (if c == 43 ∨ c == 45 then cs else c :: cs) = (un, none)) :
    ParseInt s0 (c :: cs) =
      if !(c == 45) ∧ un ≥ 2 ^ 63 then (2 ^ 63 - 1, some (GoError.numRange "ParseInt" s0))
      else if (c == 45) ∧ un > 2 ^ 63 then (-(2 ^ 63), some (GoError.numRange "ParseInt" s0))
      else (if c == 45 then negInt64 (toInt64 un) else toInt64 un, none) := by
  simp only [ParseInt, h, intSize]
  norm_num

/-- A decimal numeral within the range of `int` is parsed to its value,
without an error. -/
theorem Atoi_decimal (s : String) (n : Int) (h : decimalValue s = some n)
    (lo : -(2 ^ 63) ≤ n) (hi : n < 2 ^ 63) : Atoi s = (n, none) := by
  obtain ⟨ds, hne, hd, hcase⟩ := decimalValue_cases s n h
  have hda : ∀ c ∈ ds, c.toNat < 128 := fun c hc => isDecDigit_ascii c (hd c hc)
  obtain ⟨c, cs, rfl⟩ := List.exists_cons_of_ne_nil hne
  have hc := hd c (List.mem_cons_self _ _)
  simp only [isDecDigit, Bool.and_eq_true, decide_eq_true_eq] at hc
  have hfast := atoiLoop_digits (c :: cs) hd 0
  simp only [List.map_cons, Nat.cast_zero] at hfast
  have h43 : c.toNat ≠ 43 := by omega
  have h45 : c.toNat ≠ 45 := by omega
  rcases hcase with ⟨hs, rfl⟩ | ⟨hs, rfl⟩ | ⟨hs, rfl⟩
  · -- no sign
    have hb := goBytes_of_data s _ hs hda
    have hv : digitsFold 0 (c :: cs) < 2 ^ 63 := by exact_mod_cast hi
    have hu := ParseUint_digits s (c :: cs) hne hd (by omega)
    simp only [List.map_cons] at hu hb
    have hp := ParseInt_of_ParseUint s c.toNat (cs.map Char.toNat) _
      (by simpa [h43, h45] using hu)
    unfold Atoi
    simp only [hb]
    split
    · simp [h43, h45, hfast]
    · rw [hp]
      have hge : ¬ (9223372036854775808 ≤ digitsFold 0 (c :: cs)) := by omega
      simp [h45, toInt64_small _ hv, renameAtoi, hge]
  · -- plus sign
    have hb := goBytes_of_data s ('+' :: c :: cs) hs (by
      intro d hdm
      rcases List.mem_cons.mp hdm with rfl | hdm
      · decide
      · exact hda d hdm)
    have hv : digitsFold 0 (c :: cs) < 2 ^ 63 := by exact_mod_cast hi
    have hu := ParseUint_digits s (c :: cs) hne hd (by omega)
    have e43 : ('+' : Char).toNat = 43 := by decide
    simp only [List.map_cons, e43] at hu hb
    have hp := ParseInt_of_ParseUint s 43 (c.toNat :: cs.map Char.toNat) _
      (by simpa using hu)
    unfold Atoi
    simp only [hb]
    split
    · simp [hfast]
    · rw [hp]
      have hge : ¬ (9223372036854775808 ≤ digitsFold 0 (c :: cs)) := by omega
      simp [toInt64_small _ hv, renameAtoi, hge]
  · -- minus sign
    have hb := goBytes_of_data s ('-' :: c :: cs) hs (by
      intro d hdm
      rcases List.mem_cons.mp hdm with rfl | hdm
      · decide
      · exact hda d hdm)
    have hv : digitsFold 0 (c :: cs) ≤ 2 ^ 63 := by
      have : -((2 : Int) ^ 63) ≤ -((digitsFold 0 (c :: cs) : Nat) : Int) := lo
      omega
    have hu := ParseUint_digits s (c :: cs) hne hd (by omega)
    have e45 : ('-' : Char).toNat = 45 := by decide
    simp only [List.map_cons, e45] at hu hb
    have hp := ParseInt_of_ParseUint s 45 (c.toNat :: cs.map Char.toNat) _
      (by simpa using hu)
    unfold Atoi
    simp only [hb]
    split
    · simp [hfast]
    · rw [hp]
      by_cases hq : digitsFold 0 (c :: cs) = 2 ^ 63
      · rw [hq]
        simp [toInt64, negInt64, renameAtoi]
      · have hv' : digitsFold 0 (c :: cs) < 2 ^ 63 := by omega
        have hne' : ((digitsFold 0 (c :: cs) : Nat) : Int) ≠ -(2 ^ 63) := by omega
        have hnot : ¬ (9223372036854775808 < digitsFold 0 (c :: cs)) := by omega
        simp [toInt64_small _ hv', negInt64, hne', renameAtoi, hnot]
/-- The results of `ParseInt`: a value without an error, 0 with a syntax
error, or a bound of `int64` with a range error. -/
theorem ParseInt_results (s0 : String) (b : List Nat) :
    (ParseInt s0 b).2 = none ∨
      ParseInt s0 b = (0, some (GoError.numSyntax "ParseInt" s0)) ∨
      ParseInt s0 b = (2 ^ 63 - 1, some (GoError.numRange "ParseInt" s0)) ∨
      ParseInt s0 b = (-(2 ^ 63), some (GoError.numRange "ParseInt" s0)) := by
  unfold ParseInt
  cases b with
  | nil => simp
  | cons c cs =>
    dsimp only
    split
    · simp
    · simp only [intSize]
      split_ifs <;> simp

/-- The results of `Atoi`: a value without an error, 0 with a syntax error, or
a bound of `int` with a range error. -/
theorem Atoi_results (s : String) :
    (Atoi s).2 = none ∨
      Atoi s = (0, some (GoError.numSyntax "Atoi" s)) ∨
      Atoi s = (2 ^ 63 - 1, some (GoError.numRange "Atoi" s)) ∨
      Atoi s = (-(2 ^ 63), some (GoError.numRange "Atoi" s)) := by
  unfold Atoi
  dsimp only
  split
  · generalize (if (goBytes s).head? = some 45 ∨ (goBytes s).head? = some 43
      then (goBytes s).tail else goBytes s) = digits
    split
    · simp
    · cases atoiLoop digits 0 <;> simp
  · rcases ParseInt_results s (goBytes s) with h | h | h | h
    · left
      rw [h]
      rfl
    · right; left
      rw [h]
      rfl
    · right; right; left
      rw [h]
      rfl
    · right; right; right
      rw [h]
      rfl

theorem Atoi_syntax_zero (s fn num : String)
    (h : (Atoi s).2 = some (GoError.numSyntax fn num)) : (Atoi s).1 = 0 := by
  rcases Atoi_results s with h1 | h1 | h1 | h1
  · rw [h1] at h; cases h
  · rw [h1]
  · rw [h1] at h; cases h
  · rw [h1] at h; cases h

theorem Atoi_range_bound (s fn num : String)
    (h : (Atoi s).2 = some (GoError.numRange fn num)) :
    (Atoi s).1 = 2 ^ 63 - 1 ∨ (Atoi s).1 = -(2 ^ 63) := by
  rcases Atoi_results s with h1 | h1 | h1 | h1
  · rw [h1] at h; cases h
  · rw [h1] at h; cases h
  · left; rw [h1]
  · right; rw [h1]

theorem Header_Get_missing (h : Header) (key : String)
    (hm : h.lookup (CanonicalMIMEHeaderKey key) = none) : h.Get key = "" := by
  unfold Header.Get
  rw [hm]

theorem Atoi_empty : Atoi "" = (0, some (GoError.numSyntax "Atoi" "")) := by
  decide
/-! ## GetForecast: the three paths -/

theorem GetForecast_failed (get : Transport) (dec : Decoder) (key lat long time : String)
    (units : Units) (lang : Lang) (r : Option Response) (e : GoError)
    (hg : get (requestURL key lat long time units lang) = GetResult.failed r e) :
    GetForecast get dec key lat long time units lang =
      ⟨none, some e, [Event.httpGet (requestURL key lat long time units lang)], false⟩ := by
  simp [GetForecast, getResponse, hg]

theorem GetForecast_decode_failed (get : Transport) (dec : Decoder)
    (key lat long time : String) (units : Units) (lang : Lang) (res : Response)
    (p : Forecast) (e : GoError)
    (hg : get (requestURL key lat long time units lang) = GetResult.ok res)
    (hd : dec res.Body {} = (p, some e)) :
    GetForecast get dec key lat long time units lang =
      ⟨none, some e, [Event.httpGet (requestURL key lat long time units lang),
        Event.decode res.Body, Event.close res.Body], false⟩ := by
  simp [GetForecast, getResponse, hg, fromJSON, hd]

theorem GetForecast_decoded (get : Transport) (dec : Decoder)
    (key lat long time : String) (units : Units) (lang : Lang) (res : Response)
    (f0 : Forecast)
    (hg : get (requestURL key lat long time units lang) = GetResult.ok res)
    (hd : dec res.Body {} = (f0, none)) :
    GetForecast get dec key lat long time units lang =
      ⟨some { f0 with
          ResponseTime := (Atoi (res.Header.Get "X-Response-Time")).1
          APICalls := (Atoi (res.Header.Get "X-Forecast-API-Calls")).1 },
        none,
        [Event.httpGet (requestURL key lat long time units lang), Event.decode res.Body,
          Event.headerGet "X-Forecast-API-Calls", Event.headerGet "X-Response-Time",
          Event.close res.Body], false⟩ := by
  simp [GetForecast, getResponse, hg, fromJSON, hd]

theorem fromJSON_decoded (dec : Decoder) (body : Body) (f0 : Forecast)
    (hd : dec body {} = (f0, none)) : fromJSON dec body = (some f0, none) := by
  simp [fromJSON, hd]

theorem fromJSON_failed (dec : Decoder) (body : Body) (p : Forecast) (e : GoError)
    (hd : dec body {} = (p, some e)) : fromJSON dec body = (none, some e) := by
  simp [fromJSON, hd]

/-! ## The header values -/

/-- C3: when the transport call and the decode both succeed and the headers
X-Forecast-API-Calls and X-Response-Time hold decimal integers n and m within
the range of `int`, `GetForecast` returns, without an error, the decoded
Forecast with APICalls = n and ResponseTime = m, whatever the decoder had put
in these two fields. -/
theorem GetForecast_header_values (get : Transport) (dec : Decoder)
    (key lat long time : String) (units : Units) (lang : Lang) (res : Response)
    (f0 : Forecast) (n m : Int)
    (hg : get (requestURL key lat long time units lang) = GetResult.ok res)
    (hd : dec res.Body {} = (f0, none))
    (hn : decimalValue (res.Header.Get "X-Forecast-API-Calls") = some n)
    (hnr : -(2 ^ 63) ≤ n ∧ n < 2 ^ 63)
    (hm : decimalValue (res.Header.Get "X-Response-Time") = some m)
    (hmr : -(2 ^ 63) ≤ m ∧ m < 2 ^ 63) :
    (GetForecast get dec key lat long time units lang).forecast =
        some { f0 with APICalls := n, ResponseTime := m } ∧
      (GetForecast get dec key lat long time units lang).err = none ∧
      (GetForecast get dec key lat long time units lang).panicked = false := by
  rw [GetForecast_decoded get dec key lat long time units lang res f0 hg hd,
    Atoi_decimal _ n hn hnr.1 hnr.2, Atoi_decimal _ m hm hmr.1 hmr.2]
  exact ⟨rfl, rfl, rfl⟩

/-- The scenario of C3: the headers hold 42 and -17 while the decoded body
carried 7 and 9 in the two fields. -/
theorem GetForecast_header_values_witness :
    (GetForecast
        (fun _ => GetResult.ok ⟨"200 OK", 200,
          [("X-Forecast-Api-Calls", ["42"]), ("X-Response-Time", ["-17"])], ⟨"\x7b\x7d"⟩⟩)
        (fun _ f => ({ f with APICalls := 7, ResponseTime := 9, Timezone := "Etc/UTC" }, none))
        "key" "37.8267" "-122.4233" "now" US English).forecast =
      some { Timezone := "Etc/UTC", APICalls := 42, ResponseTime := -17 } :=
  (GetForecast_header_values
    (fun _ => GetResult.ok ⟨"200 OK", 200,
      [("X-Forecast-Api-Calls", ["42"]), ("X-Response-Time", ["-17"])], ⟨"\x7b\x7d"⟩⟩)
    (fun _ f => ({ f with APICalls := 7, ResponseTime := 9, Timezone := "Etc/UTC" }, none))
    "key" "37.8267" "-122.4233" "now" US English
    ⟨"200 OK", 200, [("X-Forecast-Api-Calls", ["42"]), ("X-Response-Time", ["-17"])], ⟨"\x7b\x7d"⟩⟩
    { APICalls := 7, ResponseTime := 9, Timezone := "Etc/UTC" } 42 (-17)
    rfl rfl (by decide) (by decide) (by decide) (by decide)).1

/-- C4, as the code has it: when the transport call and the decode both
succeed, `GetForecast` returns a Forecast and no error whatever the two headers
hold; for each header, the field is 0 when the header is missing or when
`strconv.Atoi` rejects its value with a syntax error, and it is the bound
2^63 - 1 or -2^63 of `int` when `Atoi` rejects the value with a range error.
`Atoi` reports no other error. -/
theorem GetForecast_header_default (get : Transport) (dec : Decoder)
    (key lat long time : String) (units : Units) (lang : Lang) (res : Response)
    (f0 : Forecast)
    (hg : get (requestURL key lat long time units lang) = GetResult.ok res)
    (hd : dec res.Body {} = (f0, none)) :
    ∃ f : Forecast,
      GetForecast get dec key lat long time units lang =
        ⟨some f, none,
          [Event.httpGet (requestURL key lat long time units lang), Event.decode res.Body,
            Event.headerGet "X-Forecast-API-Calls", Event.headerGet "X-Response-Time",
            Event.close res.Body], false⟩ ∧
      (res.Header.lookup (CanonicalMIMEHeaderKey "X-Forecast-API-Calls") = none →
        f.APICalls = 0) ∧
      (res.Header.lookup (CanonicalMIMEHeaderKey "X-Response-Time") = none →
        f.ResponseTime = 0) ∧
      (∀ fn num, (Atoi (res.Header.Get "X-Forecast-API-Calls")).2 =
          some (GoError.numSyntax fn num) → f.APICalls = 0) ∧
      (∀ fn num, (Atoi (res.Header.Get "X-Response-Time")).2 =
          some (GoError.numSyntax fn num) → f.ResponseTime = 0) ∧
      (∀ fn num, (Atoi (res.Header.Get "X-Forecast-API-Calls")).2 =
          some (GoError.numRange fn num) → f.APICalls = 2 ^ 63 - 1 ∨ f.APICalls = -(2 ^ 63)) ∧
      (∀ fn num, (Atoi (res.Header.Get "X-Response-Time")).2 =
          some (GoError.numRange fn num) →
            f.ResponseTime = 2 ^ 63 - 1 ∨ f.ResponseTime = -(2 ^ 63)) ∧
      (∀ h : String, (Atoi h).2 = none ∨ (Atoi h).2 = some (GoError.numSyntax "Atoi" h) ∨
        (Atoi h).2 = some (GoError.numRange "Atoi" h)) := by
  refine ⟨_, GetForecast_decoded get dec key lat long time units lang res f0 hg hd,
    ?_, ?_, ?_, ?_, ?_, ?_, ?_⟩
  · intro hmiss
    show (Atoi (res.Header.Get "X-Forecast-API-Calls")).1 = 0
    rw [Header_Get_missing _ _ hmiss, Atoi_empty]
  · intro hmiss
    show (Atoi (res.Header.Get "X-Response-Time")).1 = 0
    rw [Header_Get_missing _ _ hmiss, Atoi_empty]
  · intro fn num h
    exact Atoi_syntax_zero _ fn num h
  · intro fn num h
    exact Atoi_syntax_zero _ fn num h
  · intro fn num h
    exact Atoi_range_bound _ fn num h
  · intro fn num h
    exact Atoi_range_bound _ fn num h
  · intro h
    rcases Atoi_results h with h1 | h1 | h1 | h1
    · exact Or.inl h1
    · exact Or.inr (Or.inl (by rw [h1]))
    · exact Or.inr (Or.inr (by rw [h1]))
    · exact Or.inr (Or.inr (by rw [h1]))

/-- The scenario of C4: X-Forecast-API-Calls holds "abc" and X-Response-Time
is missing, while the body carries 5 and 6 for the two fields: both are 0 in
the Forecast returned, and there is no error. -/
theorem GetForecast_header_default_witness :
    ∃ f : Forecast,
      GetForecast
          (fun _ => GetResult.ok ⟨"200 OK", 200, [("X-Forecast-Api-Calls", ["abc"])],
            ⟨"\x7b\"apiCalls\": 5, \"responseTime\": 6\x7d"⟩⟩)
          jsonDecode "key" "37.8267" "-122.4233" "now" US English =
        ⟨some f, none,
          [Event.httpGet (requestURL "key" "37.8267" "-122.4233" "now" US English),
            Event.decode ⟨"\x7b\"apiCalls\": 5, \"responseTime\": 6\x7d"⟩,
            Event.headerGet "X-Forecast-API-Calls", Event.headerGet "X-Response-Time",
            Event.close ⟨"\x7b\"apiCalls\": 5, \"responseTime\": 6\x7d"⟩], false⟩ ∧
      f.APICalls = 0 ∧ f.ResponseTime = 0 :=
  match GetForecast_header_default
      (fun _ => GetResult.ok ⟨"200 OK", 200, [("X-Forecast-Api-Calls", ["abc"])],
        ⟨"\x7b\"apiCalls\": 5, \"responseTime\": 6\x7d"⟩⟩)
      jsonDecode "key" "37.8267" "-122.4233" "now" US English
      ⟨"200 OK", 200, [("X-Forecast-Api-Calls", ["abc"])],
        ⟨"\x7b\"apiCalls\": 5, \"responseTime\": 6\x7d"⟩⟩
      { APICalls := 5, ResponseTime := 6 } rfl (by decide!) with
  | ⟨f, h, _, hmiss, hsyn, _, _, _, _⟩ =>
    ⟨f, h, hsyn "Atoi" "abc" (by decide!), hmiss (by decide!)⟩

/-- C4 fails as stated: the values "99999999999999999999" and
"-99999999999999999999abc" cannot be parsed as integers (`Atoi` returns an
error for each, and the second is not a decimal numeral at all), yet the
fields are 2^63 - 1 and -2^63 in the Forecast returned, not 0. -/
theorem GetForecast_header_default_counterexample :
    (Atoi "99999999999999999999").2 =
        some (GoError.numRange "Atoi" "99999999999999999999") ∧
      (Atoi "-99999999999999999999abc").2 =
        some (GoError.numRange "Atoi" "-99999999999999999999abc") ∧
      decimalValue "-99999999999999999999abc" = none ∧
      GetForecast
          (fun _ => GetResult.ok ⟨"200 OK", 200,
            [("X-Forecast-Api-Calls", ["99999999999999999999"]),
              ("X-Response-Time", ["-99999999999999999999abc"])], ⟨"\x7b\x7d"⟩⟩)
          jsonDecode "key" "37.8267" "-122.4233" "now" US English =
        ⟨some { APICalls := 9223372036854775807, ResponseTime := -9223372036854775808 }, none,
          [Event.httpGet "https://api.darksky.net/forecast/key/37.8267,-122.4233?units=us&lang=en",
            Event.decode ⟨"\x7b\x7d"⟩, Event.headerGet "X-Forecast-API-Calls",
            Event.headerGet "X-Response-Time", Event.close ⟨"\x7b\x7d"⟩], false⟩ := by
  refine ⟨by decide!, by decide!, by decide!, by decide!⟩

/-! ## The failure paths -/

/-- C5: when the GET of the transport fails with the error `e`, `GetForecast`
returns no Forecast together with exactly `e`; the trace of the call holds the
GET alone: the body is neither decoded nor closed and no header is read. -/
theorem GetForecast_transport_error (get : Transport) (dec : Decoder)
    (key lat long time : String) (units : Units) (lang : Lang) (r : Option Response)
    (e : GoError)
    (hg : get (requestURL key lat long time units lang) = GetResult.failed r e) :
    (GetForecast get dec key lat long time units lang).forecast = none ∧
      (GetForecast get dec key lat long time units lang).err = some e ∧
      (GetForecast get dec key lat long time units lang).panicked = false ∧
      (GetForecast get dec key lat long time units lang).trace =
        [Event.httpGet (requestURL key lat long time units lang)] ∧
      (∀ b, Event.decode b ∉ (GetForecast get dec key lat long time units lang).trace) ∧
      (∀ b, Event.close b ∉ (GetForecast get dec key lat long time units lang).trace) ∧
      (∀ k, Event.headerGet k ∉ (GetForecast get dec key lat long time units lang).trace) := by
  rw [GetForecast_failed get dec key lat long time units lang r e hg]
  simp

/-- The scenario of C5: the transport reports that the host cannot be
reached. -/
theorem GetForecast_transport_error_witness :
    (GetForecast (fun _ => GetResult.failed none (GoError.transport "no such host"))
        jsonDecode "key" "37.8267" "-122.4233" "now" US English).forecast = none ∧
      (GetForecast (fun _ => GetResult.failed none (GoError.transport "no such host"))
        jsonDecode "key" "37.8267" "-122.4233" "now" US English).err =
        some (GoError.transport "no such host") ∧
      (GetForecast (fun _ => GetResult.failed none (GoError.transport "no such host"))
        jsonDecode "key" "37.8267" "-122.4233" "now" US English).trace =
        [Event.httpGet
          "https://api.darksky.net/forecast/key/37.8267,-122.4233?units=us&lang=en"] :=
  ⟨(GetForecast_transport_error
      (fun _ => GetResult.failed none (GoError.transport "no such host"))
      jsonDecode "key" "37.8267" "-122.4233" "now" US English none
      (GoError.transport "no such host") rfl).1,
   (GetForecast_transport_error
      (fun _ => GetResult.failed none (GoError.transport "no such host"))
      jsonDecode "key" "37.8267" "-122.4233" "now" US English none
      (GoError.transport "no such host") rfl).2.1,
   (GetForecast_transport_error
      (fun _ => GetResult.failed none (GoError.transport "no such host"))
      jsonDecode "key" "37.8267" "-122.4233" "now" US English none
      (GoError.transport "no such host") rfl).2.2.2.1.trans (by decide)⟩

/-- C6: when the transport returns a response and decoding its body fails
with the error `e`, `fromJSON` returns no record, and `GetForecast` returns no
Forecast together with exactly `e`; no header is read and the body is closed
after the decode attempt. -/
theorem GetForecast_decode_error (get : Transport) (dec : Decoder)
    (key lat long time : String) (units : Units) (lang : Lang) (res : Response)
    (p : Forecast) (e : GoError)
    (hg : get (requestURL key lat long time units lang) = GetResult.ok res)
    (hd : dec res.Body {} = (p, some e)) :
    fromJSON dec res.Body = (none, some e) ∧
      (GetForecast get dec key lat long time units lang).forecast = none ∧
      (GetForecast get dec key lat long time units lang).err = some e ∧
      (GetForecast get dec key lat long time units lang).panicked = false ∧
      (GetForecast get dec key lat long time units lang).trace =
        [Event.httpGet (requestURL key lat long time units lang), Event.decode res.Body,
          Event.close res.Body] ∧
      (∀ k, Event.headerGet k ∉ (GetForecast get dec key lat long time units lang).trace) := by
  rw [GetForecast_decode_failed get dec key lat long time units lang res p e hg hd]
  refine ⟨fromJSON_failed dec res.Body p e hd, rfl, rfl, rfl, rfl, ?_⟩
  simp

/-- The scenario of C6: a 503 response with an empty body, at which the
decoder of `encoding/json` fails with `io.EOF`. -/
theorem GetForecast_decode_error_witness :
    jsonDecode ⟨""⟩ {} = ({}, some GoError.eof) ∧
      (GetForecast (fun _ => GetResult.ok ⟨"503 Service Unavailable", 503, [], ⟨""⟩⟩)
          jsonDecode "key" "37.8267" "-122.4233" "now" US English).forecast = none ∧
      (GetForecast (fun _ => GetResult.ok ⟨"503 Service Unavailable", 503, [], ⟨""⟩⟩)
          jsonDecode "key" "37.8267" "-122.4233" "now" US English).err = some GoError.eof :=
  ⟨by decide!,
   (GetForecast_decode_error (fun _ => GetResult.ok ⟨"503 Service Unavailable", 503, [], ⟨""⟩⟩)
      jsonDecode "key" "37.8267" "-122.4233" "now" US English
      ⟨"503 Service Unavailable", 503, [], ⟨""⟩⟩ {} GoError.eof rfl (by decide!)).2.1,
   (GetForecast_decode_error (fun _ => GetResult.ok ⟨"503 Service Unavailable", 503, [], ⟨""⟩⟩)
      jsonDecode "key" "37.8267" "-122.4233" "now" US English
      ⟨"503 Service Unavailable", 503, [], ⟨""⟩⟩ {} GoError.eof rfl (by decide!)).2.2.1⟩
/-! ## The closing of the body -/

/-- C10: whenever the transport returns a response, the trace of
`GetForecast` holds exactly one closing, that of the body of the response, as
its last event and after the decode attempt, on both exit paths: with a
Forecast and no error when the decode succeeds, with the error of the decoder
and no Forecast when it fails. -/
theorem GetForecast_closes_body (get : Transport) (dec : Decoder)
    (key lat long time : String) (units : Units) (lang : Lang) (res : Response)
    (hg : get (requestURL key lat long time units lang) = GetResult.ok res) :
    (GetForecast get dec key lat long time units lang).trace.countP Event.isClose = 1 ∧
      (GetForecast get dec key lat long time units lang).trace.count (Event.close res.Body) = 1 ∧
      (GetForecast get dec key lat long time units lang).trace.getLast? =
        some (Event.close res.Body) ∧
      (∃ mid : List Event,
        (GetForecast get dec key lat long time units lang).trace =
          [Event.httpGet (requestURL key lat long time units lang), Event.decode res.Body] ++
            mid ++ [Event.close res.Body] ∧
        mid.countP Event.isClose = 0) ∧
      (∀ f0, dec res.Body {} = (f0, none) →
        (GetForecast get dec key lat long time units lang).err = none ∧
        (GetForecast get dec key lat long time units lang).forecast ≠ none ∧
        (GetForecast get dec key lat long time units lang).trace =
          [Event.httpGet (requestURL key lat long time units lang), Event.decode res.Body,
            Event.headerGet "X-Forecast-API-Calls", Event.headerGet "X-Response-Time",
            Event.close res.Body]) ∧
      (∀ p e, dec res.Body {} = (p, some e) →
        (GetForecast get dec key lat long time units lang).err = some e ∧
        (GetForecast get dec key lat long time units lang).forecast = none ∧
        (GetForecast get dec key lat long time units lang).trace =
          [Event.httpGet (requestURL key lat long time units lang), Event.decode res.Body,
            Event.close res.Body]) := by
  have hok : ∀ f0, dec res.Body {} = (f0, none) → _ :=
    fun f0 hd => GetForecast_decoded get dec key lat long time units lang res f0 hg hd
  have hbad : ∀ p e, dec res.Body {} = (p, some e) → _ :=
    fun p e hd => GetForecast_decode_failed get dec key lat long time units lang res p e hg hd
  cases hres : dec res.Body {} with
  | mk f0 oe =>
    cases oe with
    | none =>
      have h := hok f0 hres
      rw [h]
      refine ⟨?_, ?_, ?_, ?_, ?_, ?_⟩
      · simp [List.countP_cons, Event.isClose]
      · simp [List.count_cons]
      · simp
      · exact ⟨[Event.headerGet "X-Forecast-API-Calls", Event.headerGet "X-Response-Time"],
          rfl, by simp [List.countP_cons, Event.isClose]⟩
      · intro f1 _
        exact ⟨rfl, by simp, rfl⟩
      · intro p e hpe
        cases hpe
    | some e =>
      have h := hbad f0 e hres
      rw [h]
      refine ⟨?_, ?_, ?_, ?_, ?_, ?_⟩
      · simp [List.countP_cons, Event.isClose]
      · simp [List.count_cons]
      · simp
      · exact ⟨[], rfl, by simp⟩
      · intro f1 hpe
        cases hpe
      · intro p e1 hpe
        cases hpe
        exact ⟨rfl, rfl, rfl⟩

/-- The scenarios of C10: a body that decodes and an empty body, each closed
once, last. -/
theorem GetForecast_closes_body_witness :
    (GetForecast (fun _ => GetResult.ok ⟨"200 OK", 200, [], ⟨"\x7b\x7d"⟩⟩)
        jsonDecode "key" "37.8267" "-122.4233" "now" US English).trace =
      [Event.httpGet "https://api.darksky.net/forecast/key/37.8267,-122.4233?units=us&lang=en",
        Event.decode ⟨"\x7b\x7d"⟩, Event.headerGet "X-Forecast-API-Calls",
        Event.headerGet "X-Response-Time", Event.close ⟨"\x7b\x7d"⟩] ∧
    (GetForecast (fun _ => GetResult.ok ⟨"503 Service Unavailable", 503, [], ⟨""⟩⟩)
        jsonDecode "key" "37.8267" "-122.4233" "now" US English).trace =
      [Event.httpGet "https://api.darksky.net/forecast/key/37.8267,-122.4233?units=us&lang=en",
        Event.decode ⟨""⟩, Event.close ⟨""⟩] :=
  ⟨((GetForecast_closes_body (fun _ => GetResult.ok ⟨"200 OK", 200, [], ⟨"\x7b\x7d"⟩⟩)
      jsonDecode "key" "37.8267" "-122.4233" "now" US English
      ⟨"200 OK", 200, [], ⟨"\x7b\x7d"⟩⟩ rfl).2.2.2.2.1 {} (by decide!)).2.2.trans (by decide),
   ((GetForecast_closes_body (fun _ => GetResult.ok ⟨"503 Service Unavailable", 503, [], ⟨""⟩⟩)
      jsonDecode "key" "37.8267" "-122.4233" "now" US English
      ⟨"503 Service Unavailable", 503, [], ⟨""⟩⟩ rfl).2.2.2.2.2 {} GoError.eof
      (by decide!)).2.2.trans (by decide)⟩

/-! ## The tables of the records -/

theorem pairwise_independent {σ : Type} (cs : List (Codec σ))
    (hn : (cs.map (fun c => foldName c.name)).Nodup)
    (hf : cs.Pairwise (fun c1 c2 => (∀ t x, c2.get (c1.put t x) = c2.get t) ∧
      (∀ t x, c1.get (c2.put t x) = c1.get t))) :
    cs.Pairwise Independent := by
  have hn2 : cs.Pairwise (fun c1 c2 => foldName c1.name ≠ foldName c2.name) := by
    rw [List.Nodup, List.pairwise_map] at hn
    exact hn
  exact (hn2.and hf).imp (fun h => ⟨h.1, h.2.1, h.2.2⟩)

theorem flagsCodecs_lawful : Lawful flagsCodecs := by
  constructor
  · intro c hc
    simp only [flagsCodecs, List.mem_cons, List.mem_singleton, List.not_mem_nil, or_false] at hc
    rcases hc with rfl | rfl | rfl | rfl | rfl | rfl | rfl | rfl | rfl | rfl <;>
      intro t x <;> rfl
  · apply pairwise_independent
    · decide
    · unfold flagsCodecs
      repeat' first
        | exact List.Pairwise.nil
        | apply List.Pairwise.cons
        | exact fun _ h => (List.not_mem_nil _ h).elim
        | refine List.forall_mem_cons.mpr ⟨?_, ?_⟩
        | exact ⟨fun _ _ => rfl, fun _ _ => rfl⟩

theorem dataPointCodecs_lawful : Lawful dataPointCodecs := by
  constructor
  · intro c hc
    simp only [dataPointCodecs, List.mem_cons, List.mem_singleton, List.not_mem_nil, or_false] at hc
    rcases hc with rfl | rfl | rfl | rfl | rfl | rfl | rfl | rfl | rfl | rfl | rfl | rfl |
      rfl | rfl | rfl | rfl | rfl | rfl | rfl | rfl | rfl | rfl | rfl | rfl | rfl | rfl | rfl |
      rfl | rfl | rfl | rfl | rfl | rfl | rfl | rfl | rfl <;>
      intro t x <;> rfl
  · apply pairwise_independent
    · decide
    · unfold dataPointCodecs
      repeat' first
        | exact List.Pairwise.nil
        | apply List.Pairwise.cons
        | exact fun _ h => (List.not_mem_nil _ h).elim
        | refine List.forall_mem_cons.mpr ⟨?_, ?_⟩
        | exact ⟨fun _ _ => rfl, fun _ _ => rfl⟩

theorem dataBlockCodecs_lawful : Lawful dataBlockCodecs := by
  constructor
  · intro c hc
    simp only [dataBlockCodecs, List.mem_cons, List.mem_singleton, List.not_mem_nil, or_false] at hc
    rcases hc with rfl | rfl | rfl <;>
      intro t x <;> rfl
  · apply pairwise_independent
    · decide
    · unfold dataBlockCodecs
      repeat' first
        | exact List.Pairwise.nil
        | apply List.Pairwise.cons
        | exact fun _ h => (List.not_mem_nil _ h).elim
        | refine List.forall_mem_cons.mpr ⟨?_, ?_⟩
        | exact ⟨fun _ _ => rfl, fun _ _ => rfl⟩

theorem alertCodecs_lawful : Lawful alertCodecs := by
  constructor
  · intro c hc
    simp only [alertCodecs, List.mem_cons, List.mem_singleton, List.not_mem_nil, or_false] at hc
    rcases hc with rfl | rfl | rfl | rfl | rfl | rfl | rfl <;>
      intro t x <;> rfl
  · apply pairwise_independent
    · decide
    · unfold alertCodecs
      repeat' first
        | exact List.Pairwise.nil
        | apply List.Pairwise.cons
        | exact fun _ h => (List.not_mem_nil _ h).elim
        | refine List.forall_mem_cons.mpr ⟨?_, ?_⟩
        | exact ⟨fun _ _ => rfl, fun _ _ => rfl⟩

theorem forecastCodecs_lawful : Lawful forecastCodecs := by
  constructor
  · intro c hc
    simp only [forecastCodecs, List.mem_cons, List.mem_singleton, List.not_mem_nil, or_false] at hc
    rcases hc with rfl | rfl | rfl | rfl | rfl | rfl | rfl | rfl | rfl | rfl | rfl | rfl |
      rfl <;>
      intro t x <;> rfl
  · apply pairwise_independent
    · decide
    · unfold forecastCodecs
      repeat' first
        | exact List.Pairwise.nil
        | apply List.Pairwise.cons
        | exact fun _ h => (List.not_mem_nil _ h).elim
        | refine List.forall_mem_cons.mpr ⟨?_, ?_⟩
        | exact ⟨fun _ _ => rfl, fun _ _ => rfl⟩

/-! ## Decoding: what a member does to a field -/

theorem findField_some {σ : Type} (fields : List (Field σ)) (key : String) (fd : Field σ)
    (h : findField fields key = some fd) :
    fd ∈ fields ∧ foldName fd.name = foldName key := by
  unfold findField at h
  split at h
  · rename_i m hm
    cases h
    have h1 := List.find?_some hm
    simp only [beq_iff_eq] at h1
    exact ⟨List.mem_of_find?_eq_some hm, by rw [h1]⟩
  · have h1 := List.find?_some h
    simp only [beq_iff_eq] at h1
    exact ⟨List.mem_of_find?_eq_some h, h1⟩

theorem findField_codec_some {σ : Type} (cs : List (Codec σ)) (key : String) (fd : Field σ)
    (h : findField (cs.map Codec.field) key = some fd) :
    ∃ c ∈ cs, fd = c.field ∧ foldName c.name = foldName key := by
  obtain ⟨hm, hn⟩ := findField_some _ key fd h
  obtain ⟨c, hc, rfl⟩ := List.mem_map.mp hm
  exact ⟨c, hc, rfl, hn⟩

theorem Independent.symm {σ : Type} {c1 c2 : Codec σ} (h : Independent c1 c2) :
    Independent c2 c1 :=
  ⟨fun e => h.1 e.symm, h.2.2, h.2.1⟩

theorem independent_of_ne {σ : Type} (cs : List (Codec σ)) (hlaw : Lawful cs)
    (c1 c2 : Codec σ) (h1 : c1 ∈ cs) (h2 : c2 ∈ cs) (hne : c1 ≠ c2) : Independent c1 c2 :=
  List.Pairwise.forall (fun _ _ h => Independent.symm h) hlaw.2 h1 h2 hne

theorem eq_of_foldName {σ : Type} (cs : List (Codec σ)) (hlaw : Lawful cs)
    (c1 c2 : Codec σ) (h1 : c1 ∈ cs) (h2 : c2 ∈ cs)
    (hn : foldName c1.name = foldName c2.name) : c1 = c2 := by
  by_contra hne
  exact (independent_of_ne cs hlaw c1 c2 h1 h2 hne).1 hn

/-- A member of an object leaves a property of the field `c` in place when
its value does, if its key names the field; a member for another field does
not touch it. -/
theorem setField_keeps {σ : Type} (cs : List (Codec σ)) (hlaw : Lawful cs) (c : Codec σ)
    (hc : c ∈ cs) (P : c.α → Prop) (key : String) (v : Json) (s : σ)
    (h : foldName key = foldName c.name → ∀ x, P x → P (c.dec v x).1)
    (hs : P (c.get s)) : P (c.get (setField (cs.map Codec.field) s key v).1) := by
  unfold setField
  cases hf : findField (cs.map Codec.field) key with
  | none => exact hs
  | some fd =>
    obtain ⟨c1, hc1, rfl, hn⟩ := findField_codec_some cs key fd hf
    by_cases hcc : foldName c1.name = foldName c.name
    · have e := eq_of_foldName cs hlaw c1 c hc1 hc hcc
      subst e
      show P (c1.get (c1.put s (c1.dec v (c1.get s)).1))
      rw [hlaw.1 c1 hc1]
      exact h hn.symm _ hs
    · have hne : c1 ≠ c := fun e => hcc (by rw [e])
      have hind := independent_of_ne cs hlaw c1 c hc1 hc hne
      show P (c.get (c1.put s (c1.dec v (c1.get s)).1))
      rw [hind.2.1]
      exact hs

theorem decodeMembers_keeps {σ : Type} (cs : List (Codec σ)) (hlaw : Lawful cs) (c : Codec σ)
    (hc : c ∈ cs) (P : c.α → Prop) (ms : List (String × Json))
    (h : ∀ kv ∈ ms, foldName kv.1 = foldName c.name → ∀ x, P x → P (c.dec kv.2 x).1)
    (s : σ) (hs : P (c.get s)) :
    P (c.get (decodeMembers (cs.map Codec.field) ms s).1) := by
  induction ms generalizing s with
  | nil => exact hs
  | cons kv ms ih =>
    simp only [decodeMembers]
    apply ih (fun kv1 hkv1 => h kv1 (List.mem_cons_of_mem _ hkv1))
    exact setField_keeps cs hlaw c hc P kv.1 kv.2 s (h kv (List.mem_cons_self _ _)) hs

theorem mem_membersFor (name : String) (ms : List (String × Json)) (kv : String × Json)
    (hkv : kv ∈ ms) (hn : foldName kv.1 = foldName name) :
    kv.2 ∈ membersFor name (Json.obj ms) := by
  simp only [membersFor, List.mem_map, List.mem_filter, beq_iff_eq]
  exact ⟨kv, ⟨hkv, hn⟩, rfl⟩

/-- A JSON value decoded into a record leaves a property of the field `c` in
place when the values it holds for the field do. -/
theorem decodeStruct_keeps {σ : Type} (cs : List (Codec σ)) (hlaw : Lawful cs) (c : Codec σ)
    (hc : c ∈ cs) (P : c.α → Prop) (goType : String) (v : Json) (s : σ)
    (h : ∀ w ∈ membersFor c.name v, ∀ x, P x → P (c.dec w x).1)
    (hs : P (c.get s)) :
    P (c.get (decodeStruct (cs.map Codec.field) goType v s).1) := by
  cases v with
  | obj ms =>
    exact decodeMembers_keeps cs hlaw c hc P ms
      (fun kv hkv hn => h kv.2 (mem_membersFor c.name ms kv hkv hn)) s hs
  | null => exact hs
  | bool _ => exact hs
  | num _ => exact hs
  | str _ => exact hs
  | arr _ => exact hs

theorem membersFor_of_lacks (name : String) (v : Json) (h : lacks name v = true) :
    membersFor name v = [] := by
  cases v with
  | obj ms =>
    simp only [lacks, absent, List.all_eq_true, bne_iff_ne, ne_eq] at h
    simp only [membersFor, List.map_eq_nil_iff, List.filter_eq_nil_iff, beq_iff_eq]
    exact h
  | null => rfl
  | bool _ => rfl
  | num _ => rfl
  | str _ => rfl
  | arr _ => rfl

/-- A JSON value that has no member for the field `c` leaves the field as it
was. -/
theorem decodeStruct_absent {σ : Type} (cs : List (Codec σ)) (hlaw : Lawful cs) (c : Codec σ)
    (hc : c ∈ cs) (goType : String) (v : Json) (s : σ) (h : lacks c.name v = true) :
    c.get (decodeStruct (cs.map Codec.field) goType v s).1 = c.get s := by
  apply decodeStruct_keeps cs hlaw c hc (fun x => x = c.get s) goType v s _ rfl
  intro w hw
  rw [membersFor_of_lacks c.name v h] at hw
  cases hw

theorem decodeItems_keeps {α : Type} (dec : Json → α → α × Option GoError) (zero : α)
    (Q : α → Prop) (hz : Q zero) (items : List Json)
    (h : ∀ w ∈ items, ∀ x, Q x → Q (dec w x).1) (mem : List α) (hm : ∀ x ∈ mem, Q x) :
    ∀ y ∈ (decodeItems dec zero items mem).1, Q y := by
  induction items generalizing mem with
  | nil =>
    intro y hy
    cases hy
  | cons w ws ih =>
    intro y hy
    simp only [decodeItems, List.mem_cons] at hy
    rcases hy with rfl | hy
    · apply h w (List.mem_cons_self _ _)
      cases mem with
      | nil => exact hz
      | cons x _ => exact hm x (List.mem_cons_self _ _)
    · exact ih (fun w1 hw1 => h w1 (List.mem_cons_of_mem _ hw1)) mem.tail
        (fun x hx => hm x (List.mem_of_mem_tail hx)) y hy

/-- A JSON value decoded into a slice leaves a property of all the elements of
the backing array in place when its items do and the zero element has it. -/
theorem decodeSlice_keeps {α : Type} (dec : Json → α → α × Option GoError) (zero : α)
    (goType : String) (Q : α → Prop) (hz : Q zero) (v : Json) (cur : Slice α)
    (h : ∀ w ∈ elems v, ∀ x, Q x → Q (dec w x).1)
    (hc : ∀ x ∈ cur.items ++ cur.spare, Q x) :
    ∀ y ∈ (decodeSlice dec zero goType v cur).1.items ++
      (decodeSlice dec zero goType v cur).1.spare, Q y := by
  cases v with
  | arr items =>
    simp only [decodeSlice]
    split
    · intro y hy
      simp at hy
    · intro y hy
      rcases List.mem_append.mp hy with hy | hy
      · exact decodeItems_keeps dec zero Q hz items h _ hc y hy
      · exact hc y (List.mem_of_mem_drop hy)
  | null =>
    intro y hy
    simp [decodeSlice] at hy
  | bool _ => exact hc
  | num _ => exact hc
  | str _ => exact hc
  | obj _ => exact hc

/-! ## Decoding: the fields a document has no member for -/

theorem saveError_some (a b : Option GoError) (e : GoError) (h : saveError a b = some e) :
    a = some e ∨ b = some e := by
  cases a with
  | none => exact Or.inr h
  | some x => exact Or.inl h

theorem decodeMembers_error {σ : Type} (fields : List (Field σ))
    (ms : List (String × Json)) (s : σ) (e : GoError)
    (h : (decodeMembers fields ms s).2 = some e) :
    ∃ kv ∈ ms, ∃ s1, (setField fields s1 kv.1 kv.2).2 = some e := by
  induction ms generalizing s with
  | nil => cases h
  | cons kv ms ih =>
    simp only [decodeMembers] at h
    rcases saveError_some _ _ e h with h1 | h1
    · exact ⟨kv, List.mem_cons_self _ _, s, h1⟩
    · obtain ⟨kv1, hm, s1, hs1⟩ := ih _ h1
      exact ⟨kv1, List.mem_cons_of_mem _ hm, s1, hs1⟩

theorem decodeMembers_clean {σ : Type} (fields : List (Field σ))
    (ms : List (String × Json)) (s : σ)
    (h : ∀ kv ∈ ms, ∀ s1, (setField fields s1 kv.1 kv.2).2 = none) :
    (decodeMembers fields ms s).2 = none := by
  cases hres : (decodeMembers fields ms s).2 with
  | none => rfl
  | some e =>
    obtain ⟨kv, hm, s1, hs1⟩ := decodeMembers_error fields ms s e hres
    rw [h kv hm s1] at hs1
    cases hs1

theorem jsonDecode_object (body : Body) (members : List (String × Json)) (s : Forecast)
    (hs : scanValue body.content = Scanned.value (Json.obj members)) :
    jsonDecode body s = decodeMembers forecastFields members s := by
  simp [jsonDecode, hs, decodeForecast, decodeStruct]

theorem jsonDecode_value (body : Body) (v : Json) (s : Forecast)
    (hs : scanValue body.content = Scanned.value v) :
    jsonDecode body s = decodeForecast v s := by
  simp [jsonDecode, hs]

theorem decodeForecast_absent (c : Codec Forecast) (hc : c ∈ forecastCodecs) (v : Json)
    (s : Forecast) (h : lacks c.name v = true) : c.get (decodeForecast v s).1 = c.get s :=
  decodeStruct_absent forecastCodecs forecastCodecs_lawful c hc _ v s h

theorem decodeDataPoint_absent (c : Codec DataPoint) (hc : c ∈ dataPointCodecs) (v : Json)
    (s : DataPoint) (h : lacks c.name v = true) : c.get (decodeDataPoint v s).1 = c.get s :=
  decodeStruct_absent dataPointCodecs dataPointCodecs_lawful c hc _ v s h

theorem decodeDataBlock_absent (c : Codec DataBlock) (hc : c ∈ dataBlockCodecs) (v : Json)
    (s : DataBlock) (h : lacks c.name v = true) : c.get (decodeDataBlock v s).1 = c.get s :=
  decodeStruct_absent dataBlockCodecs dataBlockCodecs_lawful c hc _ v s h

theorem decodeAlert_absent (c : Codec Alert) (hc : c ∈ alertCodecs) (v : Json)
    (s : Alert) (h : lacks c.name v = true) : c.get (decodeAlert v s).1 = c.get s :=
  decodeStruct_absent alertCodecs alertCodecs_lawful c hc _ v s h

theorem decodeFlags_absent (c : Codec Flags) (hc : c ∈ flagsCodecs) (v : Json)
    (s : Flags) (h : lacks c.name v = true) : c.get (decodeFlags v s).1 = c.get s :=
  decodeStruct_absent flagsCodecs flagsCodecs_lawful c hc _ v s h

/-- The field `c` of `Currently` keeps its value when no value the document
holds for `currently` has a member for it. -/
theorem decodeForecast_currently (c : Codec DataPoint) (hc : c ∈ dataPointCodecs) (v : Json)
    (s : Forecast) (h : ∀ w ∈ membersFor "currently" v, lacks c.name w = true) :
    c.get (decodeForecast v s).1.Currently = c.get s.Currently := by
  apply decodeStruct_keeps forecastCodecs forecastCodecs_lawful
    ⟨"currently", DataPoint, fun s => s.Currently, fun s x => { s with Currently := x },
      decodeDataPoint, encodeDataPoint, neverEmpty⟩
    (by simp [forecastCodecs]) (fun p => c.get p = c.get s.Currently) _ v s _ rfl
  intro w hw x hx
  show c.get (decodeDataPoint w x).1 = _
  rw [decodeDataPoint_absent c hc w x (h w hw)]
  exact hx

/-- The field `c` of `Flags` keeps its value when no value the document holds
for `flags` has a member for it. -/
theorem decodeForecast_flags (c : Codec Flags) (hc : c ∈ flagsCodecs) (v : Json)
    (s : Forecast) (h : ∀ w ∈ membersFor "flags" v, lacks c.name w = true) :
    c.get (decodeForecast v s).1.Flags = c.get s.Flags := by
  apply decodeStruct_keeps forecastCodecs forecastCodecs_lawful
    ⟨"flags", Flags, fun s => s.Flags, fun s x => { s with Flags := x },
      decodeFlags, encodeFlags, neverEmpty⟩
    (by simp [forecastCodecs]) (fun p => c.get p = c.get s.Flags) _ v s _ rfl
  intro w hw x hx
  show c.get (decodeFlags w x).1 = _
  rw [decodeFlags_absent c hc w x (h w hw)]
  exact hx

/-- A property of a block that the values the document holds for the block
leave in place is left in place by the document. -/
theorem decodeForecast_block (b : String × (Forecast → DataBlock)) (hb : b ∈ blocks)
    (P : DataBlock → Prop) (v : Json) (s : Forecast)
    (h : ∀ w ∈ membersFor b.1 v, ∀ x, P x → P (decodeDataBlock w x).1)
    (hs : P (b.2 s)) : P (b.2 (decodeForecast v s).1) := by
  simp only [blocks, List.mem_cons, List.mem_singleton, List.not_mem_nil, or_false] at hb
  rcases hb with rfl | rfl | rfl
  · exact decodeStruct_keeps forecastCodecs forecastCodecs_lawful
      ⟨"minutely", DataBlock, fun s => s.Minutely, fun s x => { s with Minutely := x },
        decodeDataBlock, encodeDataBlock, neverEmpty⟩
      (by simp [forecastCodecs]) P _ v s h hs
  · exact decodeStruct_keeps forecastCodecs forecastCodecs_lawful
      ⟨"hourly", DataBlock, fun s => s.Hourly, fun s x => { s with Hourly := x },
        decodeDataBlock, encodeDataBlock, neverEmpty⟩
      (by simp [forecastCodecs]) P _ v s h hs
  · exact decodeStruct_keeps forecastCodecs forecastCodecs_lawful
      ⟨"daily", DataBlock, fun s => s.Daily, fun s x => { s with Daily := x },
        decodeDataBlock, encodeDataBlock, neverEmpty⟩
      (by simp [forecastCodecs]) P _ v s h hs

/-- The data points in the backing array of a block keep the zero in the
field `c` when no item the value holds for `data` has a member for it. -/
theorem decodeDataBlock_data (c : Codec DataPoint) (hc : c ∈ dataPointCodecs) (v : Json)
    (s : DataBlock)
    (h : ∀ w ∈ membersFor "data" v, ∀ x ∈ elems w, lacks c.name x = true)
    (hs : ∀ p ∈ s.Data.items ++ s.Data.spare, c.get p = c.get {}) :
    ∀ p ∈ (decodeDataBlock v s).1.Data.items ++ (decodeDataBlock v s).1.Data.spare,
      c.get p = c.get {} := by
  apply decodeStruct_keeps dataBlockCodecs dataBlockCodecs_lawful
    ⟨"data", (Slice DataPoint), fun s => s.Data, fun s x => { s with Data := x },
      (decodeSlice decodeDataPoint {} "[]darksky.DataPoint"), (encodeSlice encodeDataPoint),
      emptySlice⟩
    (by simp [dataBlockCodecs])
    (fun d => ∀ p ∈ d.items ++ d.spare, c.get p = c.get {}) _ v s _ hs
  intro w hw cur hcur
  apply decodeSlice_keeps decodeDataPoint {} _ (fun p => c.get p = c.get {}) rfl w cur _ hcur
  intro x hx p hp
  show c.get (decodeDataPoint x p).1 = _
  rw [decodeDataPoint_absent c hc x p (h w hw x hx)]
  exact hp

/-- The alerts in the backing array keep the zero in the field `c` when no
item the document holds for `alerts` has a member for it. -/
theorem decodeForecast_alerts (c : Codec Alert) (hc : c ∈ alertCodecs) (v : Json)
    (s : Forecast)
    (h : ∀ w ∈ membersFor "alerts" v, ∀ x ∈ elems w, lacks c.name x = true)
    (hs : ∀ a ∈ s.Alerts.items ++ s.Alerts.spare, c.get a = c.get {}) :
    ∀ a ∈ (decodeForecast v s).1.Alerts.items ++ (decodeForecast v s).1.Alerts.spare,
      c.get a = c.get {} := by
  apply decodeStruct_keeps forecastCodecs forecastCodecs_lawful
    ⟨"alerts", (Slice Alert), fun s => s.Alerts, fun s x => { s with Alerts := x },
      (decodeSlice decodeAlert {} "[]darksky.Alert"), (encodeSlice encodeAlert), emptySlice⟩
    (by simp [forecastCodecs])
    (fun d => ∀ a ∈ d.items ++ d.spare, c.get a = c.get {}) _ v s _ hs
  intro w hw cur hcur
  apply decodeSlice_keeps decodeAlert {} _ (fun a => c.get a = c.get {}) rfl w cur _ hcur
  intro x hx a ha
  show c.get (decodeAlert x a).1 = _
  rw [decodeAlert_absent c hc x a (h w hw x hx)]
  exact ha

theorem fromJSON_some (dec : Decoder) (body : Body) (f : Forecast)
    (h : fromJSON dec body = (some f, none)) : dec body {} = (f, none) := by
  cases hres : dec body {} with
  | mk f0 oe =>
    cases oe with
    | none =>
      rw [fromJSON_decoded dec body f0 hres] at h
      cases h
      rfl
    | some e =>
      rw [fromJSON_failed dec body f0 e hres] at h
      cases h

/-- C8, as the code has it.  Of a JSON object decoded with `fromJSON`: an
error is the error of a member that is there, never of a field that is absent,
and when each member that is there decodes, `fromJSON` returns a Forecast and
no error.  In the Forecast returned, a field for which the object has no
member (no key equal to its JSON name, exactly or under case folding) has the
value it has in the zero Forecast; so has a field of Currently, of Flags and of
each block when no value the object holds for that record has a member for the
field, and a field of every data point of a block and of every alert when no
item the object holds there has a member for the field. -/
theorem fromJSON_absent_field (body : Body) (members : List (String × Json))
    (hs : scanValue body.content = Scanned.value (Json.obj members)) :
    (∀ e, (fromJSON jsonDecode body).2 = some e →
        ∃ kv ∈ members, ∃ s, (setField forecastFields s kv.1 kv.2).2 = some e) ∧
    ((∀ kv ∈ members, ∀ s, (setField forecastFields s kv.1 kv.2).2 = none) →
        ∃ f, fromJSON jsonDecode body = (some f, none)) ∧
    ∀ f, fromJSON jsonDecode body = (some f, none) →
      (∀ c ∈ forecastCodecs, absent c.name members = true → c.get f = c.get {}) ∧
      (∀ c ∈ dataPointCodecs,
        (∀ v ∈ membersFor "currently" (Json.obj members), lacks c.name v = true) →
          c.get f.Currently = c.get {}) ∧
      (∀ c ∈ flagsCodecs,
        (∀ v ∈ membersFor "flags" (Json.obj members), lacks c.name v = true) →
          c.get f.Flags = c.get {}) ∧
      (∀ b ∈ blocks, ∀ c ∈ dataBlockCodecs,
        (∀ v ∈ membersFor b.1 (Json.obj members), lacks c.name v = true) →
          c.get (b.2 f) = c.get {}) ∧
      (∀ b ∈ blocks, ∀ c ∈ dataPointCodecs,
        (∀ v ∈ membersFor b.1 (Json.obj members), ∀ w ∈ membersFor "data" v,
            ∀ x ∈ elems w, lacks c.name x = true) →
          ∀ p ∈ (b.2 f).Data.items, c.get p = c.get {}) ∧
      (∀ c ∈ alertCodecs,
        (∀ v ∈ membersFor "alerts" (Json.obj members), ∀ x ∈ elems v,
            lacks c.name x = true) →
          ∀ a ∈ f.Alerts.items, c.get a = c.get {}) := by
  refine ⟨?_, ?_, ?_⟩
  · intro e he
    cases hres : jsonDecode body {} with
    | mk f0 oe =>
      cases oe with
      | none =>
        rw [fromJSON_decoded jsonDecode body f0 hres] at he
        cases he
      | some e1 =>
        rw [fromJSON_failed jsonDecode body f0 e1 hres] at he
        cases he
        rw [jsonDecode_object body members {} hs] at hres
        exact decodeMembers_error forecastFields members {} e (by rw [hres])
  · intro hall
    have hnone := decodeMembers_clean forecastFields members {} hall
    rw [← jsonDecode_object body members {} hs] at hnone
    cases hres : jsonDecode body {} with
    | mk f0 oe =>
      rw [hres] at hnone
      cases hnone
      exact ⟨f0, fromJSON_decoded jsonDecode body f0 hres⟩
  · intro f hf
    have hd : decodeForecast (Json.obj members) {} = (f, none) := by
      rw [← jsonDecode_value body _ {} hs]
      exact fromJSON_some jsonDecode body f hf
    have hf1 : f = (decodeForecast (Json.obj members) {}).1 := by rw [hd]
    refine ⟨?_, ?_, ?_, ?_, ?_, ?_⟩
    · intro c hc ha
      rw [hf1]
      exact decodeForecast_absent c hc _ _ ha
    · intro c hc h
      rw [hf1]
      exact decodeForecast_currently c hc _ _ h
    · intro c hc h
      rw [hf1]
      exact decodeForecast_flags c hc _ _ h
    · intro b hb c hc h
      rw [hf1]
      have hz : c.get (b.2 {}) = c.get {} := by
        simp only [blocks, List.mem_cons, List.mem_singleton, List.not_mem_nil, or_false] at hb
        rcases hb with rfl | rfl | rfl <;> rfl
      apply decodeForecast_block b hb (fun d => c.get d = c.get {}) _ _ _ hz
      intro w hw x hx
      show c.get (decodeDataBlock w x).1 = _
      rw [decodeDataBlock_absent c hc w x (h w hw)]
      exact hx
    · intro b hb c hc h p hp
      rw [hf1] at hp
      have hz : ∀ p ∈ (b.2 {}).Data.items ++ (b.2 {}).Data.spare, c.get p = c.get {} := by
        simp only [blocks, List.mem_cons, List.mem_singleton, List.not_mem_nil, or_false] at hb
        rcases hb with rfl | rfl | rfl <;> (intro p hp; cases hp)
      have := decodeForecast_block b hb
        (fun d => ∀ p ∈ d.Data.items ++ d.Data.spare, c.get p = c.get {}) (Json.obj members) {}
        (fun w hw x hx => decodeDataBlock_data c hc w x (h w hw) hx) hz
      exact this p (List.mem_append_left _ hp)
    · intro c hc h a ha
      rw [hf1] at ha
      have := decodeForecast_alerts c hc (Json.obj members) {} h
        (fun a ha => by cases ha)
      exact this a (List.mem_append_left _ ha)

/-- The scenarios of C8.  The document `{"latitude": 1.0}` decodes without an
error to the Forecast with Latitude = 1.0 (the bits 0x3FF0000000000000) and
every other field, those of the nested records included, at its zero value.
In whatever `fromJSON` returns for the document
`{"currently": {"time": 5}, "alerts": [{"title": "x"}, {}]}`, Code is 0, the
summary of Currently is empty and no alert has a URI. -/
theorem fromJSON_absent_field_witness :
    fromJSON jsonDecode ⟨"\x7b\"latitude\": 1.0\x7d"⟩ =
        (some { Latitude := ⟨4607182418800017408⟩ }, none) ∧
      (∃ f, fromJSON jsonDecode ⟨"\x7b\"latitude\": 1.0\x7d"⟩ = (some f, none)) ∧
      (∀ f, fromJSON jsonDecode
          ⟨"\x7b\"currently\": \x7b\"time\": 5\x7d, \"alerts\": [\x7b\"title\": \"x\"\x7d, \x7b\x7d]\x7d"⟩ =
            (some f, none) →
        f.Code = 0 ∧ f.Currently.Summary = "" ∧ ∀ a ∈ f.Alerts.items, a.URI = "") :=
  ⟨by decide!,
   (fromJSON_absent_field ⟨"\x7b\"latitude\": 1.0\x7d"⟩ [("latitude", Json.num "1.0")] rfl).2.1
     (fun kv hkv s => by
       simp only [List.mem_singleton] at hkv
       subst hkv
       rfl),
   fun f hf =>
     ⟨((fromJSON_absent_field
          ⟨"\x7b\"currently\": \x7b\"time\": 5\x7d, \"alerts\": [\x7b\"title\": \"x\"\x7d, \x7b\x7d]\x7d"⟩
          [("currently", Json.obj [("time", Json.num "5")]),
            ("alerts", Json.arr [Json.obj [("title", Json.str "x")], Json.obj []])]
          rfl).2.2 f hf).1
        ⟨"code", Int, fun s => s.Code, fun s x => { s with Code := x },
          (decodeInt "int"), encodeInt, emptyInt⟩
        (by simp [forecastCodecs]) (by decide!),
      ((fromJSON_absent_field
          ⟨"\x7b\"currently\": \x7b\"time\": 5\x7d, \"alerts\": [\x7b\"title\": \"x\"\x7d, \x7b\x7d]\x7d"⟩
          [("currently", Json.obj [("time", Json.num "5")]),
            ("alerts", Json.arr [Json.obj [("title", Json.str "x")], Json.obj []])]
          rfl).2.2 f hf).2.1
        ⟨"summary", String, fun s => s.Summary, fun s x => { s with Summary := x },
          decodeString, encodeString, emptyString⟩
        (by simp [dataPointCodecs]) (by decide!),
      ((fromJSON_absent_field
          ⟨"\x7b\"currently\": \x7b\"time\": 5\x7d, \"alerts\": [\x7b\"title\": \"x\"\x7d, \x7b\x7d]\x7d"⟩
          [("currently", Json.obj [("time", Json.num "5")]),
            ("alerts", Json.arr [Json.obj [("title", Json.str "x")], Json.obj []])]
          rfl).2.2 f hf).2.2.2.2.2
        ⟨"uri", String, fun s => s.URI, fun s x => { s with URI := x },
          decodeString, encodeString, emptyString⟩
        (by simp [alertCodecs]) (by decide!)⟩⟩

/-- C8 fails as stated: the object `{"code": "x"}` has no member for
`latitude` (nor for any field but `code`), and `fromJSON` does not succeed on
it: it returns no Forecast and the `UnmarshalTypeError` of the member that is
there. -/
theorem fromJSON_absent_field_counterexample :
    scanValue "\x7b\"code\": \"x\"\x7d" = Scanned.value (Json.obj [("code", Json.str "x")]) ∧
      absent "latitude" [("code", Json.str "x")] = true ∧
      fromJSON jsonDecode ⟨"\x7b\"code\": \"x\"\x7d"⟩ =
        (none, some (GoError.unmarshalType "string" "int")) ∧
      ¬ (∀ (body : Body) (members : List (String × Json)) (c : Codec Forecast),
          scanValue body.content = Scanned.value (Json.obj members) → c ∈ forecastCodecs →
          absent c.name members = true →
          ∃ f, fromJSON jsonDecode body = (some f, none) ∧ c.get f = c.get {}) := by
  have h3 : fromJSON jsonDecode ⟨"\x7b\"code\": \"x\"\x7d"⟩ =
      (none, some (GoError.unmarshalType "string" "int")) := by decide!
  refine ⟨rfl, by decide!, h3, ?_⟩
  intro h
  obtain ⟨f, hf, _⟩ := h ⟨"\x7b\"code\": \"x\"\x7d"⟩ [("code", Json.str "x")]
    ⟨"latitude", Float64, fun s => s.Latitude, fun s x => { s with Latitude := x },
      decodeFloat, encodeFloat, emptyFloat⟩
    rfl (by simp [forecastCodecs]) (by decide!)
  rw [h3] at hf
  cases hf

/-! ## The fields GetForecast leaves alone -/

/-- C7: on a successful call the Forecast that `GetForecast` returns agrees
with the one `fromJSON` decoded from the body on every field other than
APICalls and ResponseTime; Code is the value the decoder took from the body
(0 when the body is an object without a member for it), and the Forecast is
the same for any response with the same headers and body, whatever its
status line. -/
theorem GetForecast_frame (get get2 : Transport) (dec : Decoder)
    (key lat long time : String) (units : Units) (lang : Lang) (res res2 : Response)
    (f0 : Forecast)
    (hg : get (requestURL key lat long time units lang) = GetResult.ok res)
    (hd : dec res.Body {} = (f0, none))
    (hg2 : get2 (requestURL key lat long time units lang) = GetResult.ok res2)
    (hh : res2.Header = res.Header) (hb : res2.Body = res.Body) :
    fromJSON dec res.Body = (some f0, none) ∧
      ∃ f : Forecast,
        (GetForecast get dec key lat long time units lang).forecast = some f ∧
        (GetForecast get dec key lat long time units lang).err = none ∧
        f.Latitude = f0.Latitude ∧ f.Longitude = f0.Longitude ∧ f.Timezone = f0.Timezone ∧
        f.Offset = f0.Offset ∧ f.Currently = f0.Currently ∧ f.Minutely = f0.Minutely ∧
        f.Hourly = f0.Hourly ∧ f.Daily = f0.Daily ∧ f.Alerts = f0.Alerts ∧
        f.Flags = f0.Flags ∧ f.Code = f0.Code ∧
        (GetForecast get2 dec key lat long time units lang).forecast = some f ∧
        (∀ members, dec = jsonDecode →
          scanValue res.Body.content = Scanned.value (Json.obj members) →
          absent "code" members = true → f.Code = 0) := by
  refine ⟨fromJSON_decoded dec res.Body f0 hd,
    { f0 with
      ResponseTime := (Atoi (res.Header.Get "X-Response-Time")).1
      APICalls := (Atoi (res.Header.Get "X-Forecast-API-Calls")).1 },
    ?_, ?_, rfl, rfl, rfl, rfl, rfl, rfl, rfl, rfl, rfl, rfl, rfl, ?_, ?_⟩
  · rw [GetForecast_decoded get dec key lat long time units lang res f0 hg hd]
  · rw [GetForecast_decoded get dec key lat long time units lang res f0 hg hd]
  · rw [GetForecast_decoded get2 dec key lat long time units lang res2 f0 hg2 (by rw [hb]; exact hd),
      hh]
  · intro members hdec hs ha
    subst hdec
    have h := decodeForecast_absent
      ⟨"code", Int, fun s => s.Code, fun s x => { s with Code := x },
        (decodeInt "int"), encodeInt, emptyInt⟩
      (by simp [forecastCodecs]) (Json.obj members) {} ha
    rw [← jsonDecode_value res.Body _ {} hs, hd] at h
    exact h

/-- The scenario of C7: the same body `{"code": 400, "timezone": "Etc/UTC"}`
under the status lines 200 and 503: Code is 400 in both Forecasts. -/
theorem GetForecast_frame_witness :
    (GetForecast
        (fun _ => GetResult.ok ⟨"200 OK", 200, [("X-Forecast-Api-Calls", ["3"])],
          ⟨"\x7b\"code\": 400, \"timezone\": \"Etc/UTC\"\x7d"⟩⟩)
        jsonDecode "key" "37.8267" "-122.4233" "now" US English).forecast =
      some { Code := 400, Timezone := "Etc/UTC", APICalls := 3 } ∧
    (GetForecast
        (fun _ => GetResult.ok ⟨"503 Service Unavailable", 503, [("X-Forecast-Api-Calls", ["3"])],
          ⟨"\x7b\"code\": 400, \"timezone\": \"Etc/UTC\"\x7d"⟩⟩)
        jsonDecode "key" "37.8267" "-122.4233" "now" US English).forecast =
      some { Code := 400, Timezone := "Etc/UTC", APICalls := 3 } :=
  match GetForecast_frame
      (fun _ => GetResult.ok ⟨"200 OK", 200, [("X-Forecast-Api-Calls", ["3"])],
        ⟨"\x7b\"code\": 400, \"timezone\": \"Etc/UTC\"\x7d"⟩⟩)
      (fun _ => GetResult.ok ⟨"503 Service Unavailable", 503, [("X-Forecast-Api-Calls", ["3"])],
        ⟨"\x7b\"code\": 400, \"timezone\": \"Etc/UTC\"\x7d"⟩⟩)
      jsonDecode "key" "37.8267" "-122.4233" "now" US English
      ⟨"200 OK", 200, [("X-Forecast-Api-Calls", ["3"])],
        ⟨"\x7b\"code\": 400, \"timezone\": \"Etc/UTC\"\x7d"⟩⟩
      ⟨"503 Service Unavailable", 503, [("X-Forecast-Api-Calls", ["3"])],
        ⟨"\x7b\"code\": 400, \"timezone\": \"Etc/UTC\"\x7d"⟩⟩
      { Code := 400, Timezone := "Etc/UTC" } rfl (by decide!) rfl rfl rfl with
  | ⟨_, f, h1, _, _, _, _, _, _, _, _, _, _, _, _, h2, _⟩ =>
    have e : some f = some { Code := 400, Timezone := "Etc/UTC", APICalls := 3 } :=
      h1.symm.trans (by decide!)
    ⟨h1.trans e, h2.trans e⟩

/-! ## The scanner on string literals -/

theorem scanLoop_cons (lex : Lex) (stack : List Frame) (c : Char) (cs : List Char) :
    scanLoop lex stack (c :: cs) = resume (step lex stack c) cs := by
  rw [scanLoop]
  cases step lex stack c <;> rfl

theorem hexValue_hexDigit : ∀ k < 16, hexValue (hexDigit k) = k := by decide

theorem isHexDigit_hexDigit : ∀ k < 16, isHexDigit (hexDigit k) = true := by decide

theorem step_inString_plain (isKey : Bool) (raw : List Char) (stack : List Frame) (c : Char)
    (h1 : c ≠ '"') (h2 : c ≠ '\\') (h3 : ¬ c.toNat < 32) :
    step (Lex.inString isKey raw) stack c = Step.next (Lex.inString isKey (c :: raw)) stack := by
  simp [step, h1, h2, h3]

theorem scan_escape2 (isKey : Bool) (raw : List Char) (stack : List Frame) (e : Char)
    (rest : List Char)
    (he : e = 'b' ∨ e = 'f' ∨ e = 'n' ∨ e = 'r' ∨ e = 't' ∨ e = '\\' ∨ e = '/' ∨ e = '"') :
    scanLoop (Lex.inString isKey raw) stack ('\\' :: e :: rest) =
      scanLoop (Lex.inString isKey (e :: '\\' :: raw)) stack rest := by
  rw [scanLoop_cons]
  have h1 : step (Lex.inString isKey raw) stack '\\' =
      Step.next (Lex.inStringEsc isKey ('\\' :: raw)) stack := by
    simp [step]
  rw [h1, resume, scanLoop_cons]
  have h2 : step (Lex.inStringEsc isKey ('\\' :: raw)) stack e =
      Step.next (Lex.inString isKey (e :: '\\' :: raw)) stack := by
    simp only [step]
    rw [if_pos (by simpa using he)]
  rw [h2, resume]

theorem scan_escapeU (isKey : Bool) (raw : List Char) (stack : List Frame)
    (a b c d : Char) (rest : List Char)
    (ha : isHexDigit a = true) (hb : isHexDigit b = true) (hc : isHexDigit c = true)
    (hd : isHexDigit d = true) :
    scanLoop (Lex.inString isKey raw) stack ('\\' :: 'u' :: a :: b :: c :: d :: rest) =
      scanLoop (Lex.inString isKey (d :: c :: b :: a :: 'u' :: '\\' :: raw)) stack rest := by
  rw [scanLoop_cons]
  have h1 : step (Lex.inString isKey raw) stack '\\' =
      Step.next (Lex.inStringEsc isKey ('\\' :: raw)) stack := by
    simp [step]
  rw [h1, resume, scanLoop_cons]
  have h2 : step (Lex.inStringEsc isKey ('\\' :: raw)) stack 'u' =
      Step.next (Lex.inStringEscU isKey ('u' :: '\\' :: raw) 4) stack := by
    simp [step]
  rw [h2, resume, scanLoop_cons]
  simp only [step, ha, hb, hc, hd, if_true, resume, scanLoop_cons]
  simp
theorem char_of_toNat (c : Char) (n : Nat) (h : c.toNat = n) : c = Char.ofNat n := by
  rw [← h, Char.ofNat_toNat]

/-- The three shapes of the text of a character in a string literal: the
character itself, a one-letter escape, or a `u` escape. -/
theorem quoteChar_shape (c : Char) :
    (quoteChar c = [c] ∧ c ≠ '"' ∧ c ≠ '\\' ∧ ¬ c.toNat < 32) ∨
    (∃ e, quoteChar c = ['\\', e] ∧
      (e = 'b' ∨ e = 'f' ∨ e = 'n' ∨ e = 'r' ∨ e = 't' ∨ e = '\\' ∨ e = '/' ∨ e = '"') ∧
      escapeChar e = c) ∨
    (∃ h1 h2 h3 h4, quoteChar c = ['\\', 'u', h1, h2, h3, h4] ∧
      isHexDigit h1 = true ∧ isHexDigit h2 = true ∧ isHexDigit h3 = true ∧
      isHexDigit h4 = true ∧ hex4 [h1, h2, h3, h4] = c.toNat ∧ c.toNat < 55296) := by
  by_cases q1 : c = '"'
  · subst q1
    exact Or.inr (Or.inl ⟨'"', by decide, by simp, by decide⟩)
  by_cases q2 : c = '\\'
  · subst q2
    exact Or.inr (Or.inl ⟨'\\', by decide, by simp, by decide⟩)
  by_cases q3 : c.toNat = 8
  · have := char_of_toNat c 8 q3
    subst this
    exact Or.inr (Or.inl ⟨'b', by decide, by simp, by decide⟩)
  by_cases q4 : c.toNat = 12
  · have := char_of_toNat c 12 q4
    subst this
    exact Or.inr (Or.inl ⟨'f', by decide, by simp, by decide⟩)
  by_cases q5 : c = '\n'
  · subst q5
    exact Or.inr (Or.inl ⟨'n', by decide, by simp, by decide⟩)
  by_cases q6 : c = '\r'
  · subst q6
    exact Or.inr (Or.inl ⟨'r', by decide, by simp, by decide⟩)
  by_cases q7 : c = '\t'
  · subst q7
    exact Or.inr (Or.inl ⟨'t', by decide, by simp, by decide⟩)
  by_cases q8 : c.toNat < 32 ∨ c = '<' ∨ c = '>' ∨ c = '&'
  · have hlt : c.toNat < 128 := by
      rcases q8 with h | h | h | h
      · omega
      · subst h; decide
      · subst h; decide
      · subst h; decide
    refine Or.inr (Or.inr ⟨'0', '0', hexDigit (c.toNat / 16), hexDigit (c.toNat % 16), ?_,
      by decide, by decide, isHexDigit_hexDigit _ (by omega), isHexDigit_hexDigit _ (by omega),
      ?_, by omega⟩)
    · simp [quoteChar, q1, q2, q3, q4, q5, q6, q7, q8]
    · simp only [hex4, List.foldl_cons, List.foldl_nil]
      rw [hexValue_hexDigit _ (by omega), hexValue_hexDigit _ (by omega)]
      have : hexValue '0' = 0 := by decide
      rw [this]
      omega
  by_cases q9 : c.toNat = 8232
  · have := char_of_toNat c 8232 q9
    subst this
    exact Or.inr (Or.inr ⟨'2', '0', '2', '8', by decide, by decide, by decide, by decide,
      by decide, by decide, by decide⟩)
  by_cases q10 : c.toNat = 8233
  · have := char_of_toNat c 8233 q10
    subst this
    exact Or.inr (Or.inr ⟨'2', '0', '2', '9', by decide, by decide, by decide, by decide,
      by decide, by decide, by decide⟩)
  · refine Or.inl ⟨?_, q1, q2, fun h => q8 (Or.inl h)⟩
    simp [quoteChar, q1, q2, q3, q4, q5, q6, q7, q8, q9, q10]
/-- The scanner reads the text of one character of a string literal. -/
theorem scan_quoteChar (isKey : Bool) (raw : List Char) (stack : List Frame) (c : Char)
    (rest : List Char) :
    scanLoop (Lex.inString isKey raw) stack (quoteChar c ++ rest) =
      scanLoop (Lex.inString isKey ((quoteChar c).reverse ++ raw)) stack rest := by
  rcases quoteChar_shape c with ⟨h, e1, e2, e3⟩ | ⟨e, h, he, _⟩ | ⟨h1, h2, h3, h4, h, a1, a2, a3, a4, _, _⟩
  · rw [h]
    simp only [List.singleton_append, List.reverse_cons, List.reverse_nil, List.nil_append]
    rw [scanLoop_cons, step_inString_plain isKey raw stack c e1 e2 e3, resume]
  · rw [h]
    exact scan_escape2 isKey raw stack e rest he
  · rw [h]
    exact scan_escapeU isKey raw stack h1 h2 h3 h4 rest a1 a2 a3 a4

theorem scan_quoteChars (isKey : Bool) (cs : List Char) (raw : List Char) (stack : List Frame)
    (rest : List Char) :
    scanLoop (Lex.inString isKey raw) stack (cs.flatMap quoteChar ++ rest) =
      scanLoop (Lex.inString isKey ((cs.flatMap quoteChar).reverse ++ raw)) stack rest := by
  induction cs generalizing raw with
  | nil => rfl
  | cons c cs ih =>
    rw [List.flatMap_cons, List.append_assoc, scan_quoteChar, ih]
    simp [List.reverse_append, List.append_assoc]

/-- Function `unquote` undoes the text of one character. -/
theorem unquoteChars_quoteChar (n : Nat) (c : Char) (rest : List Char) :
    unquoteChars (n + 1) (quoteChar c ++ rest) = c :: unquoteChars n rest := by
  rcases quoteChar_shape c with ⟨h, _, e2, _⟩ | ⟨e, h, he, hc⟩ | ⟨h1, h2, h3, h4, h, _, _, _, _, hv, hs⟩
  · rw [h]
    simp [unquoteChars, e2]
  · rw [h]
    have hu : e ≠ 'u' := by
      rcases he with rfl | rfl | rfl | rfl | rfl | rfl | rfl | rfl <;> decide
    simp [unquoteChars, hu, hc]
  · rw [h]
    show unquoteChars (n + 1) ('\\' :: 'u' :: h1 :: h2 :: h3 :: h4 :: rest) = _
    simp only [unquoteChars, beq_self_eq_true, if_true,
      List.head?_cons, List.drop_succ_cons, List.drop_zero, List.take_succ_cons, List.take_zero,
      hv, Char.ofNat_toNat]
    rw [if_neg (by omega)]

theorem unquoteChars_quoteChars (cs : List Char) (n : Nat) (h : cs.length ≤ n) :
    unquoteChars n (cs.flatMap quoteChar) = cs := by
  induction cs generalizing n with
  | nil => cases n <;> rfl
  | cons c cs ih =>
    cases n with
    | zero => simp at h
    | succ n =>
      rw [List.flatMap_cons, unquoteChars_quoteChar, ih n (by simpa using h)]

theorem length_quoteChar_pos (c : Char) : 1 ≤ (quoteChar c).length := by
  rcases quoteChar_shape c with ⟨h, _⟩ | ⟨e, h, _⟩ | ⟨h1, h2, h3, h4, h, _⟩ <;> rw [h] <;> simp

theorem length_le_flatMap_quoteChar (cs : List Char) :
    cs.length ≤ (cs.flatMap quoteChar).length := by
  induction cs with
  | nil => simp
  | cons c cs ih =>
    rw [List.flatMap_cons, List.length_append, List.length_cons]
    have := length_quoteChar_pos c
    omega

theorem unquote_quoteChars (s : String) : unquote (s.data.flatMap quoteChar) = s := by
  unfold unquote
  rw [unquoteChars_quoteChars s.data _ (length_le_flatMap_quoteChar s.data)]

/-- A string literal is scanned as its string. -/
theorem Renders_quote (s : String) : Renders 0 (quote s) (Json.str s) := by
  refine ⟨⟨'"', _, rfl, by decide, by decide, by decide⟩, ?_⟩
  intro stack rest hne _ _
  unfold quote
  rw [List.cons_append, scanLoop_cons]
  have h1 : step Lex.beginValue stack '"' = Step.next (Lex.inString false []) stack := by
    simp [step, stepBeginValue, isSpace]
  rw [h1, resume, List.append_assoc, scan_quoteChars, List.singleton_append, scanLoop_cons]
  have h2 : step (Lex.inString false ((s.data.flatMap quoteChar).reverse ++ [])) stack '"' =
      endOfValue (Json.str s) stack := by
    simp [step, unquote_quoteChars]
  rw [h2]
  cases stack with
  | nil => exact absurd rfl hne
  | cons fr st => cases fr <;> rfl

/-! ## The scanner on number literals -/

theorem stepNumber_next (st st1 : NumState) (text : List Char) (stack : List Frame) (c : Char)
    (h : numNext st c = some st1) :
    stepNumber st text stack c = Step.next (Lex.number st1 (c :: text)) stack := by
  cases st <;> simp only [numNext] at h <;> simp only [stepNumber] <;>
    split_ifs at h ⊢ <;> simp_all

theorem isTerminator_facts (c : Char) (h : c = ',' ∨ c = '}' ∨ c = ']') :
    isDecDigit c = false ∧ c ≠ '.' ∧ c ≠ 'e' ∧ c ≠ 'E' ∧ isSpace c = false := by
  rcases h with rfl | rfl | rfl <;> decide

theorem stepNumber_end (st : NumState) (text : List Char) (stack : List Frame) (c : Char)
    (hf : numFinal st = true) (hc : c = ',' ∨ c = '}' ∨ c = ']') :
    stepNumber st text stack c = endOfNumber text stack c := by
  obtain ⟨h1, h2, h3, h4, _⟩ := isTerminator_facts c hc
  cases st <;> simp only [numFinal] at hf <;> simp [stepNumber, h1, h2, h3, h4] <;> cases hf

theorem stepBeginValue_number (stack : List Frame) (c : Char) (st : NumState)
    (h : numStart c = some st) :
    stepBeginValue stack c = Step.next (Lex.number st [c]) stack := by
  unfold numStart at h
  split_ifs at h with h1 h2 h3
  · simp only [beq_iff_eq] at h1
    subst h1
    cases h
    simp [stepBeginValue, isSpace]
  · simp only [beq_iff_eq] at h2
    subst h2
    cases h
    simp [stepBeginValue, isSpace]
  · cases h
    have hs : isSpace c = false := by
      simp only [isSpace, Bool.or_eq_false_iff, beq_eq_false_iff_ne, ne_eq]
      refine ⟨⟨⟨?_, ?_⟩, ?_⟩, ?_⟩ <;> (intro hc; subst hc; revert h3; decide)
    have n1 : c ≠ '{' := by intro hc; subst hc; revert h3; decide
    have n2 : c ≠ '[' := by intro hc; subst hc; revert h3; decide
    have n3 : c ≠ '"' := by intro hc; subst hc; revert h3; decide
    have n4 : c ≠ '-' := by intro hc; subst hc; revert h3; decide
    have n5 : c ≠ '0' := by intro hc; subst hc; revert h3; decide
    have n6 : c ≠ 't' := by intro hc; subst hc; revert h3; decide
    have n7 : c ≠ 'f' := by intro hc; subst hc; revert h3; decide
    have n8 : c ≠ 'n' := by intro hc; subst hc; revert h3; decide
    simp [stepBeginValue, hs, n1, n2, n3, n4, n5, n6, n7, n8, h3]

theorem scan_number (st : NumState) (cs text : List Char) (stack : List Frame)
    (rest : List Char) (h : numAccept st cs = true) :
    ∃ st1, numFinal st1 = true ∧
      scanLoop (Lex.number st text) stack (cs ++ rest) =
        scanLoop (Lex.number st1 (cs.reverse ++ text)) stack rest := by
  induction cs generalizing st text with
  | nil => exact ⟨st, h, rfl⟩
  | cons c cs ih =>
    simp only [numAccept] at h
    cases hn : numNext st c with
    | none => rw [hn] at h; cases h
    | some st2 =>
      rw [hn] at h
      obtain ⟨st1, hf, hs⟩ := ih st2 (c :: text) h
      refine ⟨st1, hf, ?_⟩
      rw [List.cons_append, scanLoop_cons]
      show resume (stepNumber st text stack c) (cs ++ rest) = _
      rw [stepNumber_next st st2 text stack c hn, resume, hs]
      simp [List.reverse_cons, List.append_assoc]

theorem numStart_first (c : Char) (st : NumState) (h : numStart c = some st) :
    isSpace c = false ∧ c ≠ ']' ∧ c ≠ '}' := by
  unfold numStart at h
  split_ifs at h with h1 h2 h3
  · simp only [beq_iff_eq] at h1
    subst h1
    decide
  · simp only [beq_iff_eq] at h2
    subst h2
    decide
  · refine ⟨?_, ?_, ?_⟩
    · simp only [isSpace, Bool.or_eq_false_iff, beq_eq_false_iff_ne, ne_eq]
      refine ⟨⟨⟨?_, ?_⟩, ?_⟩, ?_⟩ <;> (intro hc; subst hc; revert h3; decide)
    · intro hc; subst hc; revert h3; decide
    · intro hc; subst hc; revert h3; decide

/-- A number literal is scanned as the number with that text. -/
theorem Renders_number (lit : List Char) (h : numberLit lit = true) :
    Renders 0 lit (Json.num (String.mk lit)) := by
  cases lit with
  | nil => cases h
  | cons c cs =>
    simp only [numberLit] at h
    cases hst : numStart c with
    | none => rw [hst] at h; cases h
    | some st =>
      rw [hst] at h
      obtain ⟨f1, f2, f3⟩ := numStart_first c st hst
      refine ⟨⟨c, cs, rfl, f1, f2, f3⟩, ?_⟩
      intro stack rest hne _ hterm
      obtain ⟨t, ts, rfl, ht⟩ := hterm
      obtain ⟨st1, hf, hs⟩ := scan_number st cs [c] stack (t :: ts) h
      rw [List.cons_append, scanLoop_cons]
      show resume (stepBeginValue stack c) (cs ++ t :: ts) = _
      rw [stepBeginValue_number stack c st hst, resume, hs, scanLoop_cons, scanLoop_cons]
      show resume (stepNumber st1 (cs.reverse ++ [c]) stack t) ts = _
      rw [stepNumber_end st1 _ stack t hf ht]
      cases stack with
      | nil => exact absurd rfl hne
      | cons fr st2 =>
        cases fr <;> simp [endOfNumber, attach, step]

/-! ## Integers: formatting and parsing -/

theorem toNat_digit : ∀ k < 10, (Char.ofNat (48 + k)).toNat = 48 + k := by decide

theorem digitsFold_append (a : Nat) (xs ys : List Char) :
    digitsFold a (xs ++ ys) = digitsFold (digitsFold a xs) ys := by
  simp [digitsFold, List.foldl_append]

/-- The digits `formatUintLoop` writes: a non-empty row of digits whose value
is the number, with no leading zero. -/
theorem formatUintLoop_spec (fuel n : Nat) (acc : List Char) (h : n < fuel) :
    ∃ ds, formatUintLoop fuel n acc = ds ++ acc ∧
      (∀ c ∈ ds, isDecDigit c = true) ∧
      (∀ a, digitsFold a ds = a * 10 ^ ds.length + n) ∧
      (n = 0 → ds = ['0']) ∧
      (0 < n → ∃ c cs, ds = c :: cs ∧ 49 ≤ c.toNat ∧ c.toNat ≤ 57) := by
  induction fuel generalizing n acc with
  | zero => omega
  | succ fuel ih =>
    unfold formatUintLoop
    by_cases hn : n < 10
    · rw [if_pos hn]
      have ht := toNat_digit n hn
      refine ⟨[Char.ofNat (48 + n)], rfl, ?_, ?_, ?_, ?_⟩
      · intro c hc
        simp only [List.mem_singleton] at hc
        subst hc
        simp only [isDecDigit, ht, Bool.and_eq_true, decide_eq_true_eq]
        omega
      · intro a
        simp only [digitsFold, List.foldl_cons, List.foldl_nil, ht, List.length_singleton]
        omega
      · intro h0
        subst h0
        rfl
      · intro hpos
        exact ⟨_, [], rfl, by omega, by omega⟩
    · rw [if_neg hn]
      obtain ⟨ds, h1, h2, h3, _, h5⟩ := ih (n / 10) (Char.ofNat (48 + n % 10) :: acc) (by omega)
      have ht := toNat_digit (n % 10) (by omega)
      refine ⟨ds ++ [Char.ofNat (48 + n % 10)], by rw [h1]; simp, ?_, ?_, ?_, ?_⟩
      · intro c hc
        rcases List.mem_append.mp hc with hc | hc
        · exact h2 c hc
        · simp only [List.mem_singleton] at hc
          subst hc
          simp only [isDecDigit, ht, Bool.and_eq_true, decide_eq_true_eq]
          omega
      · intro a
        rw [digitsFold_append, h3 a]
        simp only [digitsFold, List.foldl_cons, List.foldl_nil, ht, List.length_append,
          List.length_singleton, pow_succ]
        have : (a * 10 ^ ds.length + n / 10) * 10 = a * (10 ^ ds.length * 10) + n / 10 * 10 := by
          ring
        omega
      · intro h0
        omega
      · intro _
        obtain ⟨c, cs, hds, hc1, hc2⟩ := h5 (by omega)
        exact ⟨c, cs ++ [Char.ofNat (48 + n % 10)], by rw [hds]; rfl, hc1, hc2⟩

theorem formatUint_spec (n : Nat) :
    (∀ c ∈ formatUint n, isDecDigit c = true) ∧
      digitsFold 0 (formatUint n) = n ∧
      (n = 0 → formatUint n = ['0']) ∧
      (0 < n → ∃ c cs, formatUint n = c :: cs ∧ 49 ≤ c.toNat ∧ c.toNat ≤ 57) := by
  obtain ⟨ds, h1, h2, h3, h4, h5⟩ := formatUintLoop_spec (n + 1) n [] (by omega)
  have e : formatUint n = ds := by
    unfold formatUint
    rw [h1, List.append_nil]
  rw [e]
  exact ⟨h2, by rw [h3 0]; omega, h4, h5⟩

theorem formatUint_ne_nil (n : Nat) : formatUint n ≠ [] := by
  obtain ⟨_, _, h0, h1⟩ := formatUint_spec n
  rcases Nat.eq_zero_or_pos n with h | h
  · rw [h0 h]; simp
  · obtain ⟨c, cs, e, _⟩ := h1 h
    rw [e]; simp

theorem digitsValue_formatUint (n : Nat) : digitsValue (formatUint n) = some n := by
  obtain ⟨h1, h2, _, _⟩ := formatUint_spec n
  unfold digitsValue
  rw [if_pos ⟨formatUint_ne_nil n, List.all_eq_true.mpr h1⟩, h2]

theorem decimalValue_digits (s : String) (c : Char) (cs : List Char) (h : s.data = c :: cs)
    (hc : isDecDigit c = true) :
    decimalValue s = (digitsValue (c :: cs)).map (fun n => (n : Int)) := by
  have h1 : c ≠ '-' := by intro e; subst e; revert hc; decide
  have h2 : c ≠ '+' := by intro e; subst e; revert hc; decide
  unfold decimalValue
  rw [h]
  split
  · rename_i ds heq
    cases heq
    exact absurd rfl h1
  · rename_i ds heq
    cases heq
    exact absurd rfl h2
  · rfl

/-- The text of an integer is a decimal numeral of that integer. -/
theorem decimalValue_formatInt (n : Int) : decimalValue (String.mk (formatInt n)) = some n := by
  unfold formatInt
  split
  · rename_i hneg
    have : decimalValue (String.mk ('-' :: formatUint n.natAbs)) =
        (digitsValue (formatUint n.natAbs)).map (fun m => -(m : Int)) := rfl
    rw [this, digitsValue_formatUint]
    show some _ = some n
    congr 1
    dsimp only
    omega
  · rename_i hpos
    have hne := formatUint_ne_nil n.toNat
    obtain ⟨c, cs, e⟩ := List.exists_cons_of_ne_nil hne
    have hc : isDecDigit c = true :=
      (formatUint_spec n.toNat).1 c (by rw [e]; exact List.mem_cons_self _ _)
    rw [decimalValue_digits (String.mk (formatUint n.toNat)) c cs e hc, ← e,
      digitsValue_formatUint]
    show some _ = some n
    congr 1
    dsimp only
    omega

/-- `ParseInt` on a decimal numeral within the range of `int64`. -/
theorem ParseInt_decimal (s : String) (n : Int) (h : decimalValue s = some n)
    (lo : -(2 ^ 63) ≤ n) (hi : n < 2 ^ 63) : ParseInt s (goBytes s) = (n, none) := by
  obtain ⟨ds, hne, hd, hcase⟩ := decimalValue_cases s n h
  have hda : ∀ c ∈ ds, c.toNat < 128 := fun c hc => isDecDigit_ascii c (hd c hc)
  obtain ⟨c, cs, rfl⟩ := List.exists_cons_of_ne_nil hne
  have hc := hd c (List.mem_cons_self _ _)
  simp only [isDecDigit, Bool.and_eq_true, decide_eq_true_eq] at hc
  have h43 : c.toNat ≠ 43 := by omega
  have h45 : c.toNat ≠ 45 := by omega
  rcases hcase with ⟨hs, rfl⟩ | ⟨hs, rfl⟩ | ⟨hs, rfl⟩
  · have hb := goBytes_of_data s _ hs hda
    have hv : digitsFold 0 (c :: cs) < 2 ^ 63 := by exact_mod_cast hi
    have hu := ParseUint_digits s (c :: cs) hne hd (by omega)
    simp only [List.map_cons] at hu hb
    have hp := ParseInt_of_ParseUint s c.toNat (cs.map Char.toNat) _
      (by simpa [h43, h45] using hu)
    rw [hb, hp]
    have hge : ¬ (9223372036854775808 ≤ digitsFold 0 (c :: cs)) := by omega
    simp [h45, toInt64_small _ hv, hge]
  · have hb := goBytes_of_data s ('+' :: c :: cs) hs (by
      intro d hdm
      rcases List.mem_cons.mp hdm with rfl | hdm
      · decide
      · exact hda d hdm)
    have hv : digitsFold 0 (c :: cs) < 2 ^ 63 := by exact_mod_cast hi
    have hu := ParseUint_digits s (c :: cs) hne hd (by omega)
    have e43 : ('+' : Char).toNat = 43 := by decide
    simp only [List.map_cons, e43] at hu hb
    have hp := ParseInt_of_ParseUint s 43 (c.toNat :: cs.map Char.toNat) _
      (by simpa using hu)
    rw [hb, hp]
    have hge : ¬ (9223372036854775808 ≤ digitsFold 0 (c :: cs)) := by omega
    simp [toInt64_small _ hv, hge]
  · have hb := goBytes_of_data s ('-' :: c :: cs) hs (by
      intro d hdm
      rcases List.mem_cons.mp hdm with rfl | hdm
      · decide
      · exact hda d hdm)
    have hv : digitsFold 0 (c :: cs) ≤ 2 ^ 63 := by
      have : -((2 : Int) ^ 63) ≤ -((digitsFold 0 (c :: cs) : Nat) : Int) := lo
      omega
    have hu := ParseUint_digits s (c :: cs) hne hd (by omega)
    have e45 : ('-' : Char).toNat = 45 := by decide
    simp only [List.map_cons, e45] at hu hb
    have hp := ParseInt_of_ParseUint s 45 (c.toNat :: cs.map Char.toNat) _
      (by simpa using hu)
    rw [hb, hp]
    by_cases hq : digitsFold 0 (c :: cs) = 2 ^ 63
    · rw [hq]
      simp [toInt64, negInt64]
    · have hv' : digitsFold 0 (c :: cs) < 2 ^ 63 := by omega
      have hne' : ((digitsFold 0 (c :: cs) : Nat) : Int) ≠ -(2 ^ 63) := by omega
      have hnot : ¬ (9223372036854775808 < digitsFold 0 (c :: cs)) := by omega
      simp [toInt64_small _ hv', negInt64, hne', hnot]

/-- The text of an `int64` decodes to it. -/
theorem decodeInt_formatInt (goType : String) (n cur : Int)
    (lo : -(2 ^ 63) ≤ n) (hi : n < 2 ^ 63) :
    decodeInt goType (Json.num (String.mk (formatInt n))) cur = (n, none) := by
  simp only [decodeInt]
  rw [ParseInt_decimal _ n (decimalValue_formatInt n) lo hi]

theorem numAccept_digits (cs : List Char) (h : ∀ c ∈ cs, isDecDigit c = true) :
    numAccept NumState.int cs = true := by
  induction cs with
  | nil => rfl
  | cons c cs ih =>
    simp only [numAccept, numNext, h c (List.mem_cons_self _ _), if_true]
    exact ih (fun d hd => h d (List.mem_cons_of_mem _ hd))

theorem numberLit_formatUint (n : Nat) :
    numberLit (formatUint n) = true ∧
      (0 < n → numAccept NumState.neg (formatUint n) = true) := by
  obtain ⟨h1, _, h3, h4⟩ := formatUint_spec n
  rcases Nat.eq_zero_or_pos n with h | h
  · rw [h3 h]
    exact ⟨by decide, fun hp => by omega⟩
  · obtain ⟨c, cs, e, c1, c2⟩ := h4 h
    rw [e] at h1 ⊢
    have hcs : numAccept NumState.int cs = true :=
      numAccept_digits cs (fun d hd => h1 d (List.mem_cons_of_mem _ hd))
    have n0 : c ≠ '0' := by intro hc; subst hc; revert c1; decide
    have nm : c ≠ '-' := by intro hc; subst hc; revert c1; decide
    constructor
    · simp [numberLit, numStart, n0, nm, c1, c2, hcs]
    · intro _
      simp [numAccept, numNext, n0, c1, c2, hcs]

theorem numberLit_formatInt (n : Int) : numberLit (formatInt n) = true := by
  unfold formatInt
  split
  · rename_i hneg
    have := (numberLit_formatUint n.natAbs).2 (by omega)
    simpa [numberLit, numStart] using this
  · exact (numberLit_formatUint n.toNat).1

/-- The text of an integer is scanned as a number with that text. -/
theorem Renders_formatInt (n : Int) :
    Renders 0 (formatInt n) (Json.num (String.mk (formatInt n))) :=
  Renders_number _ (numberLit_formatInt n)

/-! ## The scanner on arrays and objects -/

theorem scan_beginValueOrEmpty (stack : List Frame) (c : Char) (cs : List Char)
    (h1 : isSpace c = false) (h2 : c ≠ ']') :
    scanLoop Lex.beginValueOrEmpty stack (c :: cs) = scanLoop Lex.beginValue stack (c :: cs) := by
  rw [scanLoop_cons, scanLoop_cons]
  simp [step, h1, h2]

theorem scan_endValue_close_arr (items : List Json) (stack : List Frame) (rest : List Char) :
    scanLoop Lex.endValue (Frame.arr items :: stack) (']' :: rest) =
      resume (closeContainer (Json.arr items) stack) rest := by
  rw [scanLoop_cons]
  simp [step, stepEndValue, isSpace]

theorem scan_endValue_comma_arr (items : List Json) (stack : List Frame) (rest : List Char) :
    scanLoop Lex.endValue (Frame.arr items :: stack) (',' :: rest) =
      scanLoop Lex.beginValue (Frame.arr items :: stack) rest := by
  rw [scanLoop_cons]
  simp [step, stepEndValue, isSpace, resume]

/-- The items of an array, each scanned as its value, up to the closing. -/
theorem scan_items (d : Nat) (tvs : List (List Char × Json))
    (h : ∀ tv ∈ tvs, Renders d tv.1 tv.2) (hne : tvs ≠ []) (acc : List Json)
    (stack : List Frame) (rest : List Char)
    (hd : stack.length + 1 + d ≤ maxNestingDepth) :
    scanLoop Lex.beginValue (Frame.arr acc :: stack)
        (joinComma (tvs.map Prod.fst) ++ ']' :: rest) =
      resume (closeContainer (Json.arr (acc ++ tvs.map Prod.snd)) stack) rest := by
  induction tvs generalizing acc with
  | nil => exact absurd rfl hne
  | cons tv tvs ih =>
    have hr := (h tv (List.mem_cons_self _ _)).2
    cases tvs with
    | nil =>
      simp only [List.map_cons, List.map_nil, joinComma]
      rw [hr (Frame.arr acc :: stack) (']' :: rest) (by simp)
        (by simp only [List.length_cons]; omega) ⟨']', rest, rfl, Or.inr (Or.inr rfl)⟩]
      exact scan_endValue_close_arr _ _ _
    | cons tv2 tvs =>
      simp only [List.map_cons, joinComma]
      rw [List.append_assoc, List.cons_append, hr (Frame.arr acc :: stack) _ (by simp)
        (by simp only [List.length_cons]; omega) ⟨',', _, rfl, Or.inl rfl⟩]
      simp only [attach, List.cons_append]
      rw [scan_endValue_comma_arr]
      have := ih (fun x hx => h x (List.mem_cons_of_mem _ hx)) (by simp) (acc ++ [tv.2])
      simp only [List.map_cons, List.append_assoc, List.singleton_append] at this
      exact this

theorem joinComma_first (tvs : List (List Char × Json)) (d : Nat)
    (h : ∀ tv ∈ tvs, Renders d tv.1 tv.2) (hne : tvs ≠ []) :
    ∃ c cs, joinComma (tvs.map Prod.fst) = c :: cs ∧ isSpace c = false ∧ c ≠ ']' := by
  cases tvs with
  | nil => exact absurd rfl hne
  | cons tv tvs =>
    obtain ⟨c, cs, e, h1, h2, _⟩ := (h tv (List.mem_cons_self _ _)).1
    cases tvs with
    | nil => exact ⟨c, cs, by simp [joinComma, e], h1, h2⟩
    | cons tv2 tvs => exact ⟨c, cs ++ ',' :: joinComma ((tv2 :: tvs).map Prod.fst),
        by simp [joinComma, e], h1, h2⟩

/-- A non-empty array of values that are scanned is scanned as their array. -/
theorem Renders_array (d : Nat) (tvs : List (List Char × Json))
    (h : ∀ tv ∈ tvs, Renders d tv.1 tv.2) (hne : tvs ≠ []) :
    Renders (d + 1) ('[' :: (joinComma (tvs.map Prod.fst) ++ [']']))
      (Json.arr (tvs.map Prod.snd)) := by
  refine ⟨⟨'[', _, rfl, by decide, by decide, by decide⟩, ?_⟩
  intro stack rest hs hd _
  obtain ⟨c, cs, e, h1, h2⟩ := joinComma_first tvs d h hne
  rw [List.cons_append, scanLoop_cons]
  have hb : step Lex.beginValue stack '[' =
      Step.next Lex.beginValueOrEmpty (Frame.arr [] :: stack) := by
    have : stack.length + 1 ≤ maxNestingDepth := by omega
    simp [step, stepBeginValue, isSpace, this]
  rw [hb, resume, List.append_assoc, List.singleton_append]
  have e2 : joinComma (tvs.map Prod.fst) ++ ']' :: rest = c :: (cs ++ ']' :: rest) := by
    rw [e]; rfl
  rw [e2, scan_beginValueOrEmpty _ c _ h1 h2, ← e2, scan_items d tvs h hne [] stack rest
    (by omega)]
  cases stack with
  | nil => exact absurd rfl hs
  | cons fr st => cases fr <;> rfl
/-- The key of a member and its colon. -/
theorem scan_key (ms : List (String × Json)) (k0 k : String) (stack : List Frame)
    (rest : List Char) :
    scanLoop Lex.beginString (Frame.obj ms k0 :: stack) (quote k ++ ':' :: rest) =
      scanLoop Lex.beginValue (Frame.obj ms k :: stack) rest := by
  unfold quote
  rw [List.cons_append, scanLoop_cons]
  have h1 : step Lex.beginString (Frame.obj ms k0 :: stack) '"' =
      Step.next (Lex.inString true []) (Frame.obj ms k0 :: stack) := by
    simp [step, stepBeginString, isSpace]
  rw [h1, resume, List.append_assoc, scan_quoteChars, List.singleton_append, scanLoop_cons]
  have h2 : step (Lex.inString true ((k.data.flatMap quoteChar).reverse ++ []))
      (Frame.obj ms k0 :: stack) '"' = Step.next Lex.endKey (Frame.obj ms k :: stack) := by
    simp [step, unquote_quoteChars]
  rw [h2, resume, scanLoop_cons]
  simp [step, isSpace, resume]

theorem scan_endValue_close_obj (ms : List (String × Json)) (k : String) (stack : List Frame)
    (rest : List Char) :
    scanLoop Lex.endValue (Frame.obj ms k :: stack) ('}' :: rest) =
      resume (closeContainer (Json.obj ms) stack) rest := by
  rw [scanLoop_cons]
  simp [step, stepEndValue, isSpace]

theorem scan_endValue_comma_obj (ms : List (String × Json)) (k : String) (stack : List Frame)
    (rest : List Char) :
    scanLoop Lex.endValue (Frame.obj ms k :: stack) (',' :: rest) =
      scanLoop Lex.beginString (Frame.obj ms k :: stack) rest := by
  rw [scanLoop_cons]
  simp [step, stepEndValue, isSpace, resume]

/-- The text of a member: its key, a colon, its value. -/
theorem member_text (m : String × List Char × Json) (rest : List Char) :
    (quote m.1 ++ ':' :: m.2.1) ++ rest = quote m.1 ++ ':' :: (m.2.1 ++ rest) := by
  simp [List.append_assoc]

/-- The members of an object, each value scanned as its value, up to the
closing. -/
theorem scan_members (d : Nat) (ms : List (String × List Char × Json))
    (h : ∀ m ∈ ms, Renders d m.2.1 m.2.2) (hne : ms ≠ []) (acc : List (String × Json))
    (k0 : String) (stack : List Frame) (rest : List Char)
    (hd : stack.length + 1 + d ≤ maxNestingDepth) :
    scanLoop Lex.beginString (Frame.obj acc k0 :: stack)
        (joinComma (ms.map (fun m => quote m.1 ++ ':' :: m.2.1)) ++ '}' :: rest) =
      resume (closeContainer (Json.obj (acc ++ ms.map (fun m => (m.1, m.2.2)))) stack)
        rest := by
  induction ms generalizing acc k0 with
  | nil => exact absurd rfl hne
  | cons m ms ih =>
    have hr := (h m (List.mem_cons_self _ _)).2
    cases ms with
    | nil =>
      simp only [List.map_cons, List.map_nil, joinComma]
      rw [member_text, scan_key,
        hr (Frame.obj acc m.1 :: stack) ('}' :: rest) (by simp)
          (by simp only [List.length_cons]; omega) ⟨'}', rest, rfl, Or.inr (Or.inl rfl)⟩]
      exact scan_endValue_close_obj _ _ _ _
    | cons m2 ms =>
      simp only [List.map_cons, joinComma]
      rw [List.append_assoc, List.cons_append, member_text, scan_key,
        hr (Frame.obj acc m.1 :: stack) _ (by simp)
          (by simp only [List.length_cons]; omega) ⟨',', _, rfl, Or.inl rfl⟩]
      simp only [attach]
      rw [scan_endValue_comma_obj]
      have := ih (fun x hx => h x (List.mem_cons_of_mem _ hx)) (by simp)
        (acc ++ [(m.1, m.2.2)]) m.1
      simp only [List.map_cons, List.append_assoc, List.singleton_append] at this
      exact this

/-- An object is scanned as the object of its members, in their order; at the
top level the scan ends with it. -/
theorem scan_object (d : Nat) (ms : List (String × List Char × Json))
    (h : ∀ m ∈ ms, Renders d m.2.1 m.2.2) (stack : List Frame) (rest : List Char)
    (hd : stack.length + 1 + d ≤ maxNestingDepth) :
    scanLoop Lex.beginValue stack
        ('{' :: (joinComma (ms.map (fun m => quote m.1 ++ ':' :: m.2.1)) ++ '}' :: rest)) =
      resume (closeContainer (Json.obj (ms.map (fun m => (m.1, m.2.2)))) stack) rest := by
  rw [scanLoop_cons]
  have hb : step Lex.beginValue stack '{' =
      Step.next Lex.beginStringOrEmpty (Frame.obj [] "" :: stack) := by
    have : stack.length + 1 ≤ maxNestingDepth := by omega
    simp [step, stepBeginValue, isSpace, this]
  rw [hb, resume]
  cases ms with
  | nil =>
    simp only [List.map_nil, joinComma, List.nil_append]
    rw [scanLoop_cons]
    simp [step, stepEndValue, isSpace]
  | cons m ms =>
    have hq : ∃ cs, joinComma ((m :: ms).map (fun m => quote m.1 ++ ':' :: m.2.1)) ++
        '}' :: rest = '"' :: cs := by
      cases ms with
      | nil => exact ⟨_, rfl⟩
      | cons m2 ms => exact ⟨_, rfl⟩
    obtain ⟨cs, e⟩ := hq
    have hs : scanLoop Lex.beginStringOrEmpty (Frame.obj [] "" :: stack) ('"' :: cs) =
        scanLoop Lex.beginString (Frame.obj [] "" :: stack) ('"' :: cs) := by
      rw [scanLoop_cons, scanLoop_cons]
      simp [step, isSpace]
    rw [e, hs, ← e, scan_members d (m :: ms) h (by simp) [] "" stack rest hd]
    simp

/-- An object of values that are scanned is scanned as their object. -/
theorem Renders_object (d : Nat) (ms : List (String × List Char × Json))
    (h : ∀ m ∈ ms, Renders d m.2.1 m.2.2) :
    Renders (d + 1)
      ('{' :: (joinComma (ms.map (fun m => quote m.1 ++ ':' :: m.2.1)) ++ ['}']))
      (Json.obj (ms.map (fun m => (m.1, m.2.2)))) := by
  refine ⟨⟨'{', _, rfl, by decide, by decide, by decide⟩, ?_⟩
  intro stack rest hs hd _
  rw [List.cons_append, List.append_assoc, List.singleton_append,
    scan_object d ms h stack rest (by omega)]
  cases stack with
  | nil => exact absurd rfl hs
  | cons fr st => cases fr <;> rfl

/-- At the top level the text of an object is scanned as that object. -/
theorem scanValue_object (d : Nat) (ms : List (String × List Char × Json))
    (h : ∀ m ∈ ms, Renders d m.2.1 m.2.2) (hd : 1 + d ≤ maxNestingDepth) :
    scanValue (String.mk
        ('{' :: (joinComma (ms.map (fun m => quote m.1 ++ ':' :: m.2.1)) ++ ['}']))) =
      Scanned.value (Json.obj (ms.map (fun m => (m.1, m.2.2)))) := by
  unfold scanValue
  show scanLoop Lex.beginValue [] ('{' :: (_ ++ ['}'])) = _
  rw [scan_object d ms h [] [] (by simpa using hd)]
  rfl

/-! ## Records: decoding what was encoded -/

theorem find_name_field {σ : Type} (cs : List (Codec σ)) (c : Codec σ) (hc : c ∈ cs)
    (hpw : cs.Pairwise Independent) :
    (cs.map Codec.field).find? (fun fd => fd.name == c.name) = some c.field := by
  induction cs with
  | nil => cases hc
  | cons a cs ih =>
    rw [List.pairwise_cons] at hpw
    rcases List.mem_cons.mp hc with rfl | hm
    · simp [List.find?_cons, Codec.field]
    · have hne : a.name ≠ c.name := fun e => (hpw.1 c hm).1 (by rw [e])
      have : (a.field.name == c.name) = false := by
        simpa [Codec.field] using hne
      rw [List.map_cons, List.find?_cons, this]
      exact ih hm hpw.2

theorem findField_codec {σ : Type} (cs : List (Codec σ)) (c : Codec σ) (hc : c ∈ cs)
    (hpw : cs.Pairwise Independent) :
    findField (cs.map Codec.field) c.name = some c.field := by
  unfold findField
  rw [find_name_field cs c hc hpw]

theorem setField_codec {σ : Type} (cs : List (Codec σ)) (c : Codec σ) (hc : c ∈ cs)
    (hpw : cs.Pairwise Independent) (t : σ) (v : Json) :
    setField (cs.map Codec.field) t c.name v =
      (c.put t (c.dec v (c.get t)).1, (c.dec v (c.get t)).2) := by
  unfold setField
  rw [findField_codec cs c hc hpw]
  rfl

theorem independent_of_pairwise {σ : Type} (pre cs : List (Codec σ)) (c : Codec σ)
    (hpw : (pre ++ c :: cs).Pairwise Independent) :
    (∀ a ∈ pre, Independent a c) ∧ (∀ b ∈ cs, Independent c b) := by
  rw [List.pairwise_append] at hpw
  obtain ⟨_, h2, h3⟩ := hpw
  rw [List.pairwise_cons] at h2
  exact ⟨fun a ha => h3 a ha c (List.mem_cons_self _ _), h2.1⟩

theorem member_empty {σ : Type} (c : Codec σ) (fmt : FloatFmt) (s : σ)
    (h : c.empty (c.get s) = true) : c.member fmt s = Except.ok none := by
  simp [Codec.member, h]

theorem member_written {σ : Type} (c : Codec σ) (fmt : FloatFmt) (s : σ) (t : List Char)
    (h : c.empty (c.get s) = false) (he : c.enc fmt (c.get s) = Except.ok t) :
    c.member fmt s = Except.ok (some (quote c.name ++ ':' :: t)) := by
  simp [Codec.member, h, he]

/-- The members of a lawful table: the fields `cs` that are left of the table
`pre ++ cs` are encoded as members that render JSON values, and these members
decoded into a record that has the fields `cs` as in `z` give them the values
they have in `s1`, leave the fields `pre` alone and raise no error. -/
theorem roundtrip_members {σ : Type} (fmt : FloatFmt) (d : Nat) (s s1 z : σ)
    (cs : List (Codec σ)) :
    ∀ (pre : List (Codec σ)), Lawful (pre ++ cs) →
      (∀ c ∈ cs, CodecOK fmt d s s1 z c) →
      ∃ ms : List (String × List Char × Json),
        encodeMembers fmt s cs = Except.ok (ms.map (fun m => quote m.1 ++ ':' :: m.2.1)) ∧
        (∀ m ∈ ms, Renders d m.2.1 m.2.2) ∧
        ∀ t, (∀ c ∈ cs, c.get t = c.get z) →
          (decodeMembers ((pre ++ cs).map Codec.field)
              (ms.map (fun m => (m.1, m.2.2))) t).2 = none ∧
          (∀ c ∈ cs, c.get (decodeMembers ((pre ++ cs).map Codec.field)
              (ms.map (fun m => (m.1, m.2.2))) t).1 = c.get s1) ∧
          (∀ c ∈ pre, c.get (decodeMembers ((pre ++ cs).map Codec.field)
              (ms.map (fun m => (m.1, m.2.2))) t).1 = c.get t) := by
  induction cs with
  | nil =>
    intro pre _ _
    refine ⟨[], rfl, by simp, ?_⟩
    intro t _
    simp [decodeMembers]
  | cons c cs ih =>
    intro pre hlaw hok
    have hsplit : pre ++ c :: cs = (pre ++ [c]) ++ cs := by simp
    have hlaw2 : Lawful ((pre ++ [c]) ++ cs) := by rw [← hsplit]; exact hlaw
    obtain ⟨ms, hms, hren, hdec⟩ := ih (pre ++ [c]) hlaw2
      (fun c1 h1 => hok c1 (List.mem_cons_of_mem _ h1))
    rw [← hsplit] at hdec
    obtain ⟨hpre, hpost⟩ := independent_of_pairwise pre cs c hlaw.2
    have hc := hok c (List.mem_cons_self _ _)
    cases he : c.empty (c.get s) with
    | true =>
      refine ⟨ms, ?_, hren, ?_⟩
      · simp [encodeMembers, member_empty c fmt s he, hms]
      · intro t ht
        obtain ⟨h1, h2, h3⟩ := hdec t (fun c1 h1 => ht c1 (List.mem_cons_of_mem _ h1))
        refine ⟨h1, ?_, ?_⟩
        · intro c1 hc1
          rcases List.mem_cons.mp hc1 with rfl | hm
          · rw [h3 c1 (by simp), ht c1 (List.mem_cons_self _ _), hc.1 he]
          · exact h2 c1 hm
        · intro c1 hc1
          exact h3 c1 (by simp [hc1])
    | false =>
      obtain ⟨txt, v, henc, hv, hback⟩ := hc.2 he
      refine ⟨(c.name, txt, v) :: ms, ?_, ?_, ?_⟩
      · simp [encodeMembers, member_written c fmt s txt he henc, hms]
      · intro m hm
        rcases List.mem_cons.mp hm with rfl | hm
        · exact hv
        · exact hren m hm
      · intro t ht
        have hset : setField ((pre ++ c :: cs).map Codec.field) t c.name v =
            (c.put t (c.get s1), none) := by
          rw [setField_codec _ c (by simp) hlaw.2, ht c (List.mem_cons_self _ _), hback]
        have hnext : ∀ c1 ∈ cs, c1.get (c.put t (c.get s1)) = c1.get z := by
          intro c1 h1
          rw [(hpost c1 h1).2.1, ht c1 (List.mem_cons_of_mem _ h1)]
        obtain ⟨h1, h2, h3⟩ := hdec (c.put t (c.get s1)) hnext
        have hstep : decodeMembers ((pre ++ c :: cs).map Codec.field)
            (((c.name, txt, v) :: ms).map (fun m => (m.1, m.2.2))) t =
            decodeMembers ((pre ++ c :: cs).map Codec.field)
              (ms.map (fun m => (m.1, m.2.2))) (c.put t (c.get s1)) := by
          rw [List.map_cons, decodeMembers]
          simp only [hset, saveError]
        rw [hstep]
        refine ⟨h1, ?_, ?_⟩
        · intro c1 hc1
          rcases List.mem_cons.mp hc1 with rfl | hm
          · rw [h3 c1 (by simp)]
            exact hlaw.1 c1 (by simp) _ _
          · exact h2 c1 hm
        · intro c1 hc1
          rw [h3 c1 (by simp [hc1])]
          exact (hpre c1 hc1).2.2 _ _

/-- A record of a lawful table whose fields all come back as they are in
`s1`: it is encoded as a text that is scanned as an object, and the object
decoded into the record `z` gives `s1`. -/
theorem roundtrip_struct {σ : Type} (fmt : FloatFmt) (d : Nat) (s s1 z : σ)
    (cs : List (Codec σ)) (goType : String) (hlaw : Lawful cs)
    (hok : ∀ c ∈ cs, CodecOK fmt d s s1 z c)
    (hext : ∀ t, (∀ c ∈ cs, c.get t = c.get s1) → t = s1) :
    ∃ ms : List (String × List Char × Json),
      encodeStruct cs fmt s = Except.ok
        ('{' :: (joinComma (ms.map (fun m => quote m.1 ++ ':' :: m.2.1)) ++ ['}'])) ∧
      (∀ m ∈ ms, Renders d m.2.1 m.2.2) ∧
      decodeStruct (cs.map Codec.field) goType
        (Json.obj (ms.map (fun m => (m.1, m.2.2)))) z = (s1, none) := by
  obtain ⟨ms, hms, hren, hdec⟩ :=
    roundtrip_members fmt d s s1 z cs [] (by simpa using hlaw) hok
  refine ⟨ms, ?_, hren, ?_⟩
  · simp [encodeStruct, hms]
  · obtain ⟨h1, h2, _⟩ := hdec z (fun _ _ => rfl)
    simp only [List.nil_append] at h1 h2
    show decodeMembers _ _ z = (s1, none)
    exact Prod.ext (hext _ h2) h1

theorem ValueOK_struct {σ : Type} (fmt : FloatFmt) (d : Nat) (s s1 z : σ)
    (cs : List (Codec σ)) (goType : String) (hlaw : Lawful cs)
    (hok : ∀ c ∈ cs, CodecOK fmt d s s1 z c)
    (hext : ∀ t, (∀ c ∈ cs, c.get t = c.get s1) → t = s1) :
    ValueOK fmt (encodeStruct cs) (decodeStruct (cs.map Codec.field) goType) z (d + 1)
      s s1 := by
  obtain ⟨ms, h1, h2, h3⟩ := roundtrip_struct fmt d s s1 z cs goType hlaw hok hext
  exact ⟨_, _, h1, Renders_object d ms h2, h3⟩

/-! ## Values that survive, kind by kind -/

theorem Renders_mono {d e : Nat} {txt : List Char} {v : Json} (h : Renders d txt v)
    (hde : d ≤ e) : Renders e txt v :=
  ⟨h.1, fun stack rest hs hd ht => h.2 stack rest hs (by omega) ht⟩

theorem ValueOK_mono {α : Type} {fmt : FloatFmt}
    {enc : FloatFmt → α → Except GoError (List Char)} {dec : Json → α → α × Option GoError}
    {zero : α} {d e : Nat} {x y : α} (h : ValueOK fmt enc dec zero d x y) (hde : d ≤ e) :
    ValueOK fmt enc dec zero e x y := by
  obtain ⟨t, v, h1, h2, h3⟩ := h
  exact ⟨t, v, h1, Renders_mono h2 hde, h3⟩

theorem ValueOK_string (fmt : FloatFmt) (d : Nat) (zero x : String) :
    ValueOK fmt encodeString decodeString zero d x x :=
  ⟨quote x, Json.str x, rfl, Renders_mono (Renders_quote x) (Nat.zero_le d), rfl⟩

theorem ValueOK_int (fmt : FloatFmt) (goType : String) (d : Nat) (zero x : Int)
    (hx : Int64OK x) : ValueOK fmt encodeInt (decodeInt goType) zero d x x :=
  ⟨formatInt x, Json.num (String.mk (formatInt x)), rfl,
    Renders_mono (Renders_formatInt x) (Nat.zero_le d),
    decodeInt_formatInt goType x zero hx.1 hx.2⟩

theorem ValueOK_float (fmt : FloatFmt) (d : Nat) (zero x : Float64)
    (hx : FloatOK fmt x) (hne : x.bits ≠ 0) :
    ValueOK fmt encodeFloat decodeFloat zero d x x := by
  obtain ⟨hfin, _, hlit⟩ := hx
  obtain ⟨h1, h2⟩ := hlit hne
  refine ⟨(fmt x).data, Json.num (String.mk (fmt x).data), ?_,
    Renders_mono (Renders_number _ h1) (Nat.zero_le d), ?_⟩
  · simp [encodeFloat, hfin]
  · show decodeFloat (Json.num (fmt x)) zero = (x, none)
    simp [decodeFloat, h2]

theorem roundtrip_items {α : Type} (fmt : FloatFmt)
    (enc : FloatFmt → α → Except GoError (List Char)) (dec : Json → α → α × Option GoError)
    (zero : α) (f : α → α) (d : Nat) (xs : List α)
    (h : ∀ x ∈ xs, ValueOK fmt enc dec zero d x (f x)) :
    ∃ tvs : List (List Char × Json),
      encodeItems enc fmt xs = Except.ok (tvs.map Prod.fst) ∧
      (∀ tv ∈ tvs, Renders d tv.1 tv.2) ∧
      decodeItems dec zero (tvs.map Prod.snd) [] = (xs.map f, none) ∧
      tvs.length = xs.length := by
  induction xs with
  | nil => exact ⟨[], rfl, by simp, rfl, rfl⟩
  | cons x xs ih =>
    obtain ⟨tvs, h1, h2, h3, h4⟩ := ih (fun y hy => h y (List.mem_cons_of_mem _ hy))
    obtain ⟨t, v, e1, e2, e3⟩ := h x (List.mem_cons_self _ _)
    refine ⟨(t, v) :: tvs, ?_, ?_, ?_, by simp [h4]⟩
    · simp [encodeItems, e1, h1]
    · intro tv htv
      rcases List.mem_cons.mp htv with rfl | hm
      · exact e2
      · exact h2 tv hm
    · simp only [List.map_cons, decodeItems, List.headD_nil, List.tail_nil, e3, h3, saveError]

/-- A slice that is not empty comes back from the nil slice with its elements
as they come back, in their order, and nothing beyond them. -/
theorem ValueOK_slice {α : Type} (fmt : FloatFmt)
    (enc : FloatFmt → α → Except GoError (List Char)) (dec : Json → α → α × Option GoError)
    (zero : α) (f : α → α) (goType : String) (d : Nat) (xs : Slice α)
    (h : ∀ x ∈ xs.items, ValueOK fmt enc dec zero d x (f x))
    (hne : emptySlice xs = false) :
    ValueOK fmt (encodeSlice enc) (decodeSlice dec zero goType) {} (d + 1) xs (xs.trim f) := by
  obtain ⟨tvs, h1, h2, h3, h4⟩ := roundtrip_items fmt enc dec zero f d xs.items h
  have hi : xs.items.isEmpty = false := hne
  have hne2 : tvs ≠ [] := by
    intro e
    subst e
    cases hxs : xs.items with
    | nil => simp [hxs] at hi
    | cons _ _ => simp [hxs] at h4
  have hne3 : (tvs.map Prod.snd).isEmpty = false := by
    cases tvs with
    | nil => exact absurd rfl hne2
    | cons _ _ => rfl
  refine ⟨_, _, ?_, Renders_array d tvs h2 hne2, ?_⟩
  · simp only [encodeSlice, hi, Bool.and_false, h1]
    rfl
  · simp only [decodeSlice, hne3, List.nil_append, h3, List.drop_nil, Slice.trim, hi]
    rfl

/-! ## Fields that survive, kind by kind -/

theorem field_string (fmt : FloatFmt) (d : Nat) (x : String) :
    (emptyString x = true → x = "") ∧
      (emptyString x = false → ValueOK fmt encodeString decodeString "" d x x) := by
  refine ⟨?_, fun _ => ValueOK_string fmt d "" x⟩
  intro h
  cases x with
  | mk data =>
    cases data with
    | nil => rfl
    | cons _ _ => simp [emptyString] at h

theorem field_int (fmt : FloatFmt) (goType : String) (d : Nat) (x : Int) (hx : Int64OK x) :
    (emptyInt x = true → x = 0) ∧
      (emptyInt x = false → ValueOK fmt encodeInt (decodeInt goType) 0 d x x) := by
  refine ⟨?_, fun _ => ValueOK_int fmt goType d 0 x hx⟩
  intro h
  simpa [emptyInt] using h

theorem field_float (fmt : FloatFmt) (d : Nat) (x : Float64) (hx : FloatOK fmt x) :
    (emptyFloat x = true → x = ⟨0⟩) ∧
      (emptyFloat x = false → ValueOK fmt encodeFloat decodeFloat ⟨0⟩ d x x) := by
  constructor
  · intro h
    cases x with
    | mk bits =>
      have h2 : bits ≠ 2 ^ 63 := hx.2.1
      have : bits = 0 := by
        simp only [emptyFloat, Bool.or_eq_true, beq_iff_eq] at h
        rcases h with h | h
        · exact h
        · exact absurd h h2
      rw [this]
  · intro h
    have h0 : x.bits ≠ 0 := by
      intro e
      simp [emptyFloat, e] at h
    exact ValueOK_float fmt d ⟨0⟩ x hx h0

theorem field_slice {α : Type} (fmt : FloatFmt)
    (enc : FloatFmt → α → Except GoError (List Char)) (dec : Json → α → α × Option GoError)
    (zero : α) (f : α → α) (goType : String) (d : Nat) (xs : Slice α)
    (h : ∀ x ∈ xs.items, ValueOK fmt enc dec zero d x (f x)) :
    (emptySlice xs = true → xs.trim f = {}) ∧
      (emptySlice xs = false →
        ValueOK fmt (encodeSlice enc) (decodeSlice dec zero goType) {} (d + 1)
          xs (xs.trim f)) := by
  refine ⟨?_, fun hne => ValueOK_slice fmt enc dec zero f goType d xs h hne⟩
  intro h0
  have hi : xs.items = [] := List.isEmpty_iff.mp h0
  simp [Slice.trim, hi]

theorem field_strings (fmt : FloatFmt) (d : Nat) (xs : Slice String) :
    (emptySlice xs = true → xs.trim id = {}) ∧
      (emptySlice xs = false →
        ValueOK fmt encodeStrings decodeStrings {} (d + 1) xs (xs.trim id)) :=
  field_slice fmt encodeString decodeString "" id "[]string" d xs
    (fun x _ => ValueOK_string fmt d "" x)

theorem field_record {α : Type} (fmt : FloatFmt)
    (enc : FloatFmt → α → Except GoError (List Char)) (dec : Json → α → α × Option GoError)
    (zero : α) (d : Nat) (x y : α) (h : ValueOK fmt enc dec zero d x y) :
    (neverEmpty x = true → y = zero) ∧
      (neverEmpty x = false → ValueOK fmt enc dec zero d x y) :=
  ⟨fun h0 => by simp [neverEmpty] at h0, fun _ => h⟩

/-! ## The records of the package -/

theorem flags_ext (s t : Flags) (h : ∀ c ∈ flagsCodecs, c.get t = c.get s) : t = s := by
  simp only [flagsCodecs, List.mem_cons, List.mem_singleton, List.not_mem_nil, or_false,
    forall_eq_or_imp, forall_eq] at h
  cases t
  cases s
  simp_all

theorem dataPoint_ext (s t : DataPoint) (h : ∀ c ∈ dataPointCodecs, c.get t = c.get s) : t = s := by
  simp only [dataPointCodecs, List.mem_cons, List.mem_singleton, List.not_mem_nil, or_false,
    forall_eq_or_imp, forall_eq] at h
  cases t
  cases s
  simp_all

theorem dataBlock_ext (s t : DataBlock) (h : ∀ c ∈ dataBlockCodecs, c.get t = c.get s) : t = s := by
  simp only [dataBlockCodecs, List.mem_cons, List.mem_singleton, List.not_mem_nil, or_false,
    forall_eq_or_imp, forall_eq] at h
  cases t
  cases s
  simp_all

theorem alert_ext (s t : Alert) (h : ∀ c ∈ alertCodecs, c.get t = c.get s) : t = s := by
  simp only [alertCodecs, List.mem_cons, List.mem_singleton, List.not_mem_nil, or_false,
    forall_eq_or_imp, forall_eq] at h
  cases t
  cases s
  simp_all

theorem forecast_ext (s t : Forecast) (h : ∀ c ∈ forecastCodecs, c.get t = c.get s) : t = s := by
  simp only [forecastCodecs, List.mem_cons, List.mem_singleton, List.not_mem_nil, or_false,
    forall_eq_or_imp, forall_eq] at h
  cases t
  cases s
  simp_all

theorem flags_fields_ok (fmt : FloatFmt) (s : Flags) :
    ∀ c ∈ flagsCodecs, CodecOK fmt 1 s s.trim {} c := by
  intro c hc
  simp only [flagsCodecs, List.mem_cons, List.mem_singleton, List.not_mem_nil, or_false] at hc
  rcases hc with rfl | rfl | rfl | rfl | rfl | rfl | rfl | rfl | rfl | rfl <;>
    first
    | exact field_string fmt 1 _
    | exact field_strings fmt 0 _

theorem ValueOK_flags (fmt : FloatFmt) (s : Flags) :
    ValueOK fmt encodeFlags decodeFlags {} 2 s s.trim :=
  ValueOK_struct fmt 1 s s.trim {} flagsCodecs "darksky.Flags" flagsCodecs_lawful
    (flags_fields_ok fmt s) (fun t h => flags_ext s.trim t h)

theorem dataPoint_fields_ok (fmt : FloatFmt) (s : DataPoint)
    (hf : ∀ x ∈ s.floats, FloatOK fmt x) (hi : ∀ n ∈ s.ints, Int64OK n) :
    ∀ c ∈ dataPointCodecs, CodecOK fmt 0 s s {} c := by
  intro c hc
  simp only [dataPointCodecs, List.mem_cons, List.mem_singleton, List.not_mem_nil, or_false] at hc
  rcases hc with rfl | rfl | rfl | rfl | rfl | rfl | rfl | rfl | rfl | rfl | rfl | rfl | rfl |
    rfl | rfl | rfl | rfl | rfl | rfl | rfl | rfl | rfl | rfl | rfl | rfl | rfl | rfl | rfl |
    rfl | rfl | rfl | rfl | rfl | rfl | rfl | rfl <;>
    first
    | exact field_string fmt 0 _
    | exact field_int fmt _ 0 _ (hi _ (by simp [DataPoint.ints]))
    | exact field_float fmt 0 _ (hf _ (by simp [DataPoint.floats]))

theorem ValueOK_dataPoint (fmt : FloatFmt) (s : DataPoint)
    (hf : ∀ x ∈ s.floats, FloatOK fmt x) (hi : ∀ n ∈ s.ints, Int64OK n) :
    ValueOK fmt encodeDataPoint decodeDataPoint {} 1 s s :=
  ValueOK_struct fmt 0 s s {} dataPointCodecs "darksky.DataPoint" dataPointCodecs_lawful
    (dataPoint_fields_ok fmt s hf hi) (fun t h => dataPoint_ext s t h)

theorem alert_fields_ok (fmt : FloatFmt) (s : Alert)
    (hf : ∀ x ∈ s.floats, FloatOK fmt x) (hi : ∀ n ∈ s.ints, Int64OK n) :
    ∀ c ∈ alertCodecs, CodecOK fmt 1 s s.trim {} c := by
  intro c hc
  simp only [alertCodecs, List.mem_cons, List.mem_singleton, List.not_mem_nil, or_false] at hc
  rcases hc with rfl | rfl | rfl | rfl | rfl | rfl | rfl <;>
    first
    | exact field_string fmt 1 _
    | exact field_int fmt _ 1 _ (hi _ (by simp [Alert.ints]))
    | exact field_float fmt 1 _ (hf _ (by simp [Alert.floats]))
    | exact field_strings fmt 0 _

theorem ValueOK_alert (fmt : FloatFmt) (s : Alert)
    (hf : ∀ x ∈ s.floats, FloatOK fmt x) (hi : ∀ n ∈ s.ints, Int64OK n) :
    ValueOK fmt encodeAlert decodeAlert {} 2 s s.trim :=
  ValueOK_struct fmt 1 s s.trim {} alertCodecs "darksky.Alert" alertCodecs_lawful
    (alert_fields_ok fmt s hf hi) (fun t h => alert_ext (s.trim) t h)

theorem dataBlock_fields_ok (fmt : FloatFmt) (s : DataBlock)
    (hf : ∀ x ∈ s.floats, FloatOK fmt x) (hi : ∀ n ∈ s.ints, Int64OK n) :
    ∀ c ∈ dataBlockCodecs, CodecOK fmt 2 s s.trim {} c := by
  intro c hc
  simp only [dataBlockCodecs, List.mem_cons, List.mem_singleton, List.not_mem_nil, or_false] at hc
  rcases hc with rfl | rfl | rfl
  · exact field_string fmt 2 _
  · exact field_string fmt 2 _
  · exact field_slice fmt encodeDataPoint decodeDataPoint {} id "[]darksky.DataPoint" 1 s.Data
      (fun p hp => ValueOK_dataPoint fmt p
        (fun x hx => hf x (List.mem_flatMap.mpr ⟨p, hp, hx⟩))
        (fun n hn => hi n (List.mem_flatMap.mpr ⟨p, hp, hn⟩)))

theorem ValueOK_dataBlock (fmt : FloatFmt) (s : DataBlock)
    (hf : ∀ x ∈ s.floats, FloatOK fmt x) (hi : ∀ n ∈ s.ints, Int64OK n) :
    ValueOK fmt encodeDataBlock decodeDataBlock {} 3 s s.trim :=
  ValueOK_struct fmt 2 s s.trim {} dataBlockCodecs "darksky.DataBlock" dataBlockCodecs_lawful
    (dataBlock_fields_ok fmt s hf hi) (fun t h => dataBlock_ext s.trim t h)

theorem forecast_fields_ok (fmt : FloatFmt) (s : Forecast)
    (hf : ∀ x ∈ s.floats, FloatOK fmt x) (hi : ∀ n ∈ s.ints, Int64OK n) :
    ∀ c ∈ forecastCodecs, CodecOK fmt 3 s s.trim {} c := by
  intro c hc
  simp only [forecastCodecs, List.mem_cons, List.mem_singleton, List.not_mem_nil, or_false] at hc
  rcases hc with rfl | rfl | rfl | rfl | rfl | rfl | rfl | rfl | rfl | rfl | rfl | rfl | rfl
  · exact field_float fmt 3 _ (hf _ (by simp [Forecast.floats]))
  · exact field_float fmt 3 _ (hf _ (by simp [Forecast.floats]))
  · exact field_string fmt 3 _
  · exact field_float fmt 3 _ (hf _ (by simp [Forecast.floats]))
  · exact field_record fmt encodeDataPoint decodeDataPoint {} 3 s.Currently s.Currently
      (ValueOK_mono (ValueOK_dataPoint fmt s.Currently
        (fun x hx => hf x (by simp [Forecast.floats, hx]))
        (fun n hn => hi n (by simp [Forecast.ints, hn]))) (by omega))
  · exact field_record fmt encodeDataBlock decodeDataBlock {} 3 s.Minutely s.Minutely.trim
      (ValueOK_dataBlock fmt s.Minutely
        (fun x hx => hf x (by simp [Forecast.floats, hx]))
        (fun n hn => hi n (by simp [Forecast.ints, hn])))
  · exact field_record fmt encodeDataBlock decodeDataBlock {} 3 s.Hourly s.Hourly.trim
      (ValueOK_dataBlock fmt s.Hourly
        (fun x hx => hf x (by simp [Forecast.floats, hx]))
        (fun n hn => hi n (by simp [Forecast.ints, hn])))
  · exact field_record fmt encodeDataBlock decodeDataBlock {} 3 s.Daily s.Daily.trim
      (ValueOK_dataBlock fmt s.Daily
        (fun x hx => hf x (by simp [Forecast.floats, hx]))
        (fun n hn => hi n (by simp [Forecast.ints, hn])))
  · exact field_slice fmt encodeAlert decodeAlert {} Alert.trim "[]darksky.Alert" 2 s.Alerts
      (fun a ha => ValueOK_alert fmt a
        (fun x hx => hf x (by
          simp only [Forecast.floats, List.mem_append, List.mem_flatMap]
          exact Or.inr ⟨a, ha, hx⟩))
        (fun n hn => hi n (by
          simp only [Forecast.ints, List.mem_append, List.mem_flatMap]
          exact Or.inl (Or.inr ⟨a, ha, hn⟩))))
  · exact field_record fmt encodeFlags decodeFlags {} 3 s.Flags s.Flags.trim
      (ValueOK_mono (ValueOK_flags fmt s.Flags) (by omega))
  · exact field_int fmt _ 3 _ (hi _ (by simp [Forecast.ints]))
  · exact field_int fmt _ 3 _ (hi _ (by simp [Forecast.ints]))
  · exact field_int fmt _ 3 _ (hi _ (by simp [Forecast.ints]))

/-- A forecast whose numbers survive is encoded as an object that `jsonDecode`
reads back into the zero record as the forecast, trimmed. -/
theorem jsonDecode_encodeForecast (fmt : FloatFmt) (f : Forecast)
    (hf : ∀ x ∈ f.floats, FloatOK fmt x) (hi : ∀ n ∈ f.ints, Int64OK n) :
    ∃ txt, encodeForecast fmt f = Except.ok txt ∧
      jsonDecode ⟨String.mk txt⟩ {} = (f.trim, none) := by
  obtain ⟨ms, h1, h2, h3⟩ := roundtrip_struct fmt 3 f f.trim {} forecastCodecs
    "darksky.Forecast" forecastCodecs_lawful (forecast_fields_ok fmt f hf hi)
    (fun t h => forecast_ext f.trim t h)
  refine ⟨_, h1, ?_⟩
  have hs := scanValue_object 3 ms h2 (by decide)
  show (match scanValue (String.mk _) with
    | Scanned.failed err => (({} : Forecast), some err)
    | Scanned.value v => decodeForecast v {}) = (f.trim, none)
  rw [hs]
  exact h3

/-- C9, as the code has it: a `Forecast` whose `float64` values are finite and
not the negative zero, whose integers are within `int64`, and of whose
non-zero `float64` values the encoder writes a number literal that `ParseFloat`
reads back, is encoded under the field names and `omitempty` options of the
struct tags without an error, and `fromJSON` decodes the text without an error
into the same `Forecast`, trimmed: every field is as it was and every sequence
has its elements in their order, but for what Go does not compare (what a
backing array holds beyond the length of a slice) and for an empty slice,
which comes back nil.  It does not matter which optional fields are present. -/
theorem Forecast_round_trip (fmt : FloatFmt) (f : Forecast)
    (hf : ∀ x ∈ f.floats, FloatOK fmt x) (hi : ∀ n ∈ f.ints, Int64OK n) :
    ∃ txt, encodeForecast fmt f = Except.ok txt ∧
      fromJSON jsonDecode ⟨String.mk txt⟩ = (some f.trim, none) := by
  obtain ⟨txt, h1, h2⟩ := jsonDecode_encodeForecast fmt f hf hi
  exact ⟨txt, h1, fromJSON_decoded jsonDecode _ f.trim h2⟩

/-- The round trip of C9 on the sample forecast, in which every optional field
is present and which trimming leaves as it is, and on the zero forecast, in
which no field is present. -/
theorem Forecast_round_trip_witness :
    sampleForecast.allPresent = true ∧ sampleForecast.trim = sampleForecast ∧
    (∃ txt, encodeForecast sampleFmt sampleForecast = Except.ok txt ∧
      fromJSON jsonDecode ⟨String.mk txt⟩ = (some sampleForecast.trim, none)) ∧
    (∃ txt, encodeForecast sampleFmt {} = Except.ok txt ∧
      fromJSON jsonDecode ⟨String.mk txt⟩ = (some ({} : Forecast).trim, none)) :=
  ⟨by decide!, by decide!,
    Forecast_round_trip sampleFmt sampleForecast (by decide!) (by decide!),
    Forecast_round_trip sampleFmt {} (by decide!) (by decide!)⟩

/-- C9 fails as stated: in `nanForecast` every optional field is present, and
its latitude is NaN; the encoder returns an `UnsupportedValueError` whatever
the formatter of the numbers, so there is no text to decode, and with no
formatter does the round trip hold of every Forecast with all optional fields
present. -/
theorem Forecast_round_trip_counterexample :
    nanForecast.allPresent = true ∧
    (∀ fmt : FloatFmt, encodeForecast fmt nanForecast =
      Except.error GoError.unsupportedValue) ∧
    ¬ (∃ fmt : FloatFmt, ∀ f : Forecast, f.allPresent = true →
        ∃ txt, encodeForecast fmt f = Except.ok txt ∧
          fromJSON jsonDecode ⟨String.mk txt⟩ = (some f, none)) := by
  have hnan : ∀ fmt : FloatFmt, encodeForecast fmt nanForecast =
      Except.error GoError.unsupportedValue := fun _ => rfl
  refine ⟨by decide!, hnan, ?_⟩
  rintro ⟨fmt, h⟩
  obtain ⟨txt, h1, _⟩ := h nanForecast (by decide!)
  rw [hnan] at h1
  cases h1

end Darksky
